import Mathlib

/-!
Verification development for the Go implementation of Knuth's elevator
simulator (TAOCP Vol. 1, Section 2.2.5) in `main/knuthElevator.go`.

The source file contains several drafts; the complete, self-consistent
variant (the one holding `immed`, the three scheduling handles, the floor
queues and the trace-producing main loop) is the one embedded here.

The embedding is shallow:
 * the doubly linked WAIT list with its sentinel head becomes a Lean
   `List WaitEntry` ordered front (next to fire, the sentinel's `rlink`
   side) to rear; node identity, which the Go code uses for O(1)
   cancellation through the `elev1`/`elev2`/`elev3` handles and the
   per-user `giveUp` handle, becomes a unique `Nat` id stamped on each
   entry from a counter carried by the simulator;
 * the scheduled closures (`newWaitFunc(s.executeOpenDoors)` etc.) become
   the inductive type `Act`, with user data captured in the constructor
   exactly where the Go closures capture the `*user` pointer;
 * the per-floor call registers, which Go keeps in length-5 slices,
   become total functions `Int → Bool` so that every access the Go code
   performs is representable; the safety claims then assert the indices
   stay in `0..4`;
 * the two random draws of step U1 are supplied by an oracle stream, one
   tuple of draws per main-loop iteration, constrained exactly as
   `rand.Int31n` constrains them.
-/

namespace KnuthElevator

/-- Number of floors, Go constant `floors`. -/
def floors : Int := 5

/-- Go constant `floorSubbasement`. -/
def floorSubbasement : Int := 0

/-- Go constant `floorBasement`. -/
def floorBasement : Int := 1

/-- Go constant `floorFirst`. -/
def floorFirst : Int := 2

/-- Go constant `floorSecond`. -/
def floorSecond : Int := 3

/-- Go constant `floorThird`. -/
def floorThird : Int := 4

/-- Go constant `floorHome = floorFirst`. -/
def floorHome : Int := floorFirst

/-- Go constant `stateGoingUp`.  In the Go const block `iota` counts the
const specs from the top of the block, so `stateGoingUp = iota` evaluates
to 7 (specs 0..6 are the five floor constants, `floorHome` and `floors`).
Only distinctness of the three state constants matters. -/
def stateGoingUp : Int := 7

/-- Go constant `stateGoingDown` (= 8, see `stateGoingUp`). -/
def stateGoingDown : Int := 8

/-- Go constant `stateNeutral` (= 9, see `stateGoingUp`). -/
def stateNeutral : Int := 9

/-- Go constant `stepWaitForCall` (step E1). -/
def stepWaitForCall : Int := 1

/-- Go constant `stepChangeOfState` (step E2). -/
def stepChangeOfState : Int := 2

/-- Go constant `stepOpenDoors` (step E3). -/
def stepOpenDoors : Int := 3

/-- Go constant `stepLetPeopleOutIn` (step E4). -/
def stepLetPeopleOutIn : Int := 4

/-- Go constant `stepCloseDoors` (step E5). -/
def stepCloseDoors : Int := 5

/-- Go constant `stepPrepareToMove` (step E6). -/
def stepPrepareToMove : Int := 6

/-- Go constant `stepGoUpAFloor` (step E7). -/
def stepGoUpAFloor : Int := 7

/-- Go constant `stepGoDownAFloor` (step E8). -/
def stepGoDownAFloor : Int := 8

/-- Go constant `stepSetInactionIndicator` (step E9). -/
def stepSetInactionIndicator : Int := 9

/-- Go constant `minGiveUpTime = 30 * 10`. -/
def minGiveUpTime : Int := 300

/-- Go constant `maxGiveUpTime = 2 * 60 * 10`. -/
def maxGiveUpTime : Int := 1200

/-- Go constant `minInterTime = 1 * 10`. -/
def minInterTime : Int := 10

/-- Go constant `maxInterTime = 90 * 10`. -/
def maxInterTime : Int := 900

/-- Go constant `maxTime = 1000 * 10`. -/
def maxTime : Int := 10000

/-- A user (rider), Go struct `user`.  `in`/`out` are Lean keywords, so
those two fields are called `uin`/`uout`.  The two mutable fields
`listNode` and `giveUp` of the Go struct are not stored here: list
membership is represented directly by which container list holds the
user, and the give-up handle lives in the simulator (`giveUpH`), keyed by
the user id, because Go mutates it through the shared `*user` pointer. -/
structure User where
  id : Nat
  uin : Int
  uout : Int
  giveUpTime : Int
deriving DecidableEq, Repr

/-- The closures placed on the WAIT list (`nextInst` of `waitElement`).
Each constructor names the Go method the corresponding
`newWaitFunc(...)` closure would invoke; the user-step closures capture
the `*user` they were built over. -/
inductive Act where
  | waitForCall
  | changeOfState
  | openDoors
  | letPeopleOutIn
  | closeDoors
  | prepareToMove
  | goUpAFloor
  | goUpAFloor2
  | goDownAFloor
  | goDownAFloor2
  | setInactionIndicator
  | enterPrepare
  | signalAndWait (u : User)
  | enterQueue (u : User)
  | giveUp (u : User)
  | getIn (u : User)
  | getOut (u : User)
deriving DecidableEq, Repr

/-- One node of the WAIT list: the Go `waitElement` (`nextTime`,
`nextInst`) plus the node identity `id` used to model cancellation by
pointer. -/
structure WaitEntry where
  id : Nat
  nextTime : Int
  act : Act
deriving DecidableEq, Repr

/-- Subroutine SORTIN (`func (x *node) sortIn`).  The Go code walks the
doubly linked WAIT list from the rear (`x = x.llink`) and inserts the new
element directly to the right of the first node found with
`nextTime ≤ w.nextTime`; the sentinel head, whose stored `nextTime` is 0,
backstops the walk (every time inserted during a run is ≥ 0).
Equivalently: the new entry is inserted immediately before the maximal
rear suffix whose entries all have `nextTime` strictly greater than the
new one, which is what this function computes on the front-to-rear
list. -/
def sortIn : List WaitEntry → WaitEntry → List WaitEntry
  | [], w => [w]
  | e :: es, w =>
      if (e :: es).all (fun x => decide (w.nextTime < x.nextTime)) then
        w :: e :: es
      else
        e :: sortIn es w

/-- Subroutine IMMED (`func (x *node) immed`): insert at the very front
of the WAIT list (`x.insertRight` on the sentinel head). -/
def immed (l : List WaitEntry) (w : WaitEntry) : List WaitEntry :=
  w :: l

/-- The WAIT list ordering invariant: entries are sorted by `nextTime`,
front to rear. -/
def agendaSorted (l : List WaitEntry) : Prop :=
  l.Pairwise (fun a b => a.nextTime ≤ b.nextTime)

theorem sortIn_cons (a : WaitEntry) (as : List WaitEntry) (w : WaitEntry) :
    sortIn (a :: as) w =
      if ((a :: as).all (fun x => decide (w.nextTime < x.nextTime))) then
        w :: a :: as
      else
        a :: sortIn as w := rfl

theorem mem_sortIn (l : List WaitEntry) (w e : WaitEntry) :
    e ∈ sortIn l w ↔ e = w ∨ e ∈ l := by
  induction l with
  | nil => simp [sortIn]
  | cons a as ih =>
      rw [sortIn_cons]
      by_cases h : ((a :: as).all (fun x => decide (w.nextTime < x.nextTime))) = true
      · simp [h]
      · rw [if_neg h]
        simp only [List.mem_cons, ih]
        tauto

theorem sortIn_split (l : List WaitEntry) (w : WaitEntry) :
    ∃ l1 l2, l = l1 ++ l2 ∧ sortIn l w = l1 ++ w :: l2 ∧
      ∀ e ∈ l2, w.nextTime < e.nextTime := by
  induction l with
  | nil => exact ⟨[], [], rfl, rfl, by simp⟩
  | cons a as ih =>
      by_cases h : ((a :: as).all (fun x => decide (w.nextTime < x.nextTime))) = true
      · refine ⟨[], a :: as, rfl, by rw [sortIn_cons, if_pos h]; rfl, ?_⟩
        intro e he
        have := List.all_eq_true.mp h e he
        simpa using this
      · obtain ⟨l1, l2, hsplit, hins, hgt⟩ := ih
        refine ⟨a :: l1, l2, by simp [hsplit], ?_, hgt⟩
        rw [sortIn_cons, if_neg h, hins]
        rfl

theorem sortIn_sorted (l : List WaitEntry) (w : WaitEntry)
    (h : agendaSorted l) : agendaSorted (sortIn l w) := by
  induction l with
  | nil => simp [sortIn, agendaSorted]
  | cons a as ih =>
      by_cases hall : ((a :: as).all (fun x => decide (w.nextTime < x.nextTime))) = true
      · have hlt : ∀ e ∈ a :: as, w.nextTime < e.nextTime := by
          intro e he
          simpa using List.all_eq_true.mp hall e he
        rw [sortIn_cons, if_pos hall]
        exact List.Pairwise.cons (fun e he => le_of_lt (hlt e he)) h
      · have htail : agendaSorted as := (List.pairwise_cons.mp h).2
        have hhead : ∀ e ∈ as, a.nextTime ≤ e.nextTime :=
          (List.pairwise_cons.mp h).1
        have haw : a.nextTime ≤ w.nextTime := by
          rcases List.all_eq_false.mp (Bool.not_eq_true _ ▸ hall) with ⟨x, hx, hxf⟩
          have hxle : x.nextTime ≤ w.nextTime := by
            by_contra hcon
            exact absurd (by simpa using lt_of_not_le hcon) (by simpa using hxf)
          rcases List.mem_cons.mp hx with rfl | hxas
          · exact hxle
          · exact le_trans (hhead x hxas) hxle
        rw [sortIn_cons, if_neg hall]
        refine List.Pairwise.cons ?_ (ih htail)
        intro e he
        rcases (mem_sortIn as w e).mp he with rfl | heas
        · exact haw
        · exact hhead e heas

theorem agendaSorted_filter (l : List WaitEntry) (p : WaitEntry → Bool)
    (h : agendaSorted l) : agendaSorted (l.filter p) :=
  List.Pairwise.sublist (List.filter_sublist l) h

theorem agendaSorted_tail (w : WaitEntry) (l : List WaitEntry)
    (h : agendaSorted (w :: l)) : agendaSorted l :=
  (List.pairwise_cons.mp h).2

theorem agendaSorted_immed (l : List WaitEntry) (i : Nat) (t : Int) (a : Act)
    (h : agendaSorted l) (hle : ∀ e ∈ l, t ≤ e.nextTime) :
    agendaSorted (immed l ⟨i, t, a⟩) :=
  List.Pairwise.cons (fun e he => hle e he) h

/-- `sortIn` never jumps over an entry that is due no later than the new
one; in particular a head entry already due fires before anything
inserted afterwards. -/
theorem sortIn_cons_of_head_le (e : WaitEntry) (l : List WaitEntry)
    (w : WaitEntry) (h : e.nextTime ≤ w.nextTime) :
    sortIn (e :: l) w = e :: sortIn l w := by
  have hnot : ¬ ((e :: l).all (fun x => decide (w.nextTime < x.nextTime))) = true := by
    intro hall
    have := List.all_eq_true.mp hall e (List.mem_cons_self e l)
    exact absurd (by simpa using this) (not_lt.mpr h)
  rw [sortIn_cons, if_neg hnot]

/-- Pointwise update of a per-floor register (`e.callUp[j] = b` etc.). -/
def upd (f : Int → Bool) (j : Int) (b : Bool) : Int → Bool :=
  fun k => if k = j then b else f k

/-- Pointwise update of the per-floor queues. -/
def updQ (f : Int → List User) (j : Int) (l : List User) : Int → List User :=
  fun k => if k = j then l else f k

/-- The integers `lo, lo+1, ..., hi-1`, the index set of a Go loop
`for j := lo; j < hi; j++` (empty when `hi ≤ lo`). -/
def intRange (lo hi : Int) : List Int :=
  (List.range (hi - lo).toNat).map (fun (k : Nat) => lo + (k : Int))

theorem mem_intRange (lo hi j : Int) :
    j ∈ intRange lo hi ↔ lo ≤ j ∧ j < hi := by
  constructor
  · intro h
    obtain ⟨k, hk, hkj⟩ := List.mem_map.mp h
    have hk2 : k < (hi - lo).toNat := List.mem_range.mp hk
    omega
  · intro hj
    refine List.mem_map.mpr ⟨(j - lo).toNat, List.mem_range.mpr ?_, ?_⟩
    · omega
    · show lo + (((j - lo).toNat : Nat) : Int) = j
      omega

/-- Go struct `elevator`.  The handles `elev1`/`elev2`/`elev3` hold the
id of the WAIT-list node they reference (`none` is Go's nil).  `stack`
lists the people on board, most recently boarded first (the `llink` end,
where `insertLeft` pushes and step E4 starts scanning).  `queue j` lists
the people waiting on floor `j`, front (`rlink` end, dequeued by E4)
first; `insertLeft` appends at the rear. -/
structure Elevator where
  callUp : Int → Bool
  callDown : Int → Bool
  callCar : Int → Bool
  floor : Int
  d1 : Bool
  d2 : Bool
  d3 : Bool
  state : Int
  step : Int
  elev1 : Option Nat
  elev2 : Option Nat
  elev3 : Option Nat
  stack : List User
  queue : Int → List User

/-- `func newElevator`: floor 2, flags down, state NEUTRAL, step E1,
empty stack and queues, nil handles. -/
def newElevator : Elevator :=
  { callUp := fun _ => false
    callDown := fun _ => false
    callCar := fun _ => false
    floor := floorHome
    d1 := false
    d2 := false
    d3 := false
    state := stateNeutral
    step := stepWaitForCall
    elev1 := none
    elev2 := none
    elev3 := none
    stack := []
    queue := fun _ => [] }

/-- Go struct `simulator`.  `nextId` is the id counter stamping WAIT-list
nodes (a model artifact standing for node identity), `giveUpH` maps a
user id to the id of that user's pending give-up node (the Go field
`u.giveUp`), and `halted`/`emptyErr` record that the main loop stopped
(normally / after reporting the empty-wait-list error). -/
structure Simulator where
  time : Int
  userID : Nat
  ele : Elevator
  wait : List WaitEntry
  nextId : Nat
  giveUpH : Nat → Option Nat
  halted : Bool
  emptyErr : Bool

/-- `func newSimulator` (the WAIT list holds only the sentinel, which the
list model represents by the empty list). -/
def newSimulator : Simulator :=
  { time := 0
    userID := 0
    ele := newElevator
    wait := []
    nextId := 0
    giveUpH := fun _ => none
    halted := false
    emptyErr := false }

/-- `s.wait.sortIn(newWaitElement(t, a))`, returning the updated
simulator together with the id of the inserted node. -/
def insertWait (s : Simulator) (t : Int) (a : Act) : Simulator × Nat :=
  ({ s with wait := sortIn s.wait ⟨s.nextId, t, a⟩, nextId := s.nextId + 1 }, s.nextId)

/-- `s.wait.immed(newWaitElement(s.time, a))`, result discarded. -/
def immedWait (s : Simulator) (a : Act) : Simulator :=
  { s with wait := immed s.wait ⟨s.nextId, s.time, a⟩, nextId := s.nextId + 1 }

/-- `s.wait.immed(newWaitElement(s.time, a))`, keeping the node id. -/
def immedWaitH (s : Simulator) (a : Act) : Simulator × Nat :=
  ({ s with wait := immed s.wait ⟨s.nextId, s.time, a⟩, nextId := s.nextId + 1 }, s.nextId)

/-- `(*node).delete()` applied through a stored reference: unlink the
node with the given id if it is still on the WAIT list.  Deleting an
already fired or already deleted node is a no-op, exactly as in Go,
where `delete` resets the removed node's links to itself. -/
def cancelId (s : Simulator) (h : Option Nat) : Simulator :=
  match h with
  | none => s
  | some i => { s with wait := s.wait.filter (fun en => decide (en.id ≠ i)) }

/-- The three `**node` handle slots of the elevator that
`scheduleElevator` / `scheduleElevatorImmediately` receive. -/
inductive Handle where
  | elev1
  | elev2
  | elev3
deriving DecidableEq, Repr

/-- Read a handle slot. -/
def getHandle (e : Elevator) : Handle → Option Nat
  | .elev1 => e.elev1
  | .elev2 => e.elev2
  | .elev3 => e.elev3

/-- Write a handle slot. -/
def setHandle (e : Elevator) : Handle → Option Nat → Elevator
  | .elev1, v => { e with elev1 := v }
  | .elev2, v => { e with elev2 := v }
  | .elev3, v => { e with elev3 := v }

/-- `func (s *simulator) scheduleElevator(elev **node, delay int, ...)`:
delete the entry the handle references, sort a fresh entry in at
`s.time + delay`, store the new reference. -/
def scheduleElevator (s : Simulator) (h : Handle) (delay : Int) (a : Act) : Simulator :=
  let s1 := cancelId s (getHandle s.ele h)
  let p := insertWait s1 (s1.time + delay) a
  { p.1 with ele := setHandle p.1.ele h (some p.2) }

/-- `func (s *simulator) scheduleElevatorImmediately(elev **node, ...)`:
delete the referenced entry, insert at the very front at the current
time, store the new reference. -/
def scheduleElevatorImmediately (s : Simulator) (h : Handle) (a : Act) : Simulator :=
  let s1 := cancelId s (getHandle s.ele h)
  let p := immedWaitH s1 a
  { p.1 with ele := setHandle p.1.ele h (some p.2) }

/-- `e.callUp[j] || e.callDown[j] || e.callCar[j]`, the test both scan
loops of the Go code perform on each floor. -/
def anyCallAt (e : Elevator) (j : Int) : Bool :=
  e.callUp j || e.callDown j || e.callCar j

/-- `func (s *simulator) isAllCallsAboveFalse`: the loop
`for j := floor+1; j < floors; j++` finds no asserted register. -/
def isAllCallsAboveFalse (e : Elevator) : Bool :=
  (intRange (e.floor + 1) floors).all (fun j => !(anyCallAt e j))

/-- `func (s *simulator) isAllCallsBelowFalse`: the loop
`for j := floor-1; j >= 0; j--` finds no asserted register (the
iteration order does not affect the result). -/
def isAllCallsBelowFalse (e : Elevator) : Bool :=
  (intRange 0 e.floor).all (fun j => !(anyCallAt e j))

/-- `u.listNode.delete()`: unlink this user's node from whichever list
holds it.  A user's node is only ever inserted into `queue[u.in]` (step
U3) or into the on-board stack (step U5), so removing the user's id from
both places is exactly the effect of the Go pointer unlink; on the list
that does not hold the node the removal is a no-op. -/
def deleteListNode (s : Simulator) (u : User) : Simulator :=
  { s with ele := { s.ele with
      stack := s.ele.stack.filter (fun v => decide (v.id ≠ u.id))
      queue := updQ s.ele.queue u.uin
        ((s.ele.queue u.uin).filter (fun v => decide (v.id ≠ u.id))) } }

/-- The two `rand.Int31n` draws of step U1 for one arrival, plus the two
duration draws: `r1 = Int31n(floors)`, `r2 = Int31n(floors-1)`,
`r3 = Int31n(maxGiveUpTime-minGiveUpTime)`,
`r4 = Int31n(maxInterTime-minInterTime)`. -/
structure Oracle where
  r1 : Int
  r2 : Int
  r3 : Int
  r4 : Int
deriving Repr

/-- The ranges `rand.Int31n` guarantees for the four draws. -/
def oracleValid (o : Oracle) : Prop :=
  0 ≤ o.r1 ∧ o.r1 < floors ∧ 0 ≤ o.r2 ∧ o.r2 < floors - 1 ∧
    0 ≤ o.r3 ∧ o.r3 < maxGiveUpTime - minGiveUpTime ∧
    0 ≤ o.r4 ∧ o.r4 < maxInterTime - minInterTime

instance (o : Oracle) : Decidable (oracleValid o) := by
  unfold oracleValid
  infer_instance

/-- Steps D4 and D5 of the DECISION subroutine, reached with the target
floor `j` (the label `D4:` of the Go code). -/
def decisionD4 (s : Simulator) (j : Int) : Simulator :=
  let s1 :=
    if s.ele.floor > j then { s with ele := { s.ele with state := stateGoingDown } }
    else if s.ele.floor < j then { s with ele := { s.ele with state := stateGoingUp } }
    else s
  if s1.ele.step = stepWaitForCall ∧ j ≠ 2 then
    scheduleElevator s1 Handle.elev1 20 Act.prepareToMove
  else s1

/-- Subroutine D, `func (s *simulator) decision`.  The scan of step D3
(`for j := 0; j < floors; j++` with `goto D4` on the first hit) is
`find?` over `intRange 0 floors`. -/
def decision (s : Simulator) : Simulator :=
  if s.ele.state ≠ stateNeutral then s
  else if s.ele.step = stepWaitForCall ∧
      (s.ele.callUp floorHome || s.ele.callCar floorHome ||
        s.ele.callDown floorHome) then
    scheduleElevator s Handle.elev1 20 Act.openDoors
  else
    match (intRange 0 floors).find?
        (fun j => decide (j ≠ s.ele.floor) && anyCallAt s.ele j) with
    | some j => decisionD4 s j
    | none =>
        if s.ele.step = stepPrepareToMove then decisionD4 s 2 else s

/-- U1, `func (s *simulator) userEnterPrepareForSuccessor`: draw the new
user, sort in the next arrival at `time + interTime`, and send this user
to U2 at the front of the WAIT list. -/
def userEnterPrepareForSuccessor (o : Oracle) (s : Simulator) : Simulator :=
  let uid := s.userID + 1
  let inF := o.r1
  let outF := if o.r2 ≥ inF then o.r2 + 1 else o.r2
  let u : User := ⟨uid, inF, outF, minGiveUpTime + o.r3⟩
  let s1 := { s with userID := uid }
  let s2 := (insertWait s1 (s1.time + (minInterTime + o.r4)) Act.enterPrepare).1
  immedWait s2 (Act.signalAndWait u)

/-- U2, `func (s *simulator) userSignalAndWait`. -/
def userSignalAndWait (s : Simulator) (u : User) : Simulator :=
  let s1 :=
    if s.ele.floor = u.uin ∧ s.ele.step = stepCloseDoors then
      scheduleElevatorImmediately s Handle.elev1 Act.openDoors
    else if s.ele.floor = u.uin ∧ s.ele.d3 then
      scheduleElevatorImmediately
        { s with ele := { s.ele with d3 := false, d1 := true } }
        Handle.elev1 Act.letPeopleOutIn
    else
      let s' :=
        if u.uout > u.uin then
          { s with ele := { s.ele with callUp := upd s.ele.callUp u.uin true } }
        else
          { s with ele := { s.ele with callDown := upd s.ele.callDown u.uin true } }
      if ¬ s'.ele.d2 ∨ s'.ele.step = stepWaitForCall then decision s' else s'
  immedWait s1 (Act.enterQueue u)

/-- U3, `func (s *simulator) userEnterQueue`: enqueue at the rear of
`queue[u.in]` and schedule the give-up action, storing its node in the
user's `giveUp` field. -/
def userEnterQueue (s : Simulator) (u : User) : Simulator :=
  let s1 := { s with ele := { s.ele with
      queue := updQ s.ele.queue u.uin (s.ele.queue u.uin ++ [u]) } }
  let p := insertWait s1 (s1.time + u.giveUpTime) (Act.giveUp u)
  { p.1 with giveUpH := fun k => if k = u.id then some p.2 else p.1.giveUpH k }

/-- U4, `func (s *simulator) userGiveUp`. -/
def userGiveUp (s : Simulator) (u : User) : Simulator :=
  if s.ele.floor ≠ u.uin ∨ s.ele.d1 = false then deleteListNode s u else s

/-- U5, `func (s *simulator) userGetIn`: leave the queue, cancel the
give-up node, push onto the on-board stack (`insertLeft`, most recent
first), press the destination button, and if the state is NEUTRAL pick a
direction and reschedule E5 at `+25`. -/
def userGetIn (s : Simulator) (u : User) : Simulator :=
  let s1 := deleteListNode s u
  let s2 := cancelId s1 (s1.giveUpH u.id)
  let s3 := { s2 with ele := { s2.ele with
      stack := u :: s2.ele.stack
      callCar := upd s2.ele.callCar u.uout true } }
  if s3.ele.state = stateNeutral then
    let s4 := { s3 with ele := { s3.ele with
        state := if u.uout > u.uin then stateGoingUp else stateGoingDown } }
    scheduleElevator s4 Handle.elev2 25 Act.closeDoors
  else s3

/-- U6, `func (s *simulator) userGetOut`. -/
def userGetOut (s : Simulator) (u : User) : Simulator :=
  deleteListNode s u

/-- E1, `func (s *simulator) executeWaitForCall`. -/
def executeWaitForCall (s : Simulator) : Simulator :=
  { s with ele := { s.ele with step := stepWaitForCall } }

/-- Clearing `callUp[floor]`, `callDown[floor]`, `callCar[floor]`. -/
def clearFloorCalls (e : Elevator) : Elevator :=
  { e with
    callUp := upd e.callUp e.floor false
    callDown := upd e.callDown e.floor false
    callCar := upd e.callCar e.floor false }

/-- E2, `func (s *simulator) executeChangeOfState`. -/
def executeChangeOfState (s : Simulator) : Simulator :=
  let e := { s.ele with step := stepChangeOfState }
  let e1 :=
    if e.state = stateGoingUp ∧ isAllCallsAboveFalse e then
      clearFloorCalls { e with
        state := if isAllCallsBelowFalse e then stateNeutral else stateGoingDown }
    else if e.state = stateGoingDown ∧ isAllCallsBelowFalse e then
      clearFloorCalls { e with
        state := if isAllCallsAboveFalse e then stateNeutral else stateGoingUp }
    else e
  scheduleElevatorImmediately { s with ele := e1 } Handle.elev1 Act.openDoors

/-- E3, `func (s *simulator) executeOpenDoors`. -/
def executeOpenDoors (s : Simulator) : Simulator :=
  let s1 := { s with ele := { s.ele with step := stepOpenDoors, d1 := true, d2 := true } }
  let s2 := scheduleElevator s1 Handle.elev3 300 Act.setInactionIndicator
  let s3 := scheduleElevator s2 Handle.elev2 76 Act.closeDoors
  scheduleElevator s3 Handle.elev1 20 Act.letPeopleOutIn

/-- E4, `func (s *simulator) executeLetPeopleOutIn`.  The Go loop over
the on-board stack starts at the `llink` end (most recently boarded) and
stops at the first user whose destination is the current floor, which is
`find?` on `stack`; the loop over `queue[floor]` starts at the `rlink`
end and fires for the front user, which is the head of `queue floor`. -/
def executeLetPeopleOutIn (s : Simulator) : Simulator :=
  let s0 := { s with ele := { s.ele with step := stepLetPeopleOutIn } }
  match s0.ele.stack.find? (fun u => u.uout == s0.ele.floor) with
  | some u =>
      let s1 := immedWait s0 (Act.getOut u)
      scheduleElevator s1 Handle.elev1 25 Act.letPeopleOutIn
  | none =>
      match s0.ele.queue s0.ele.floor with
      | u :: _ =>
          let s1 := immedWait s0 (Act.getIn u)
          scheduleElevator s1 Handle.elev1 25 Act.letPeopleOutIn
      | [] => { s0 with ele := { s0.ele with d1 := false, d3 := true } }

/-- E5, `func (s *simulator) executeCloseDoors`. -/
def executeCloseDoors (s : Simulator) : Simulator :=
  let s0 := { s with ele := { s.ele with step := stepCloseDoors } }
  if s0.ele.d1 then
    scheduleElevator s0 Handle.elev2 40 Act.closeDoors
  else
    scheduleElevator { s0 with ele := { s0.ele with d3 := false } }
      Handle.elev1 20 Act.prepareToMove

/-- E6, `func (s *simulator) executePrepareToMove`. -/
def executePrepareToMove (s : Simulator) : Simulator :=
  let e := { s.ele with step := stepPrepareToMove }
  let e := { e with callCar := upd e.callCar e.floor false }
  let e :=
    if e.state ≠ stateGoingDown then { e with callUp := upd e.callUp e.floor false } else e
  let e :=
    if e.state ≠ stateGoingUp then { e with callDown := upd e.callDown e.floor false } else e
  let s1 := decision { s with ele := e }
  if s1.ele.state = stateNeutral then
    scheduleElevatorImmediately s1 Handle.elev1 Act.waitForCall
  else
    let s2 := if s1.ele.d2 then cancelId s1 s1.ele.elev3 else s1
    if s1.ele.state = stateGoingUp then
      scheduleElevator s2 Handle.elev1 15 Act.goUpAFloor
    else
      scheduleElevator s2 Handle.elev1 15 Act.goDownAFloor

/-- E7 first half, `func (s *simulator) executeGoUpAFloor`: move up one
floor and wait 51 units before testing whether to stop. -/
def executeGoUpAFloor (s : Simulator) : Simulator :=
  let s1 := { s with ele := { s.ele with step := stepGoUpAFloor, floor := s.ele.floor + 1 } }
  scheduleElevator s1 Handle.elev1 51 Act.goUpAFloor2

/-- E7 second half, `func (s *simulator) executeGoUpAFloor2`: stop test
after arriving at the new floor. -/
def executeGoUpAFloor2 (s : Simulator) : Simulator :=
  if s.ele.callCar s.ele.floor || s.ele.callUp s.ele.floor ||
      ((s.ele.floor == 2 || s.ele.callDown s.ele.floor) && isAllCallsAboveFalse s.ele) then
    scheduleElevator s Handle.elev1 14 Act.changeOfState
  else
    scheduleElevatorImmediately s Handle.elev1 Act.goUpAFloor

/-- E8 first half, `func (s *simulator) executeGoDownAFloor`. -/
def executeGoDownAFloor (s : Simulator) : Simulator :=
  let s1 := { s with ele := { s.ele with step := stepGoDownAFloor, floor := s.ele.floor - 1 } }
  scheduleElevator s1 Handle.elev1 61 Act.goDownAFloor2

/-- E8 second half, `func (s *simulator) executeGoDownAFloor2`. -/
def executeGoDownAFloor2 (s : Simulator) : Simulator :=
  if s.ele.callCar s.ele.floor || s.ele.callDown s.ele.floor ||
      ((s.ele.floor == 2 || s.ele.callUp s.ele.floor) && isAllCallsBelowFalse s.ele) then
    scheduleElevator s Handle.elev1 23 Act.changeOfState
  else
    scheduleElevatorImmediately s Handle.elev1 Act.goDownAFloor

/-- E9, `func (s *simulator) executeSetInactionIndicator`: clear D2 and
perform the DECISION subroutine; nothing else is touched. -/
def executeSetInactionIndicator (s : Simulator) : Simulator :=
  decision { s with ele := { s.ele with d2 := false } }

/-- Dispatch a popped WAIT-list action, the `w.nextInst.execute()` call
of the main loop.  The oracle supplies the random draws consumed when the
action is step U1. -/
def execute (o : Oracle) (a : Act) (s : Simulator) : Simulator :=
  match a with
  | .waitForCall => executeWaitForCall s
  | .changeOfState => executeChangeOfState s
  | .openDoors => executeOpenDoors s
  | .letPeopleOutIn => executeLetPeopleOutIn s
  | .closeDoors => executeCloseDoors s
  | .prepareToMove => executePrepareToMove s
  | .goUpAFloor => executeGoUpAFloor s
  | .goUpAFloor2 => executeGoUpAFloor2 s
  | .goDownAFloor => executeGoDownAFloor s
  | .goDownAFloor2 => executeGoDownAFloor2 s
  | .setInactionIndicator => executeSetInactionIndicator s
  | .enterPrepare => userEnterPrepareForSuccessor o s
  | .signalAndWait u => userSignalAndWait s u
  | .enterQueue u => userEnterQueue s u
  | .giveUp u => userGiveUp s u
  | .getIn u => userGetIn s u
  | .getOut u => userGetOut s u

/-- One iteration of the `for` loop of `func main`: if the WAIT list is
empty, report the error and stop; otherwise unlink the first node,
advance the clock to its `nextTime`, stop if the maximum simulated time
is reached, and otherwise execute the node's action.  After the loop has
stopped (`halted`), nothing further happens. -/
def mainStep (o : Oracle) (s : Simulator) : Simulator :=
  if s.halted then s
  else
    match s.wait with
    | [] => { s with halted := true, emptyErr := true }
    | n :: rest =>
        let s1 := { s with wait := rest, time := n.nextTime }
        if n.nextTime ≥ maxTime then { s1 with halted := true }
        else execute o n.act s1

/-- The state entering the main loop: `newSimulator` after the direct
call `s.userEnterPrepareForSuccessor()` of `func main`. -/
def initSim (o : Oracle) : Simulator :=
  userEnterPrepareForSuccessor o newSimulator

/-- The state after `n` main-loop iterations, the oracle stream supplying
the U1 draws (`os k` is consumed by iteration `k` when its action is step
U1, and ignored otherwise). -/
def runN (os : Nat → Oracle) : Nat → Simulator
  | 0 => initSim (os 0)
  | n + 1 => mainStep (os (n + 1)) (runN os n)

section FrameLemmas

variable (s : Simulator) (e : Elevator) (h : Handle) (v : Option Nat)
variable (t delay : Int) (a : Act) (ho : Option Nat) (u : User)

@[simp] theorem setHandle_callUp : (setHandle e h v).callUp = e.callUp := by cases h <;> rfl

@[simp] theorem setHandle_callDown : (setHandle e h v).callDown = e.callDown := by cases h <;> rfl

@[simp] theorem setHandle_callCar : (setHandle e h v).callCar = e.callCar := by cases h <;> rfl

@[simp] theorem setHandle_floor : (setHandle e h v).floor = e.floor := by cases h <;> rfl

@[simp] theorem setHandle_d1 : (setHandle e h v).d1 = e.d1 := by cases h <;> rfl

@[simp] theorem setHandle_d2 : (setHandle e h v).d2 = e.d2 := by cases h <;> rfl

@[simp] theorem setHandle_d3 : (setHandle e h v).d3 = e.d3 := by cases h <;> rfl

@[simp] theorem setHandle_state : (setHandle e h v).state = e.state := by cases h <;> rfl

@[simp] theorem setHandle_step : (setHandle e h v).step = e.step := by cases h <;> rfl

@[simp] theorem setHandle_stack : (setHandle e h v).stack = e.stack := by cases h <;> rfl

@[simp] theorem setHandle_queue : (setHandle e h v).queue = e.queue := by cases h <;> rfl

@[simp] theorem cancelId_ele : (cancelId s ho).ele = s.ele := by cases ho <;> rfl

@[simp] theorem cancelId_time : (cancelId s ho).time = s.time := by cases ho <;> rfl

@[simp] theorem cancelId_userID : (cancelId s ho).userID = s.userID := by cases ho <;> rfl

@[simp] theorem cancelId_nextId : (cancelId s ho).nextId = s.nextId := by cases ho <;> rfl

@[simp] theorem cancelId_giveUpH : (cancelId s ho).giveUpH = s.giveUpH := by cases ho <;> rfl

@[simp] theorem cancelId_halted : (cancelId s ho).halted = s.halted := by cases ho <;> rfl

@[simp] theorem cancelId_emptyErr : (cancelId s ho).emptyErr = s.emptyErr := by cases ho <;> rfl

@[simp] theorem insertWait_ele : ((insertWait s t a).1).ele = s.ele := rfl

@[simp] theorem insertWait_time : ((insertWait s t a).1).time = s.time := rfl

@[simp] theorem insertWait_userID : ((insertWait s t a).1).userID = s.userID := rfl

@[simp] theorem insertWait_giveUpH : ((insertWait s t a).1).giveUpH = s.giveUpH := rfl

@[simp] theorem insertWait_halted : ((insertWait s t a).1).halted = s.halted := rfl

@[simp] theorem insertWait_emptyErr : ((insertWait s t a).1).emptyErr = s.emptyErr := rfl

@[simp] theorem insertWait_nextId : ((insertWait s t a).1).nextId = s.nextId + 1 := rfl

@[simp] theorem insertWait_wait : ((insertWait s t a).1).wait = sortIn s.wait ⟨s.nextId, t, a⟩ := rfl

@[simp] theorem insertWait_snd : (insertWait s t a).2 = s.nextId := rfl

@[simp] theorem immedWait_ele : (immedWait s a).ele = s.ele := rfl

@[simp] theorem immedWait_time : (immedWait s a).time = s.time := rfl

@[simp] theorem immedWait_userID : (immedWait s a).userID = s.userID := rfl

@[simp] theorem immedWait_giveUpH : (immedWait s a).giveUpH = s.giveUpH := rfl

@[simp] theorem immedWait_halted : (immedWait s a).halted = s.halted := rfl

@[simp] theorem immedWait_emptyErr : (immedWait s a).emptyErr = s.emptyErr := rfl

@[simp] theorem immedWait_wait : (immedWait s a).wait = ⟨s.nextId, s.time, a⟩ :: s.wait := rfl

@[simp] theorem immedWait_nextId : (immedWait s a).nextId = s.nextId + 1 := rfl

@[simp] theorem scheduleElevator_ele :
    (scheduleElevator s h delay a).ele = setHandle s.ele h (some s.nextId) := by
  unfold scheduleElevator
  cases hh : getHandle s.ele h <;> simp [cancelId, hh]

@[simp] theorem scheduleElevator_time : (scheduleElevator s h delay a).time = s.time := by
  unfold scheduleElevator
  cases hh : getHandle s.ele h <;> simp [cancelId, hh]

@[simp] theorem scheduleElevator_userID : (scheduleElevator s h delay a).userID = s.userID := by
  unfold scheduleElevator
  cases hh : getHandle s.ele h <;> simp [cancelId, hh]

@[simp] theorem scheduleElevator_giveUpH :
    (scheduleElevator s h delay a).giveUpH = s.giveUpH := by
  unfold scheduleElevator
  cases hh : getHandle s.ele h <;> simp [cancelId, hh]

@[simp] theorem scheduleElevator_halted :
    (scheduleElevator s h delay a).halted = s.halted := by
  unfold scheduleElevator
  cases hh : getHandle s.ele h <;> simp [cancelId, hh]

@[simp] theorem scheduleElevator_nextId :
    (scheduleElevator s h delay a).nextId = s.nextId + 1 := by
  unfold scheduleElevator
  cases hh : getHandle s.ele h <;> simp [cancelId, hh]

theorem scheduleElevator_wait :
    (scheduleElevator s h delay a).wait =
      sortIn ((cancelId s (getHandle s.ele h)).wait) ⟨s.nextId, s.time + delay, a⟩ := by
  unfold scheduleElevator
  cases hh : getHandle s.ele h <;> simp [cancelId, hh]

@[simp] theorem scheduleElevatorImmediately_ele :
    (scheduleElevatorImmediately s h a).ele = setHandle s.ele h (some s.nextId) := by
  unfold scheduleElevatorImmediately
  cases hh : getHandle s.ele h <;> simp [cancelId, immedWaitH, hh]

@[simp] theorem scheduleElevatorImmediately_time :
    (scheduleElevatorImmediately s h a).time = s.time := by
  unfold scheduleElevatorImmediately
  cases hh : getHandle s.ele h <;> simp [cancelId, immedWaitH, hh]

@[simp] theorem scheduleElevatorImmediately_userID :
    (scheduleElevatorImmediately s h a).userID = s.userID := by
  unfold scheduleElevatorImmediately
  cases hh : getHandle s.ele h <;> simp [cancelId, immedWaitH, hh]

@[simp] theorem scheduleElevatorImmediately_giveUpH :
    (scheduleElevatorImmediately s h a).giveUpH = s.giveUpH := by
  unfold scheduleElevatorImmediately
  cases hh : getHandle s.ele h <;> simp [cancelId, immedWaitH, hh]

@[simp] theorem scheduleElevatorImmediately_halted :
    (scheduleElevatorImmediately s h a).halted = s.halted := by
  unfold scheduleElevatorImmediately
  cases hh : getHandle s.ele h <;> simp [cancelId, immedWaitH, hh]

@[simp] theorem scheduleElevatorImmediately_nextId :
    (scheduleElevatorImmediately s h a).nextId = s.nextId + 1 := by
  unfold scheduleElevatorImmediately
  cases hh : getHandle s.ele h <;> simp [cancelId, immedWaitH, hh]

theorem scheduleElevatorImmediately_wait :
    (scheduleElevatorImmediately s h a).wait =
      ⟨s.nextId, s.time, a⟩ :: (cancelId s (getHandle s.ele h)).wait := by
  unfold scheduleElevatorImmediately
  cases hh : getHandle s.ele h <;> simp [cancelId, immedWaitH, immed, hh]

@[simp] theorem deleteListNode_time : (deleteListNode s u).time = s.time := rfl

@[simp] theorem deleteListNode_wait : (deleteListNode s u).wait = s.wait := rfl

@[simp] theorem deleteListNode_nextId : (deleteListNode s u).nextId = s.nextId := rfl

@[simp] theorem deleteListNode_giveUpH : (deleteListNode s u).giveUpH = s.giveUpH := rfl

@[simp] theorem deleteListNode_step : (deleteListNode s u).ele.step = s.ele.step := rfl

@[simp] theorem deleteListNode_floor : (deleteListNode s u).ele.floor = s.ele.floor := rfl

@[simp] theorem deleteListNode_state : (deleteListNode s u).ele.state = s.ele.state := rfl

@[simp] theorem deleteListNode_d1 : (deleteListNode s u).ele.d1 = s.ele.d1 := rfl

@[simp] theorem deleteListNode_d2 : (deleteListNode s u).ele.d2 = s.ele.d2 := rfl

@[simp] theorem deleteListNode_d3 : (deleteListNode s u).ele.d3 = s.ele.d3 := rfl

@[simp] theorem deleteListNode_callUp : (deleteListNode s u).ele.callUp = s.ele.callUp := rfl

@[simp] theorem deleteListNode_callDown :
    (deleteListNode s u).ele.callDown = s.ele.callDown := rfl

@[simp] theorem deleteListNode_callCar : (deleteListNode s u).ele.callCar = s.ele.callCar := rfl

@[simp] theorem deleteListNode_elev1 : (deleteListNode s u).ele.elev1 = s.ele.elev1 := rfl

@[simp] theorem deleteListNode_elev2 : (deleteListNode s u).ele.elev2 = s.ele.elev2 := rfl

@[simp] theorem deleteListNode_elev3 : (deleteListNode s u).ele.elev3 = s.ele.elev3 := rfl

@[simp] theorem deleteListNode_halted : (deleteListNode s u).halted = s.halted := rfl

end FrameLemmas

section DecisionFrame

variable (s : Simulator) (j : Int)

theorem decisionD4_frame :
    (decisionD4 s j).ele.step = s.ele.step ∧
    (decisionD4 s j).ele.floor = s.ele.floor ∧
    (decisionD4 s j).ele.d1 = s.ele.d1 ∧
    (decisionD4 s j).ele.d2 = s.ele.d2 ∧
    (decisionD4 s j).ele.d3 = s.ele.d3 ∧
    (decisionD4 s j).ele.callUp = s.ele.callUp ∧
    (decisionD4 s j).ele.callDown = s.ele.callDown ∧
    (decisionD4 s j).ele.callCar = s.ele.callCar ∧
    (decisionD4 s j).ele.stack = s.ele.stack ∧
    (decisionD4 s j).ele.queue = s.ele.queue ∧
    (decisionD4 s j).time = s.time ∧
    (decisionD4 s j).halted = s.halted := by
  simp only [decisionD4]
  split_ifs <;> simp

theorem decision_frame :
    (decision s).ele.step = s.ele.step ∧
    (decision s).ele.floor = s.ele.floor ∧
    (decision s).ele.d1 = s.ele.d1 ∧
    (decision s).ele.d2 = s.ele.d2 ∧
    (decision s).ele.d3 = s.ele.d3 ∧
    (decision s).ele.callUp = s.ele.callUp ∧
    (decision s).ele.callDown = s.ele.callDown ∧
    (decision s).ele.callCar = s.ele.callCar ∧
    (decision s).ele.stack = s.ele.stack ∧
    (decision s).ele.queue = s.ele.queue ∧
    (decision s).time = s.time ∧
    (decision s).halted = s.halted := by
  unfold decision
  split
  · simp
  · split
    · simp
    · split
      · exact decisionD4_frame s _
      · split
        · exact decisionD4_frame s 2
        · simp

theorem decision_time (s : Simulator) : (decision s).time = s.time :=
  (decision_frame s).2.2.2.2.2.2.2.2.2.2.1

end DecisionFrame

section StepValues

variable (o : Oracle) (s : Simulator) (u : User)

@[simp] theorem clearFloorCalls_floor (e : Elevator) : (clearFloorCalls e).floor = e.floor := rfl

@[simp] theorem clearFloorCalls_step (e : Elevator) : (clearFloorCalls e).step = e.step := rfl

@[simp] theorem clearFloorCalls_state (e : Elevator) : (clearFloorCalls e).state = e.state := rfl

@[simp] theorem clearFloorCalls_d1 (e : Elevator) : (clearFloorCalls e).d1 = e.d1 := rfl

@[simp] theorem clearFloorCalls_d2 (e : Elevator) : (clearFloorCalls e).d2 = e.d2 := rfl

@[simp] theorem clearFloorCalls_d3 (e : Elevator) : (clearFloorCalls e).d3 = e.d3 := rfl

@[simp] theorem clearFloorCalls_stack (e : Elevator) : (clearFloorCalls e).stack = e.stack := rfl

@[simp] theorem clearFloorCalls_queue (e : Elevator) : (clearFloorCalls e).queue = e.queue := rfl

theorem executeWaitForCall_step : (executeWaitForCall s).ele.step = stepWaitForCall := rfl

theorem executeChangeOfState_step :
    (executeChangeOfState s).ele.step = stepChangeOfState := by
  simp only [executeChangeOfState]
  split_ifs <;> simp

theorem executeOpenDoors_step : (executeOpenDoors s).ele.step = stepOpenDoors := by
  simp [executeOpenDoors]

theorem executeLetPeopleOutIn_step :
    (executeLetPeopleOutIn s).ele.step = stepLetPeopleOutIn := by
  simp only [executeLetPeopleOutIn]
  split
  · simp
  · split <;> simp

theorem executeCloseDoors_step : (executeCloseDoors s).ele.step = stepCloseDoors := by
  simp only [executeCloseDoors]
  split_ifs <;> simp

theorem executePrepareToMove_step :
    (executePrepareToMove s).ele.step = stepPrepareToMove := by
  simp only [executePrepareToMove]
  split_ifs <;> simp [(decision_frame _).1]

theorem executeGoUpAFloor_step : (executeGoUpAFloor s).ele.step = stepGoUpAFloor := by
  simp [executeGoUpAFloor]

theorem executeGoDownAFloor_step : (executeGoDownAFloor s).ele.step = stepGoDownAFloor := by
  simp [executeGoDownAFloor]

theorem executeGoUpAFloor2_step : (executeGoUpAFloor2 s).ele.step = s.ele.step := by
  simp only [executeGoUpAFloor2]
  split_ifs <;> simp

theorem executeGoDownAFloor2_step : (executeGoDownAFloor2 s).ele.step = s.ele.step := by
  simp only [executeGoDownAFloor2]
  split_ifs <;> simp

theorem executeSetInactionIndicator_step :
    (executeSetInactionIndicator s).ele.step = s.ele.step :=
  (decision_frame _).1

theorem userEnterPrepareForSuccessor_ele :
    (userEnterPrepareForSuccessor o s).ele = s.ele := rfl

theorem userSignalAndWait_step : (userSignalAndWait s u).ele.step = s.ele.step := by
  simp only [userSignalAndWait]
  split_ifs <;> simp [(decision_frame _).1]

theorem userEnterQueue_step : (userEnterQueue s u).ele.step = s.ele.step := rfl

theorem userGiveUp_step : (userGiveUp s u).ele.step = s.ele.step := by
  simp only [userGiveUp]
  split_ifs <;> simp

theorem userGetIn_step : (userGetIn s u).ele.step = s.ele.step := by
  simp only [userGetIn]
  split_ifs <;> simp

theorem userGetOut_step : (userGetOut s u).ele.step = s.ele.step := rfl

/-- Every value the Go code ever assigns to the `step` field is one of
the constants E1..E8; no action assigns E9. -/
theorem execute_step_ne9 (a : Act) (h : s.ele.step ≠ stepSetInactionIndicator) :
    (execute o a s).ele.step ≠ stepSetInactionIndicator := by
  cases a <;>
    simp only [execute, executeWaitForCall_step, executeChangeOfState_step,
      executeOpenDoors_step, executeLetPeopleOutIn_step, executeCloseDoors_step,
      executePrepareToMove_step, executeGoUpAFloor_step, executeGoDownAFloor_step,
      executeGoUpAFloor2_step, executeGoDownAFloor2_step,
      executeSetInactionIndicator_step, userEnterPrepareForSuccessor_ele,
      userSignalAndWait_step, userEnterQueue_step, userGiveUp_step, userGetIn_step,
      userGetOut_step] <;>
    first
      | exact h
      | decide

theorem runN_step_ne9 (os : Nat → Oracle) (n : Nat) :
    (runN os n).ele.step ≠ stepSetInactionIndicator := by
  induction n with
  | zero =>
      show (initSim (os 0)).ele.step ≠ stepSetInactionIndicator
      rw [initSim, userEnterPrepareForSuccessor_ele]
      decide
  | succ n ih =>
      show (mainStep (os (n + 1)) (runN os n)).ele.step ≠ stepSetInactionIndicator
      unfold mainStep
      split
      · exact ih
      · split
        · exact ih
        · split
          · exact ih
          · exact execute_step_ne9 _ _ _ ih

end StepValues

/-- C10: firing the watchdog E9 (`executeSetInactionIndicator`) only
clears the inactivity flag D2 before invoking the DECISION subroutine:
the step register, the floor, the other door flags, the call registers,
the on-board stack and the floor queues are all left unchanged, so when
the DECISION subroutine's dormancy tests read `step` they see the primary
sequence's position; moreover no action of a run ever assigns
`stepSetInactionIndicator` to the step field, so the step register never
holds the value E9 at any reachable state. -/
theorem C10_setInactionIndicator_frame :
    (∀ s : Simulator,
      executeSetInactionIndicator s =
        decision { s with ele := { s.ele with d2 := false } } ∧
      (executeSetInactionIndicator s).ele.step = s.ele.step ∧
      (executeSetInactionIndicator s).ele.d2 = false ∧
      (executeSetInactionIndicator s).ele.floor = s.ele.floor ∧
      (executeSetInactionIndicator s).ele.d1 = s.ele.d1 ∧
      (executeSetInactionIndicator s).ele.d3 = s.ele.d3 ∧
      (executeSetInactionIndicator s).ele.callUp = s.ele.callUp ∧
      (executeSetInactionIndicator s).ele.callDown = s.ele.callDown ∧
      (executeSetInactionIndicator s).ele.callCar = s.ele.callCar ∧
      (executeSetInactionIndicator s).ele.stack = s.ele.stack ∧
      (executeSetInactionIndicator s).ele.queue = s.ele.queue) ∧
    ∀ (os : Nat → Oracle) (n : Nat),
      (runN os n).ele.step ≠ stepSetInactionIndicator := by
  constructor
  · intro s
    obtain ⟨h1, h2, h3, h4, h5, h6, h7, h8, h9, h10, -⟩ :=
      decision_frame { s with ele := { s.ele with d2 := false } }
    exact ⟨rfl, h1, h4, h2, h3, h5, h6, h7, h8, h9, h10⟩
  · exact runN_step_ne9

/-- C9: if the WAIT list is empty while the run has not halted, the main
loop reports the error before popping and halts: the error flag is
raised, no action executes (the elevator, the clock and the WAIT list
are untouched), and once halted every further iteration is the
identity. -/
theorem C9_empty_agenda_fatal (o : Oracle) (s : Simulator)
    (hrun : s.halted = false) (hempty : s.wait = []) :
    (mainStep o s).emptyErr = true ∧ (mainStep o s).halted = true ∧
    (mainStep o s).ele = s.ele ∧ (mainStep o s).time = s.time ∧
    (mainStep o s).wait = [] ∧
    (∀ (o2 : Oracle) (s2 : Simulator), s2.halted = true → mainStep o2 s2 = s2) := by
  refine ⟨?_, ?_, ?_, ?_, ?_, ?_⟩ <;>
    first
      | (intro o2 s2 h2; simp [mainStep, h2])
      | simp [mainStep, hrun, hempty]

/-- Witness for `C9_empty_agenda_fatal`: the freshly constructed
simulator has an empty WAIT list and has not halted. -/
theorem C9_empty_agenda_fatal_witness :
    (mainStep ⟨0, 0, 0, 0⟩ newSimulator).emptyErr = true ∧
    (mainStep ⟨0, 0, 0, 0⟩ newSimulator).halted = true ∧
    (mainStep ⟨0, 0, 0, 0⟩ newSimulator).ele = newSimulator.ele ∧
    (mainStep ⟨0, 0, 0, 0⟩ newSimulator).time = newSimulator.time ∧
    (mainStep ⟨0, 0, 0, 0⟩ newSimulator).wait = [] ∧
    (∀ (o2 : Oracle) (s2 : Simulator), s2.halted = true → mainStep o2 s2 = s2) :=
  C9_empty_agenda_fatal ⟨0, 0, 0, 0⟩ newSimulator rfl rfl

section Reschedule

theorem sortIn_perm (l : List WaitEntry) (w : WaitEntry) :
    (sortIn l w).Perm (w :: l) := by
  obtain ⟨l1, l2, hsplit, hins, -⟩ := sortIn_split l w
  rw [hins, hsplit]
  exact List.perm_middle

theorem filter_sortIn_singleton (l : List WaitEntry) (w : WaitEntry)
    (p : WaitEntry → Bool) (hw : p w = true) (hl : ∀ en ∈ l, p en = false) :
    (sortIn l w).filter p = [w] := by
  obtain ⟨l1, l2, hsplit, hins, -⟩ := sortIn_split l w
  have h1 : l1.filter p = [] :=
    List.filter_eq_nil.mpr fun en he => by
      simp [hl en (hsplit ▸ List.mem_append_left l2 he)]
  have h2 : l2.filter p = [] :=
    List.filter_eq_nil.mpr fun en he => by
      simp [hl en (hsplit ▸ List.mem_append_right l1 he)]
  rw [hins, List.filter_append, h1, List.filter_cons, if_pos hw, h2]
  rfl

/-- C2: rescheduling through a handle slot (`scheduleElevator` /
`scheduleElevatorImmediately` applied to `elev1`, `elev2` or `elev3`)
first removes the entry the handle references — a no-op when that entry
has already fired or been canceled — then inserts exactly one new entry
at `now + delay` (at the very front for the immediate variant) and
stores the new reference in the handle; afterwards exactly one live
WAIT-list entry, the new one, carries the handle's id.  The hypotheses
say the id counter is fresh for the WAIT list and for the handle, which
holds throughout a run because ids are handed out by the counter. -/
theorem C2_reschedule_single_live_entry (s : Simulator) (h : Handle)
    (delay : Int) (a : Act)
    (hfresh : ∀ en ∈ s.wait, en.id < s.nextId)
    (hh : ∀ i, getHandle s.ele h = some i → i < s.nextId) :
    (getHandle (scheduleElevator s h delay a).ele h = some s.nextId ∧
      (scheduleElevator s h delay a).wait.filter
          (fun en => decide (en.id = s.nextId)) =
        [⟨s.nextId, s.time + delay, a⟩] ∧
      (scheduleElevator s h delay a).wait.Perm
        (⟨s.nextId, s.time + delay, a⟩ ::
          (cancelId s (getHandle s.ele h)).wait) ∧
      ∀ i, getHandle s.ele h = some i →
        ∀ en ∈ (scheduleElevator s h delay a).wait, en.id ≠ i) ∧
    (getHandle (scheduleElevatorImmediately s h a).ele h = some s.nextId ∧
      (scheduleElevatorImmediately s h a).wait =
        ⟨s.nextId, s.time, a⟩ :: (cancelId s (getHandle s.ele h)).wait ∧
      (scheduleElevatorImmediately s h a).wait.filter
          (fun en => decide (en.id = s.nextId)) =
        [⟨s.nextId, s.time, a⟩] ∧
      ∀ i, getHandle s.ele h = some i →
        ∀ en ∈ (scheduleElevatorImmediately s h a).wait, en.id ≠ i) ∧
    (∀ hid : Option Nat, (∀ i, hid = some i → ∀ en ∈ s.wait, en.id ≠ i) →
      (cancelId s hid).wait = s.wait) := by
  have hgone : ∀ en ∈ (cancelId s (getHandle s.ele h)).wait, en.id < s.nextId := by
    intro en he
    cases hg : getHandle s.ele h with
    | none => exact hfresh en (by simpa [cancelId, hg] using he)
    | some i =>
        simp only [hg, cancelId] at he
        exact hfresh en (List.mem_of_mem_filter he)
  have holdGone : ∀ i, getHandle s.ele h = some i →
      ∀ en ∈ (cancelId s (getHandle s.ele h)).wait, en.id ≠ i := by
    intro i hg en he
    simp only [hg, cancelId] at he
    simpa using (List.of_mem_filter he)
  refine ⟨⟨?_, ?_, ?_, ?_⟩, ⟨?_, ?_, ?_, ?_⟩, ?_⟩
  · rw [scheduleElevator_ele]
    cases h <;> rfl
  · rw [scheduleElevator_wait]
    refine filter_sortIn_singleton _ _ _ (by simp) ?_
    intro en he
    simpa using Nat.ne_of_lt (hgone en he)
  · rw [scheduleElevator_wait]
    exact sortIn_perm _ _
  · intro i hg en he
    rw [scheduleElevator_wait] at he
    rcases (mem_sortIn _ _ _).mp he with rfl | hmem
    · exact fun hc => absurd (hc ▸ hh i hg) (lt_irrefl _)
    · exact holdGone i hg en hmem
  · rw [scheduleElevatorImmediately_ele]
    cases h <;> rfl
  · exact scheduleElevatorImmediately_wait s h a
  · rw [scheduleElevatorImmediately_wait]
    rw [List.filter_cons]
    rw [if_pos (by simp)]
    have : ((cancelId s (getHandle s.ele h)).wait).filter
        (fun en => decide (en.id = s.nextId)) = [] :=
      List.filter_eq_nil.mpr fun en he => by
        simpa using Nat.ne_of_lt (hgone en he)
    rw [this]
  · intro i hg en he
    rw [scheduleElevatorImmediately_wait] at he
    rcases List.mem_cons.mp he with rfl | hmem
    · exact fun hc => absurd (hc ▸ hh i hg) (lt_irrefl _)
    · exact holdGone i hg en hmem
  · intro hid hnone
    cases hid with
    | none => rfl
    | some i =>
        simp only [cancelId]
        exact List.filter_eq_self.mpr fun en he => decide_eq_true (hnone i rfl en he)

/-- Witness for `C2_reschedule_single_live_entry`: a simulator holding
one WAIT-list entry referenced by `elev1`, rescheduled with delay 20. -/
theorem C2_reschedule_single_live_entry_witness :
    getHandle (scheduleElevator
      { newSimulator with
          wait := [⟨0, 5, Act.closeDoors⟩]
          nextId := 1
          ele := { newElevator with elev1 := some 0 } }
      Handle.elev1 20 Act.openDoors).ele Handle.elev1 = some 1 := by
  have := C2_reschedule_single_live_entry
    { newSimulator with
        wait := [⟨0, 5, Act.closeDoors⟩]
        nextId := 1
        ele := { newElevator with elev1 := some 0 } }
    Handle.elev1 20 Act.openDoors
    (by intro en he; simp at he; simp [he])
    (by intro i hi; simp [getHandle] at hi; simp [hi])
  exact this.1.1

end Reschedule

section CallScans

/-- No hall-up, hall-down or car call asserted at any floor above the
current one. -/
def noCallsAbove (e : Elevator) : Prop :=
  ∀ j : Int, e.floor < j → j < floors →
    e.callUp j = false ∧ e.callDown j = false ∧ e.callCar j = false

/-- No hall-up, hall-down or car call asserted at any floor below the
current one. -/
def noCallsBelow (e : Elevator) : Prop :=
  ∀ j : Int, 0 ≤ j → j < e.floor →
    e.callUp j = false ∧ e.callDown j = false ∧ e.callCar j = false

theorem anyCallAt_false_iff (e : Elevator) (j : Int) :
    anyCallAt e j = false ↔
      e.callUp j = false ∧ e.callDown j = false ∧ e.callCar j = false := by
  simp [anyCallAt, and_assoc]

theorem isAllCallsAboveFalse_iff (e : Elevator) :
    isAllCallsAboveFalse e = true ↔ noCallsAbove e := by
  unfold isAllCallsAboveFalse noCallsAbove
  rw [List.all_eq_true]
  constructor
  · intro h j h1 h2
    have := h j ((mem_intRange _ _ _).mpr ⟨by omega, h2⟩)
    rw [← anyCallAt_false_iff]
    simpa using this
  · intro h j hj
    obtain ⟨h1, h2⟩ := (mem_intRange _ _ _).mp hj
    have := (anyCallAt_false_iff e j).mpr (h j (by omega) h2)
    simp [this]

theorem isAllCallsBelowFalse_iff (e : Elevator) :
    isAllCallsBelowFalse e = true ↔ noCallsBelow e := by
  unfold isAllCallsBelowFalse noCallsBelow
  rw [List.all_eq_true]
  constructor
  · intro h j h1 h2
    have := h j ((mem_intRange _ _ _).mpr ⟨h1, h2⟩)
    rw [← anyCallAt_false_iff]
    simpa using this
  · intro h j hj
    obtain ⟨h1, h2⟩ := (mem_intRange _ _ _).mp hj
    have := (anyCallAt_false_iff e j).mpr (h j h1 h2)
    simp [this]

theorem isAllCallsAboveFalse_false_iff (e : Elevator) :
    isAllCallsAboveFalse e = false ↔
      ∃ j : Int, e.floor < j ∧ j < floors ∧ anyCallAt e j = true := by
  rw [← Bool.not_eq_true, isAllCallsAboveFalse_iff]
  unfold noCallsAbove
  constructor
  · intro h
    by_contra hcon
    push_neg at hcon
    exact h fun j h1 h2 => (anyCallAt_false_iff e j).mp
      (Bool.eq_false_iff.mpr fun ht => by
        have := hcon j h1
        simp [h2, ht] at this)
  · rintro ⟨j, h1, h2, h3⟩ h
    have := (anyCallAt_false_iff e j).mpr (h j h1 h2)
    rw [this] at h3
    cases h3

theorem isAllCallsBelowFalse_false_iff (e : Elevator) :
    isAllCallsBelowFalse e = false ↔
      ∃ j : Int, 0 ≤ j ∧ j < e.floor ∧ anyCallAt e j = true := by
  rw [← Bool.not_eq_true, isAllCallsBelowFalse_iff]
  unfold noCallsBelow
  constructor
  · intro h
    by_contra hcon
    push_neg at hcon
    exact h fun j h1 h2 => (anyCallAt_false_iff e j).mp
      (Bool.eq_false_iff.mpr fun ht => by
        have := hcon j h1
        simp [h2, ht] at this)
  · rintro ⟨j, h1, h2, h3⟩ h
    have := (anyCallAt_false_iff e j).mpr (h j h1 h2)
    rw [this] at h3
    cases h3

end CallScans

section ClaimE2

theorem cancelId_wait_congr (s s' : Simulator) (h : Option Nat)
    (hw : s.wait = s'.wait) : (cancelId s h).wait = (cancelId s' h).wait := by
  cases h <;> simp [cancelId, hw]

@[simp] theorem getHandle_elev1 (e : Elevator) : getHandle e Handle.elev1 = e.elev1 := rfl

@[simp] theorem getHandle_elev2 (e : Elevator) : getHandle e Handle.elev2 = e.elev2 := rfl

@[simp] theorem getHandle_elev3 (e : Elevator) : getHandle e Handle.elev3 = e.elev3 := rfl

@[simp] theorem setHandle_elev1 (e : Elevator) (v : Option Nat) :
    setHandle e Handle.elev1 v = { e with elev1 := v } := rfl

@[simp] theorem setHandle_elev2 (e : Elevator) (v : Option Nat) :
    setHandle e Handle.elev2 v = { e with elev2 := v } := rfl

@[simp] theorem setHandle_elev3 (e : Elevator) (v : Option Nat) :
    setHandle e Handle.elev3 v = { e with elev3 := v } := rfl

@[simp] theorem clearFloorCalls_elev1 (e : Elevator) :
    (clearFloorCalls e).elev1 = e.elev1 := rfl

@[simp] theorem clearFloorCalls_elev2 (e : Elevator) :
    (clearFloorCalls e).elev2 = e.elev2 := rfl

@[simp] theorem clearFloorCalls_elev3 (e : Elevator) :
    (clearFloorCalls e).elev3 = e.elev3 := rfl

@[simp] theorem cancelId_wait (s : Simulator) (ho : Option Nat) :
    (cancelId s ho).wait =
      ho.elim s.wait (fun i => s.wait.filter (fun en => decide (en.id ≠ i))) := by
  cases ho <;> rfl

/-- The elevator value step E2 computes before scheduling E3 (the body
of `executeChangeOfState` up to its final statement); the conditions are
evaluated on the step-updated elevator exactly as in the Go code, whose
tests only read fields E2 does not modify. -/
def changeOfStateEle (e : Elevator) : Elevator :=
  if e.state = stateGoingUp ∧ isAllCallsAboveFalse e then
    clearFloorCalls
      { e with
          step := stepChangeOfState
          state := if isAllCallsBelowFalse e then stateNeutral else stateGoingDown }
  else if e.state = stateGoingDown ∧ isAllCallsBelowFalse e then
    clearFloorCalls
      { e with
          step := stepChangeOfState
          state := if isAllCallsAboveFalse e then stateNeutral else stateGoingUp }
  else { e with step := stepChangeOfState }

theorem executeChangeOfState_eq (s : Simulator) :
    executeChangeOfState s =
      scheduleElevatorImmediately { s with ele := changeOfStateEle s.ele }
        Handle.elev1 Act.openDoors := rfl

/-- C5: step E2 (`executeChangeOfState`).  If the direction is GOINGUP
and no hall-up, hall-down or car call is asserted at any floor above,
the direction becomes NEUTRAL when no such call is asserted at any floor
below either and GOINGDOWN otherwise, and exactly in that situation (or
its GOINGDOWN mirror image) the three call registers of the current
floor are cleared; in every case E2 leaves the floor and the call
registers of every other floor unchanged and schedules E3 at the current
instant through immediate scheduling via the primary handle. -/
theorem C5_changeOfState_spec (s : Simulator) :
    (s.ele.state = stateGoingUp → noCallsAbove s.ele →
      ((noCallsBelow s.ele → (executeChangeOfState s).ele.state = stateNeutral) ∧
       (¬ noCallsBelow s.ele → (executeChangeOfState s).ele.state = stateGoingDown) ∧
       (executeChangeOfState s).ele.callUp s.ele.floor = false ∧
       (executeChangeOfState s).ele.callDown s.ele.floor = false ∧
       (executeChangeOfState s).ele.callCar s.ele.floor = false)) ∧
    (s.ele.state = stateGoingUp → ¬ noCallsAbove s.ele →
      ((executeChangeOfState s).ele.state = stateGoingUp ∧
       (executeChangeOfState s).ele.callUp = s.ele.callUp ∧
       (executeChangeOfState s).ele.callDown = s.ele.callDown ∧
       (executeChangeOfState s).ele.callCar = s.ele.callCar)) ∧
    (s.ele.state = stateGoingDown → noCallsBelow s.ele →
      ((noCallsAbove s.ele → (executeChangeOfState s).ele.state = stateNeutral) ∧
       (¬ noCallsAbove s.ele → (executeChangeOfState s).ele.state = stateGoingUp) ∧
       (executeChangeOfState s).ele.callUp s.ele.floor = false ∧
       (executeChangeOfState s).ele.callDown s.ele.floor = false ∧
       (executeChangeOfState s).ele.callCar s.ele.floor = false)) ∧
    (s.ele.state = stateGoingDown → ¬ noCallsBelow s.ele →
      ((executeChangeOfState s).ele.state = stateGoingDown ∧
       (executeChangeOfState s).ele.callUp = s.ele.callUp ∧
       (executeChangeOfState s).ele.callDown = s.ele.callDown ∧
       (executeChangeOfState s).ele.callCar = s.ele.callCar)) ∧
    (s.ele.state ≠ stateGoingUp → s.ele.state ≠ stateGoingDown →
      ((executeChangeOfState s).ele.state = s.ele.state ∧
       (executeChangeOfState s).ele.callUp = s.ele.callUp ∧
       (executeChangeOfState s).ele.callDown = s.ele.callDown ∧
       (executeChangeOfState s).ele.callCar = s.ele.callCar)) ∧
    ((executeChangeOfState s).ele.floor = s.ele.floor ∧
     (∀ j : Int, j ≠ s.ele.floor →
       (executeChangeOfState s).ele.callUp j = s.ele.callUp j ∧
       (executeChangeOfState s).ele.callDown j = s.ele.callDown j ∧
       (executeChangeOfState s).ele.callCar j = s.ele.callCar j) ∧
     (executeChangeOfState s).wait =
       ⟨s.nextId, s.time, Act.openDoors⟩ :: (cancelId s s.ele.elev1).wait ∧
     (executeChangeOfState s).ele.elev1 = some s.nextId) := by
  rw [executeChangeOfState_eq]
  by_cases hU : s.ele.state = stateGoingUp <;>
    by_cases hA : isAllCallsAboveFalse s.ele = true <;>
    by_cases hD : s.ele.state = stateGoingDown <;>
    by_cases hB : isAllCallsBelowFalse s.ele = true
  all_goals
    first
      | (exact absurd (hU ▸ hD) (by decide))
      | (refine ⟨?_, ?_, ?_, ?_, ?_, ?_, ?_, ?_, ?_⟩ <;>
          (try intro h1 h2) <;>
          simp_all [changeOfStateEle, isAllCallsAboveFalse_iff,
            isAllCallsBelowFalse_iff, scheduleElevatorImmediately_wait,
            clearFloorCalls, upd])

/-- Witness for `C5_changeOfState_spec`: an elevator GOINGUP at the home
floor with no calls anywhere stabilizes to NEUTRAL. -/
theorem C5_changeOfState_spec_witness :
    (executeChangeOfState
      { newSimulator with
          ele := { newElevator with state := stateGoingUp } }).ele.state =
      stateNeutral :=
  (((C5_changeOfState_spec
    { newSimulator with
        ele := { newElevator with state := stateGoingUp } }).1 rfl
    (fun _ _ _ => ⟨rfl, rfl, rfl⟩)).1 (fun _ _ _ => ⟨rfl, rfl, rfl⟩))

end ClaimE2

section ClaimE7E8

/-- The stop condition of step E7 in the spec's words: the new floor has
a car call or a hall-up call, or it is the home floor or has a hall-down
call while no call of any kind exists at any floor above. -/
def specStopUp (e : Elevator) : Prop :=
  e.callCar e.floor = true ∨ e.callUp e.floor = true ∨
    ((e.floor = floorHome ∨ e.callDown e.floor = true) ∧ noCallsAbove e)

/-- The stop condition of step E8, directions reversed. -/
def specStopDown (e : Elevator) : Prop :=
  e.callCar e.floor = true ∨ e.callDown e.floor = true ∨
    ((e.floor = floorHome ∨ e.callUp e.floor = true) ∧ noCallsBelow e)

theorem goUpStop_iff (e : Elevator) :
    (e.callCar e.floor || e.callUp e.floor ||
      ((e.floor == 2 || e.callDown e.floor) && isAllCallsAboveFalse e)) = true ↔
      specStopUp e := by
  simp [specStopUp, isAllCallsAboveFalse_iff, floorHome, floorFirst,
    or_assoc, and_assoc]

theorem goDownStop_iff (e : Elevator) :
    (e.callCar e.floor || e.callDown e.floor ||
      ((e.floor == 2 || e.callUp e.floor) && isAllCallsBelowFalse e)) = true ↔
      specStopDown e := by
  simp [specStopDown, isAllCallsBelowFalse_iff, floorHome, floorFirst,
    or_assoc, and_assoc]

/-- C6: steps E7/E8 (`executeGoUpAFloor`/`executeGoDownAFloor` and their
second halves).  E7 increments the floor and schedules its stop test 51
units later on the primary handle; the stop test schedules E2 at `+14`
exactly when the new floor has a car call or hall-up call, or ((the new
floor is the home floor or has a hall-down call) and no call of any kind
exists above), and otherwise immediately repeats E7.  E8 is the mirror
image with the timings 61 and 23. -/
theorem C6_moveAFloor_spec (s : Simulator) :
    ((executeGoUpAFloor s).ele.floor = s.ele.floor + 1 ∧
     (executeGoUpAFloor s).ele.elev1 = some s.nextId ∧
     (⟨s.nextId, s.time + 51, Act.goUpAFloor2⟩ : WaitEntry) ∈
       (executeGoUpAFloor s).wait) ∧
    (specStopUp s.ele →
      executeGoUpAFloor2 s = scheduleElevator s Handle.elev1 14 Act.changeOfState) ∧
    (¬ specStopUp s.ele →
      executeGoUpAFloor2 s =
        scheduleElevatorImmediately s Handle.elev1 Act.goUpAFloor) ∧
    ((executeGoDownAFloor s).ele.floor = s.ele.floor - 1 ∧
     (executeGoDownAFloor s).ele.elev1 = some s.nextId ∧
     (⟨s.nextId, s.time + 61, Act.goDownAFloor2⟩ : WaitEntry) ∈
       (executeGoDownAFloor s).wait) ∧
    (specStopDown s.ele →
      executeGoDownAFloor2 s =
        scheduleElevator s Handle.elev1 23 Act.changeOfState) ∧
    (¬ specStopDown s.ele →
      executeGoDownAFloor2 s =
        scheduleElevatorImmediately s Handle.elev1 Act.goDownAFloor) := by
  refine ⟨⟨by simp [executeGoUpAFloor], by simp [executeGoUpAFloor], ?_⟩,
    ?_, ?_, ⟨by simp [executeGoDownAFloor], by simp [executeGoDownAFloor], ?_⟩,
    ?_, ?_⟩
  · rw [executeGoUpAFloor, scheduleElevator_wait]
    exact (mem_sortIn _ _ _).mpr (Or.inl rfl)
  · intro h
    rw [executeGoUpAFloor2, if_pos ((goUpStop_iff s.ele).mpr h)]
  · intro h
    rw [executeGoUpAFloor2,
      if_neg (fun hc => h ((goUpStop_iff s.ele).mp hc))]
  · rw [executeGoDownAFloor, scheduleElevator_wait]
    exact (mem_sortIn _ _ _).mpr (Or.inl rfl)
  · intro h
    rw [executeGoDownAFloor2, if_pos ((goDownStop_iff s.ele).mpr h)]
  · intro h
    rw [executeGoDownAFloor2,
      if_neg (fun hc => h ((goDownStop_iff s.ele).mp hc))]

/-- Witness for `C6_moveAFloor_spec`: with a car call one floor above,
the stop test fires and E2 is scheduled at `+14`. -/
theorem C6_moveAFloor_spec_witness :
    executeGoUpAFloor2
        { newSimulator with
            ele := { newElevator with callCar := upd newElevator.callCar 2 true } } =
      scheduleElevator
        { newSimulator with
            ele := { newElevator with callCar := upd newElevator.callCar 2 true } }
        Handle.elev1 14 Act.changeOfState :=
  (C6_moveAFloor_spec _).2.1 (Or.inl (by simp [newElevator, upd, floorHome, floorFirst]))

end ClaimE7E8

section ClaimE4

theorem find?_split {α : Type} (p : α → Bool) (l : List α) (a : α)
    (h : l.find? p = some a) :
    p a = true ∧ ∃ l1 l2, l = l1 ++ a :: l2 ∧ ∀ v ∈ l1, p v = false := by
  induction l with
  | nil => cases h
  | cons b bs ih =>
      by_cases hpb : p b = true
      · rw [List.find?_cons_of_pos _ hpb] at h
        cases h
        exact ⟨hpb, [], bs, rfl, by simp⟩
      · rw [List.find?_cons_of_neg _ (by simpa using hpb)] at h
        obtain ⟨hp, l1, l2, rfl, hall⟩ := ih h
        refine ⟨hp, b :: l1, l2, rfl, ?_⟩
        intro v hv
        rcases List.mem_cons.mp hv with rfl | hv
        · simpa using hpb
        · exact hall v hv

theorem immedThenSched_spec (s0 : Simulator) (b : Act)
    (hh : ∀ i, s0.ele.elev1 = some i → i < s0.nextId) :
    (scheduleElevator (immedWait s0 b) Handle.elev1 25 Act.letPeopleOutIn).wait.head? =
      some ⟨s0.nextId, s0.time, b⟩ ∧
    (scheduleElevator (immedWait s0 b) Handle.elev1 25 Act.letPeopleOutIn).ele.elev1 =
      some (s0.nextId + 1) ∧
    (⟨s0.nextId + 1, s0.time + 25, Act.letPeopleOutIn⟩ : WaitEntry) ∈
      (scheduleElevator (immedWait s0 b) Handle.elev1 25 Act.letPeopleOutIn).wait := by
  refine ⟨?_, by simp, ?_⟩
  · rw [scheduleElevator_wait]
    simp only [immedWait_wait, immedWait_nextId, immedWait_time, getHandle_elev1,
      immedWait_ele, cancelId_wait]
    cases hel : s0.ele.elev1 with
    | none =>
        simp only [Option.elim]
        rw [sortIn_cons_of_head_le _ _ _ (by simp)]
        rfl
    | some i =>
        have hne : s0.nextId ≠ i := Nat.ne_of_gt (hh i hel)
        simp only [Option.elim, List.filter_cons, decide_eq_true (hne)]
        rw [if_pos (by simp [hne]), sortIn_cons_of_head_le _ _ _ (by simp)]
        rfl
  · rw [scheduleElevator_wait]
    exact (mem_sortIn _ _ _).mpr (Or.inl rfl)

/-- C7: step E4 (`executeLetPeopleOutIn`) selects riders in the
specified order.  It first scans the on-board list most recently boarded
first for a rider whose destination is the current floor; if found, that
rider's alight action U6 is placed at the very front of the WAIT list
(it fires immediately, at the current instant) and E4 is rescheduled at
`+25` on the primary handle.  Otherwise, if the current floor's queue is
non-empty, the front (earliest arrived) rider's board action U5 is
placed at the front instead, again rescheduling E4 at `+25`.  Otherwise
D1 is cleared, D3 is set, and nothing is scheduled.  The freshness
hypothesis (handle id below the id counter) holds throughout a run. -/
theorem C7_letPeopleOutIn_spec (s : Simulator)
    (hh : ∀ i, s.ele.elev1 = some i → i < s.nextId) :
    (∀ u, s.ele.stack.find? (fun v => v.uout == s.ele.floor) = some u →
      (u.uout = s.ele.floor ∧
       (∃ l1 l2, s.ele.stack = l1 ++ u :: l2 ∧ ∀ v ∈ l1, v.uout ≠ s.ele.floor) ∧
       (executeLetPeopleOutIn s).wait.head? =
         some ⟨s.nextId, s.time, Act.getOut u⟩ ∧
       (executeLetPeopleOutIn s).ele.elev1 = some (s.nextId + 1) ∧
       (⟨s.nextId + 1, s.time + 25, Act.letPeopleOutIn⟩ : WaitEntry) ∈
         (executeLetPeopleOutIn s).wait)) ∧
    (s.ele.stack.find? (fun v => v.uout == s.ele.floor) = none →
      (∀ v ∈ s.ele.stack, v.uout ≠ s.ele.floor) ∧
      (∀ u rest, s.ele.queue s.ele.floor = u :: rest →
        (executeLetPeopleOutIn s).wait.head? =
          some ⟨s.nextId, s.time, Act.getIn u⟩ ∧
        (executeLetPeopleOutIn s).ele.elev1 = some (s.nextId + 1) ∧
        (⟨s.nextId + 1, s.time + 25, Act.letPeopleOutIn⟩ : WaitEntry) ∈
          (executeLetPeopleOutIn s).wait) ∧
      (s.ele.queue s.ele.floor = [] →
        (executeLetPeopleOutIn s).ele.d1 = false ∧
        (executeLetPeopleOutIn s).ele.d3 = true ∧
        (executeLetPeopleOutIn s).wait = s.wait ∧
        (executeLetPeopleOutIn s).nextId = s.nextId ∧
        (executeLetPeopleOutIn s).ele.step = stepLetPeopleOutIn)) := by
  constructor
  · intro u hfind
    obtain ⟨hpu, l1, l2, hsplit, hall⟩ := find?_split _ _ _ hfind
    have hout : u.uout = s.ele.floor := by simpa using hpu
    refine ⟨hout, ⟨l1, l2, hsplit, fun v hv => by simpa using hall v hv⟩, ?_, ?_, ?_⟩
    all_goals
      simp only [executeLetPeopleOutIn, hfind]
    · exact (immedThenSched_spec
        { s with ele := { s.ele with step := stepLetPeopleOutIn } }
        (Act.getOut u) hh).1
    · exact (immedThenSched_spec
        { s with ele := { s.ele with step := stepLetPeopleOutIn } }
        (Act.getOut u) hh).2.1
    · exact (immedThenSched_spec
        { s with ele := { s.ele with step := stepLetPeopleOutIn } }
        (Act.getOut u) hh).2.2
  · intro hfind
    refine ⟨?_, ?_, ?_⟩
    · intro v hv hc
      have := List.find?_eq_none.mp hfind v hv
      simp [hc] at this
    · intro u rest hq
      refine ⟨?_, ?_, ?_⟩
      all_goals
        simp only [executeLetPeopleOutIn, hfind]
        rw [hq]
      · exact (immedThenSched_spec
          { s with ele := { s.ele with step := stepLetPeopleOutIn } }
          (Act.getIn u) hh).1
      · exact (immedThenSched_spec
          { s with ele := { s.ele with step := stepLetPeopleOutIn } }
          (Act.getIn u) hh).2.1
      · exact (immedThenSched_spec
          { s with ele := { s.ele with step := stepLetPeopleOutIn } }
          (Act.getIn u) hh).2.2
    · intro hq
      refine ⟨?_, ?_, ?_, ?_, ?_⟩
      all_goals
        simp only [executeLetPeopleOutIn, hfind]
        rw [hq]

/-- Witness for `C7_letPeopleOutIn_spec`: a rider on board whose
destination is the current floor is sent to U6 at the current instant. -/
theorem C7_letPeopleOutIn_spec_witness :
    (executeLetPeopleOutIn
      { newSimulator with
          ele := { newElevator with stack := [⟨1, 0, 2, 300⟩] } }).wait.head? =
      some ⟨0, 0, Act.getOut ⟨1, 0, 2, 300⟩⟩ :=
  (((C7_letPeopleOutIn_spec
    { newSimulator with
        ele := { newElevator with stack := [⟨1, 0, 2, 300⟩] } }
    (by intro i hi; cases hi)).1 ⟨1, 0, 2, 300⟩ (by decide)).2.2).1

end ClaimE4

section ClaimDecision

theorem intRange_pairwise (lo hi : Int) : (intRange lo hi).Pairwise (· < ·) := by
  unfold intRange
  exact List.Pairwise.map _ (fun a b hab => by omega) (List.pairwise_lt_range _)

theorem find?_intRange_smallest (lo hi : Int) (p : Int → Bool) (j : Int)
    (h : (intRange lo hi).find? p = some j) :
    p j = true ∧ lo ≤ j ∧ j < hi ∧ ∀ k, lo ≤ k → k < j → p k = false := by
  obtain ⟨hp, l1, l2, hsplit, hall⟩ := find?_split _ _ _ h
  have hjmem : j ∈ intRange lo hi := hsplit ▸ List.mem_append_right l1 (List.mem_cons_self j l2)
  obtain ⟨hlo, hhi⟩ := (mem_intRange _ _ _).mp hjmem
  refine ⟨hp, hlo, hhi, ?_⟩
  intro k hk1 hk2
  have hkmem : k ∈ intRange lo hi := (mem_intRange _ _ _).mpr ⟨hk1, by omega⟩
  rw [hsplit] at hkmem
  rcases List.mem_append.mp hkmem with hk | hk
  · exact hall k hk
  · rcases List.mem_cons.mp hk with rfl | hk
    · omega
    · exfalso
      have hpw := intRange_pairwise lo hi
      rw [hsplit] at hpw
      have : j < k :=
        (List.pairwise_cons.mp (List.pairwise_append.mp hpw).2.1).1 k hk
      omega

/-- The scan of step D3 as the code performs it. -/
def findJ (s : Simulator) : Option Int :=
  (intRange 0 floors).find?
    (fun j => decide (j ≠ s.ele.floor) && anyCallAt s.ele j)

theorem decision_eq_findJ (s : Simulator)
    (h1 : s.ele.state = stateNeutral)
    (h2 : ¬ (s.ele.step = stepWaitForCall ∧
      (s.ele.callUp floorHome || s.ele.callCar floorHome ||
        s.ele.callDown floorHome) = true)) :
    decision s = (match findJ s with
      | some j => decisionD4 s j
      | none => if s.ele.step = stepPrepareToMove then decisionD4 s 2 else s) := by
  rw [decision, if_neg (by simp [h1]), if_neg (by simpa using h2)]
  rfl

/-- C4: the DECISION subroutine.  It returns unchanged when the state is
not NEUTRAL; when the elevator sits at E1 with a call register of the
home floor asserted it schedules E3 at `+20` on the primary handle
without touching the state; otherwise it scans for the smallest floor
`j ≠ floor` with an asserted register (conjunct 3 proves `findJ` returns
exactly that), falls back to `j = 2` exactly when invoked from E6
(`step = stepPrepareToMove`), and returns unchanged when there is
nothing to do; steps D4/D5 set the state by comparing the floor with `j`
and schedule E6 at `+20` exactly when the elevator is dormant at E1 and
`j` is not the home floor. -/
theorem C4_decision_spec (s : Simulator) :
    (s.ele.state ≠ stateNeutral → decision s = s) ∧
    (s.ele.state = stateNeutral → s.ele.step = stepWaitForCall →
      (s.ele.callUp floorHome || s.ele.callCar floorHome ||
        s.ele.callDown floorHome) = true →
      (decision s = scheduleElevator s Handle.elev1 20 Act.openDoors ∧
       (decision s).ele.state = s.ele.state)) ∧
    (∀ j, s.ele.state = stateNeutral →
      ¬ (s.ele.step = stepWaitForCall ∧
        (s.ele.callUp floorHome || s.ele.callCar floorHome ||
          s.ele.callDown floorHome) = true) →
      findJ s = some j →
      (j ≠ s.ele.floor ∧ 0 ≤ j ∧ j < floors ∧ anyCallAt s.ele j = true ∧
       (∀ k, 0 ≤ k → k < j → k ≠ s.ele.floor → anyCallAt s.ele k = false) ∧
       decision s = decisionD4 s j)) ∧
    (s.ele.state = stateNeutral →
      ¬ (s.ele.step = stepWaitForCall ∧
        (s.ele.callUp floorHome || s.ele.callCar floorHome ||
          s.ele.callDown floorHome) = true) →
      findJ s = none →
      ((s.ele.step = stepPrepareToMove → decision s = decisionD4 s 2) ∧
       (s.ele.step ≠ stepPrepareToMove → decision s = s))) ∧
    (∀ j : Int,
      (s.ele.floor > j → (decisionD4 s j).ele.state = stateGoingDown) ∧
      (s.ele.floor < j → (decisionD4 s j).ele.state = stateGoingUp) ∧
      (s.ele.floor = j → (decisionD4 s j).ele.state = s.ele.state) ∧
      (s.ele.step = stepWaitForCall → j ≠ 2 →
        ((decisionD4 s j).ele.elev1 = some s.nextId ∧
         (⟨s.nextId, s.time + 20, Act.prepareToMove⟩ : WaitEntry) ∈
           (decisionD4 s j).wait)) ∧
      (¬ (s.ele.step = stepWaitForCall ∧ j ≠ 2) →
        (decisionD4 s j).wait = s.wait)) := by
  refine ⟨?_, ?_, ?_, ?_, ?_⟩
  · intro h
    rw [decision, if_pos h]
  · intro h1 h2 h3
    constructor
    · rw [decision, if_neg (by simp [h1]), if_pos ⟨h2, by simpa using h3⟩]
    · rw [decision, if_neg (by simp [h1]), if_pos ⟨h2, by simpa using h3⟩]
      simp
  · intro j h1 h2 hfind
    obtain ⟨hp, hlo, hhi, hmin⟩ := find?_intRange_smallest _ _ _ _ hfind
    have hpj : j ≠ s.ele.floor ∧ anyCallAt s.ele j = true := by
      constructor
      · intro hc
        simp [hc] at hp
      · simp only [Bool.and_eq_true] at hp
        exact hp.2
    refine ⟨hpj.1, hlo, hhi, hpj.2, ?_, ?_⟩
    · intro k hk1 hk2 hk3
      have hmn := hmin k hk1 hk2
      rw [Bool.and_eq_false_iff] at hmn
      rcases hmn with h | h
      · exact absurd (by simpa using h) (by simpa using hk3)
      · exact h
    · rw [decision_eq_findJ s h1 h2]
      rw [show findJ s = some j from hfind]
  · intro h1 h2 hfind
    constructor
    · intro h6
      rw [decision_eq_findJ s h1 h2, show findJ s = none from hfind, if_pos h6]
    · intro h6
      rw [decision_eq_findJ s h1 h2, show findJ s = none from hfind, if_neg h6]
  · intro j
    refine ⟨?_, ?_, ?_, ?_, ?_⟩
    · intro h
      rw [decisionD4]
      simp only [if_pos h]
      split_ifs <;> simp
    · intro h
      rw [decisionD4]
      simp only [if_neg (by omega : ¬ s.ele.floor > j), if_pos h]
      split_ifs <;> simp
    · intro h
      rw [decisionD4]
      simp only [if_neg (by omega : ¬ s.ele.floor > j),
        if_neg (by omega : ¬ s.ele.floor < j)]
      split_ifs <;> simp
    · intro h1 h2
      rw [decisionD4]
      have : ¬ s.ele.floor > j ∨ True := Or.inr trivial
      constructor
      · split_ifs <;> simp_all
      · split_ifs <;>
          first
            | (rw [scheduleElevator_wait]
               exact (mem_sortIn _ _ _).mpr (Or.inl rfl))
            | simp_all
    · intro h
      rw [decisionD4]
      split_ifs <;> simp_all

/-- Witness for `C4_decision_spec`: with the state not NEUTRAL the
subroutine returns immediately. -/
theorem C4_decision_spec_witness :
    decision { newSimulator with
        ele := { newElevator with state := stateGoingUp } } =
      { newSimulator with ele := { newElevator with state := stateGoingUp } } :=
  (C4_decision_spec
    { newSimulator with ele := { newElevator with state := stateGoingUp } }).1
    (by decide)

end ClaimDecision

section ClaimU2

/-- The hall-call assertion of step U2's general case: the up button for
an upward trip, the down button otherwise. -/
def signalCalls (s : Simulator) (u : User) : Simulator :=
  if u.uout > u.uin then
    { s with ele := { s.ele with callUp := upd s.ele.callUp u.uin true } }
  else
    { s with ele := { s.ele with callDown := upd s.ele.callDown u.uin true } }

theorem userSignalAndWait_eq (s : Simulator) (u : User) :
    userSignalAndWait s u =
      immedWait
        (if s.ele.floor = u.uin ∧ s.ele.step = stepCloseDoors then
          scheduleElevatorImmediately s Handle.elev1 Act.openDoors
        else if s.ele.floor = u.uin ∧ s.ele.d3 then
          scheduleElevatorImmediately
            { s with ele := { s.ele with d3 := false, d1 := true } }
            Handle.elev1 Act.letPeopleOutIn
        else if ¬ (signalCalls s u).ele.d2 ∨
            (signalCalls s u).ele.step = stepWaitForCall then
          decision (signalCalls s u)
        else signalCalls s u)
        (Act.enterQueue u) := rfl

/-- C3: step U2 (`userSignalAndWait`).  When the elevator stands at the
rider's origin mid-close (step E5), the primary handle is immediately
rescheduled to E3 so the doors reopen; when it stands at the origin with
D3 set, D3 is cleared, D1 is set and E4 is immediately rescheduled;
otherwise the rider asserts the up hall call when the destination is
above the origin and the down hall call otherwise, and the DECISION
subroutine runs exactly when D2 is clear or the elevator is dormant at
E1; in every case the rider's U3 action is placed at the very front of
the WAIT list, due at the current instant. -/
theorem C3_signalAndWait_spec (s : Simulator) (u : User) :
    (s.ele.floor = u.uin → s.ele.step = stepCloseDoors →
      ((userSignalAndWait s u).wait =
        ⟨s.nextId + 1, s.time, Act.enterQueue u⟩ ::
          ⟨s.nextId, s.time, Act.openDoors⟩ :: (cancelId s s.ele.elev1).wait ∧
       (userSignalAndWait s u).ele.elev1 = some s.nextId ∧
       (userSignalAndWait s u).ele.state = s.ele.state ∧
       (userSignalAndWait s u).ele.d1 = s.ele.d1 ∧
       (userSignalAndWait s u).ele.d3 = s.ele.d3 ∧
       (userSignalAndWait s u).ele.callUp = s.ele.callUp ∧
       (userSignalAndWait s u).ele.callDown = s.ele.callDown)) ∧
    (s.ele.floor = u.uin → s.ele.step ≠ stepCloseDoors → s.ele.d3 = true →
      ((userSignalAndWait s u).ele.d3 = false ∧
       (userSignalAndWait s u).ele.d1 = true ∧
       (userSignalAndWait s u).wait =
        ⟨s.nextId + 1, s.time, Act.enterQueue u⟩ ::
          ⟨s.nextId, s.time, Act.letPeopleOutIn⟩ ::
            (cancelId s s.ele.elev1).wait ∧
       (userSignalAndWait s u).ele.elev1 = some s.nextId)) ∧
    (¬ (s.ele.floor = u.uin ∧ s.ele.step = stepCloseDoors) →
      ¬ (s.ele.floor = u.uin ∧ s.ele.d3 = true) →
      ((u.uout > u.uin →
        (userSignalAndWait s u).ele.callUp u.uin = true ∧
        (userSignalAndWait s u).ele.callDown = s.ele.callDown) ∧
       (¬ u.uout > u.uin →
        (userSignalAndWait s u).ele.callDown u.uin = true ∧
        (userSignalAndWait s u).ele.callUp = s.ele.callUp) ∧
       ((¬ s.ele.d2 = true ∨ s.ele.step = stepWaitForCall) →
        userSignalAndWait s u =
          immedWait (decision (signalCalls s u)) (Act.enterQueue u)) ∧
       ((s.ele.d2 = true ∧ s.ele.step ≠ stepWaitForCall) →
        userSignalAndWait s u =
          immedWait (signalCalls s u) (Act.enterQueue u) ∧
        (userSignalAndWait s u).wait =
          ⟨s.nextId, s.time, Act.enterQueue u⟩ :: s.wait))) ∧
    (∃ i, (userSignalAndWait s u).wait.head? =
      some ⟨i, s.time, Act.enterQueue u⟩) := by
  have hd2 : (signalCalls s u).ele.d2 = s.ele.d2 := by
    rw [signalCalls]
    split_ifs <;> rfl
  have hstep : (signalCalls s u).ele.step = s.ele.step := by
    rw [signalCalls]
    split_ifs <;> rfl
  refine ⟨?_, ?_, ?_, ?_⟩
  · intro h1 h2
    rw [userSignalAndWait_eq, if_pos ⟨h1, h2⟩]
    refine ⟨?_, ?_, ?_, ?_, ?_, ?_, ?_⟩ <;>
      simp [scheduleElevatorImmediately_wait]
  · intro h1 h2 h3
    rw [userSignalAndWait_eq, if_neg (by intro hc; exact h2 hc.2),
      if_pos ⟨h1, by simp [h3]⟩]
    refine ⟨?_, ?_, ?_, ?_⟩ <;>
      simp [scheduleElevatorImmediately_wait]
  · intro h1 h2
    rw [userSignalAndWait_eq, if_neg h1,
      if_neg (by simpa using h2)]
    obtain ⟨f1, f2, f3, f4, f5, f6, f7, f8, f9, f10, f11, f12⟩ :=
      decision_frame (signalCalls s u)
    refine ⟨?_, ?_, ?_, ?_⟩
    · intro hup
      have hcu : (signalCalls s u).ele.callUp = upd s.ele.callUp u.uin true := by
        rw [signalCalls, if_pos hup]
      have hcd : (signalCalls s u).ele.callDown = s.ele.callDown := by
        rw [signalCalls, if_pos hup]
      split_ifs with hc
      · simp [f6, f7, hcu, hcd, upd]
      · simp [hcu, hcd, upd]
    · intro hup
      have hcu : (signalCalls s u).ele.callUp = s.ele.callUp := by
        rw [signalCalls, if_neg hup]
      have hcd : (signalCalls s u).ele.callDown = upd s.ele.callDown u.uin true := by
        rw [signalCalls, if_neg hup]
      split_ifs with hc
      · simp [f6, f7, hcu, hcd, upd]
      · simp [hcu, hcd, upd]
    · intro hc
      rw [if_pos (by rw [hd2, hstep]; simpa using hc)]
    · intro hc
      have hng : ¬ (¬ (signalCalls s u).ele.d2 = true ∨
          (signalCalls s u).ele.step = stepWaitForCall) := by
        rw [hd2, hstep]
        exact not_or.mpr ⟨not_not_intro hc.1, hc.2⟩
      rw [if_neg hng]
      refine ⟨rfl, ?_⟩
      have hw : (signalCalls s u).wait = s.wait := by
        rw [signalCalls]
        split_ifs <;> rfl
      have hn : (signalCalls s u).nextId = s.nextId := by
        rw [signalCalls]
        split_ifs <;> rfl
      have ht : (signalCalls s u).time = s.time := by
        rw [signalCalls]
        split_ifs <;> rfl
      simp [hw, hn, ht]
  · rw [userSignalAndWait_eq]
    have ht : (signalCalls s u).time = s.time := by
      rw [signalCalls]
      split_ifs <;> rfl
    have hex : ∀ (X : Simulator), X.time = s.time →
        ∃ i, (immedWait X (Act.enterQueue u)).wait.head? =
          some ⟨i, s.time, Act.enterQueue u⟩ := by
      intro X hX
      refine ⟨X.nextId, ?_⟩
      rw [immedWait_wait, hX]
      rfl
    split_ifs
    · exact hex _ (by simp)
    · exact hex _ (by simp)
    · exact hex _ (by rw [decision_time, ht])
    · exact hex _ ht

/-- Witness for `C3_signalAndWait_spec`: a rider catching the closing
doors at the home floor reschedules the primary handle to E3. -/
theorem C3_signalAndWait_spec_witness :
    (userSignalAndWait
      { newSimulator with
          ele := { newElevator with step := stepCloseDoors } }
      ⟨1, 2, 0, 300⟩).ele.elev1 = some 0 :=
  (((C3_signalAndWait_spec
    { newSimulator with ele := { newElevator with step := stepCloseDoors } }
    ⟨1, 2, 0, 300⟩).1 rfl rfl).2.1)

end ClaimU2

section ClaimAgenda

/-- C1: the WAIT list ("Agenda") ordering discipline.  `sortIn`
preserves sortedness by `nextTime` and places the new entry in front of
exactly the rear entries that are due strictly later, so every already
queued entry with the same (or an earlier) due time keeps its place
ahead of the new one — first scheduled fires first among ties.  `immed`
places its entry at the very front, ahead of every queued entry
including same-instant ones, and preserves sortedness whenever no queued
entry is due before the inserted time (during a run no entry is due
before the current clock).  Cancellation (the filter modelling a node
unlink) and popping the front entry preserve sortedness as well. -/
theorem C1_agenda_ordering :
    (∀ (l : List WaitEntry) (w : WaitEntry),
      agendaSorted l → agendaSorted (sortIn l w)) ∧
    (∀ (l : List WaitEntry) (w : WaitEntry),
      ∃ l1 l2, l = l1 ++ l2 ∧ sortIn l w = l1 ++ w :: l2 ∧
        ∀ e ∈ l2, w.nextTime < e.nextTime) ∧
    (∀ (l : List WaitEntry) (w : WaitEntry), immed l w = w :: l) ∧
    (∀ (l : List WaitEntry) (i : Nat) (t : Int) (a : Act),
      agendaSorted l → (∀ e ∈ l, t ≤ e.nextTime) →
      agendaSorted (immed l ⟨i, t, a⟩)) ∧
    (∀ (l : List WaitEntry) (p : WaitEntry → Bool),
      agendaSorted l → agendaSorted (l.filter p)) ∧
    (∀ (w : WaitEntry) (l : List WaitEntry),
      agendaSorted (w :: l) → agendaSorted l) :=
  ⟨sortIn_sorted, sortIn_split, fun _ _ => rfl, agendaSorted_immed,
    agendaSorted_filter, agendaSorted_tail⟩

/-- Witness for `C1_agenda_ordering`: inserting at an already occupied
due time keeps the earlier entry in front, and the result is sorted. -/
theorem C1_agenda_ordering_witness :
    agendaSorted
      (sortIn [⟨0, 3, Act.enterPrepare⟩] ⟨1, 3, Act.closeDoors⟩) ∧
    agendaSorted (immed [⟨0, 3, Act.enterPrepare⟩] ⟨1, 3, Act.closeDoors⟩) :=
  ⟨C1_agenda_ordering.1 [⟨0, 3, Act.enterPrepare⟩] ⟨1, 3, Act.closeDoors⟩
      (by rw [agendaSorted]; exact List.pairwise_singleton _ _),
    C1_agenda_ordering.2.2.2.1 [⟨0, 3, Act.enterPrepare⟩] 1 3 Act.closeDoors
      (by rw [agendaSorted]; exact List.pairwise_singleton _ _)
      (by intro e he; simp at he; simp [he])⟩

end ClaimAgenda

section SafetyDefs

/-- The actions scheduled through the primary handle `elev1`. -/
def isElev1Act : Act → Bool
  | .waitForCall => true
  | .changeOfState => true
  | .openDoors => true
  | .letPeopleOutIn => true
  | .prepareToMove => true
  | .goUpAFloor => true
  | .goUpAFloor2 => true
  | .goDownAFloor => true
  | .goDownAFloor2 => true
  | _ => false

/-- The actions during which the car is between stops (the movement
steps E7/E8 and the deceleration entry E2). -/
def isMovingAct : Act → Bool
  | .changeOfState => true
  | .goUpAFloor => true
  | .goUpAFloor2 => true
  | .goDownAFloor => true
  | .goDownAFloor2 => true
  | _ => false

/-- The primary-handle actions that can never be pending while the
independent door-closing activity E5 is pending. -/
def isBarredWithE5 : Act → Bool
  | .waitForCall => true
  | .changeOfState => true
  | .prepareToMove => true
  | .goUpAFloor => true
  | .goUpAFloor2 => true
  | .goDownAFloor => true
  | .goDownAFloor2 => true
  | _ => false

/-- The user captured by a user-step action. -/
def actUser : Act → Option User
  | .signalAndWait u => some u
  | .enterQueue u => some u
  | .giveUp u => some u
  | .getIn u => some u
  | .getOut u => some u
  | _ => none

/-- Some call register is asserted strictly above the current floor. -/
def callAbove (e : Elevator) : Prop :=
  ∃ j : Int, e.floor < j ∧ j < floors ∧ anyCallAt e j = true

/-- Some call register is asserted strictly below the current floor. -/
def callBelow (e : Elevator) : Prop :=
  ∃ j : Int, 0 ≤ j ∧ j < e.floor ∧ anyCallAt e j = true

/-- Some call register is asserted at or above the current floor. -/
def callAtOrAbove (e : Elevator) : Prop :=
  ∃ j : Int, e.floor ≤ j ∧ j < floors ∧ anyCallAt e j = true

/-- Some call register is asserted at or below the current floor. -/
def callAtOrBelow (e : Elevator) : Prop :=
  ∃ j : Int, 0 ≤ j ∧ j ≤ e.floor ∧ anyCallAt e j = true

/-- The ranges step U1 guarantees for a generated user, plus
non-negative patience. -/
def validUser (u : User) : Prop :=
  0 ≤ u.uin ∧ u.uin < floors ∧ 0 ≤ u.uout ∧ u.uout < floors ∧
    u.uin ≠ u.uout ∧ 0 ≤ u.giveUpTime

/-- No movement-phase action is pending on the WAIT list. -/
def noMovingPending (s : Simulator) : Prop :=
  ∀ en ∈ s.wait, isMovingAct en.act = false

/-- The inductive run invariant.  Beyond the WAIT-list bookkeeping
(sortedness, nothing due before now, unique fresh ids, each
handle-class action pending only under its live handle reference), it
tracks exactly what the floor-bound safety argument needs: whenever a
movement action is pending a call witness exists in the travel
direction (or the car is close enough to the home floor that the homing
stop test must fire), and whenever no movement action is pending a
non-neutral state carries a strict call witness, so that step E6 can
only launch E7/E8 with a reachable target. -/
structure Inv0 (s : Simulator) : Prop where
  floorLo : 0 ≤ s.ele.floor
  floorHi : s.ele.floor ≤ 4
  timeNN : 0 ≤ s.time
  notPast : ∀ en ∈ s.wait, s.time ≤ en.nextTime
  sorted : agendaSorted s.wait
  idsFresh : ∀ en ∈ s.wait, en.id < s.nextId
  idsNodup : (s.wait.map WaitEntry.id).Nodup
  hFresh1 : ∀ i, s.ele.elev1 = some i → i < s.nextId
  hFresh2 : ∀ i, s.ele.elev2 = some i → i < s.nextId
  hFresh3 : ∀ i, s.ele.elev3 = some i → i < s.nextId
  gFresh : ∀ uid i, s.giveUpH uid = some i → i < s.nextId
  coh1 : ∀ en ∈ s.wait, isElev1Act en.act = true → s.ele.elev1 = some en.id
  coh2 : ∀ en ∈ s.wait, en.act = Act.closeDoors → s.ele.elev2 = some en.id
  coh3 : ∀ en ∈ s.wait, en.act = Act.setInactionIndicator → s.ele.elev3 = some en.id
  up1 : ∀ en ∈ s.wait, en.act = Act.goUpAFloor →
    s.ele.state = stateGoingUp ∧ s.ele.floor ≤ 3 ∧
      (callAbove s.ele ∨ s.ele.floor ≤ 1)
  up2 : ∀ en ∈ s.wait, en.act = Act.goUpAFloor2 →
    s.ele.state = stateGoingUp ∧ (callAtOrAbove s.ele ∨ s.ele.floor ≤ 2)
  dn1 : ∀ en ∈ s.wait, en.act = Act.goDownAFloor →
    s.ele.state = stateGoingDown ∧ 1 ≤ s.ele.floor ∧
      (callBelow s.ele ∨ 3 ≤ s.ele.floor)
  dn2 : ∀ en ∈ s.wait, en.act = Act.goDownAFloor2 →
    s.ele.state = stateGoingDown ∧ (callAtOrBelow s.ele ∨ 2 ≤ s.ele.floor)
  arr : ∀ en ∈ s.wait, en.act = Act.changeOfState → s.ele.state ≠ stateNeutral
  open9 : noMovingPending s →
    (s.ele.state = stateGoingUp → callAbove s.ele ∨ s.ele.floor ≤ 1) ∧
    (s.ele.state = stateGoingDown → callBelow s.ele ∨ 3 ≤ s.ele.floor)
  e5inv : (∃ en ∈ s.wait, en.act = Act.closeDoors) →
    (∀ en ∈ s.wait, isBarredWithE5 en.act = false) ∧
      s.ele.step ≠ stepWaitForCall
  w0 : (∃ en ∈ s.wait, en.act = Act.waitForCall) → s.ele.d3 = false
  st1 : s.ele.step = stepWaitForCall → s.ele.d3 = false
  st5 : s.ele.step = stepCloseDoors → noMovingPending s
  dd3 : s.ele.d3 = true → noMovingPending s
  p6 : (∃ en ∈ s.wait, en.act = Act.prepareToMove) → s.ele.d3 = false
  getin : ∀ en ∈ s.wait, ∀ u, en.act = Act.getIn u →
    s.wait.head? = some en ∧ u.uin = s.ele.floor ∧
      s.ele.step = stepLetPeopleOutIn ∧
      (∃ en2 ∈ s.wait, en2.act = Act.letPeopleOutIn)
  actv : ∀ en ∈ s.wait, ∀ u, actUser en.act = some u → validUser u
  qv : ∀ f : Int, ∀ u ∈ s.ele.queue f, validUser u ∧ u.uin = f
  sv : ∀ u ∈ s.ele.stack, validUser u

end SafetyDefs

section SafetyMemLemmas

theorem mem_cancel_iff (s : Simulator) (ho : Option Nat) (en : WaitEntry) :
    en ∈ (cancelId s ho).wait ↔
      en ∈ s.wait ∧ ∀ i, ho = some i → en.id ≠ i := by
  cases ho with
  | none => simp [cancelId]
  | some i => simp [cancelId, List.mem_filter]

theorem mem_scheduleElevator_iff (s : Simulator) (h : Handle) (d : Int)
    (a : Act) (en : WaitEntry) :
    en ∈ (scheduleElevator s h d a).wait ↔
      en = ⟨s.nextId, s.time + d, a⟩ ∨
        (en ∈ s.wait ∧ ∀ i, getHandle s.ele h = some i → en.id ≠ i) := by
  rw [scheduleElevator_wait, mem_sortIn]
  constructor
  · rintro (h1 | h2)
    · exact Or.inl h1
    · exact Or.inr ((mem_cancel_iff _ _ _).mp h2)
  · rintro (h1 | h2)
    · exact Or.inl h1
    · exact Or.inr ((mem_cancel_iff _ _ _).mpr h2)

theorem mem_scheduleElevatorImmediately_iff (s : Simulator) (h : Handle)
    (a : Act) (en : WaitEntry) :
    en ∈ (scheduleElevatorImmediately s h a).wait ↔
      en = ⟨s.nextId, s.time, a⟩ ∨
        (en ∈ s.wait ∧ ∀ i, getHandle s.ele h = some i → en.id ≠ i) := by
  rw [scheduleElevatorImmediately_wait]
  constructor
  · intro hm
    rcases List.mem_cons.mp hm with h1 | h2
    · exact Or.inl h1
    · exact Or.inr ((mem_cancel_iff _ _ _).mp h2)
  · rintro (h1 | h2)
    · exact h1 ▸ List.mem_cons_self _ _
    · exact List.mem_cons_of_mem _ ((mem_cancel_iff _ _ _).mpr h2)

theorem sortIn_map_perm (l : List WaitEntry) (w : WaitEntry) :
    ((sortIn l w).map WaitEntry.id).Perm (w.id :: l.map WaitEntry.id) :=
  (sortIn_perm l w).map WaitEntry.id

theorem nodup_sortIn (l : List WaitEntry) (w : WaitEntry)
    (h : (l.map WaitEntry.id).Nodup) (hw : ∀ en ∈ l, en.id ≠ w.id) :
    ((sortIn l w).map WaitEntry.id).Nodup := by
  refine (sortIn_map_perm l w).nodup_iff.mpr ?_
  refine List.Nodup.cons ?_ h
  intro hc
  obtain ⟨en, hen, hid⟩ := List.mem_map.mp hc
  exact hw en hen hid

theorem nodup_cancel (s : Simulator) (ho : Option Nat)
    (h : (s.wait.map WaitEntry.id).Nodup) :
    (((cancelId s ho).wait).map WaitEntry.id).Nodup := by
  cases ho with
  | none => exact h
  | some i =>
      simp only [cancelId]
      exact List.Nodup.sublist (List.Sublist.map _ (List.filter_sublist _)) h

theorem sorted_cancel (s : Simulator) (ho : Option Nat)
    (h : agendaSorted s.wait) : agendaSorted (cancelId s ho).wait := by
  cases ho with
  | none => exact h
  | some i => exact agendaSorted_filter _ _ h

end SafetyMemLemmas

section SafetyBulk

/-- WAIT-list bookkeeping after a handle reschedule with delay. -/
theorem sched_bulk (s : Simulator) (h : Handle) (d : Int) (a : Act)
    (hd : 0 ≤ d)
    (notPast : ∀ en ∈ s.wait, s.time ≤ en.nextTime)
    (sorted : agendaSorted s.wait)
    (idsFresh : ∀ en ∈ s.wait, en.id < s.nextId)
    (idsNodup : (s.wait.map WaitEntry.id).Nodup) :
    (∀ en ∈ (scheduleElevator s h d a).wait, s.time ≤ en.nextTime) ∧
    agendaSorted (scheduleElevator s h d a).wait ∧
    (∀ en ∈ (scheduleElevator s h d a).wait, en.id < s.nextId + 1) ∧
    (((scheduleElevator s h d a).wait).map WaitEntry.id).Nodup := by
  have hmemc : ∀ en ∈ (cancelId s (getHandle s.ele h)).wait, en ∈ s.wait :=
    fun en he => ((mem_cancel_iff _ _ _).mp he).1
  refine ⟨?_, ?_, ?_, ?_⟩
  · intro en he
    rcases (mem_scheduleElevator_iff _ _ _ _ _).mp he with rfl | ⟨he2, -⟩
    · simpa using hd
    · exact notPast en he2
  · rw [scheduleElevator_wait]
    exact sortIn_sorted _ _ (sorted_cancel _ _ sorted)
  · intro en he
    rcases (mem_scheduleElevator_iff _ _ _ _ _).mp he with rfl | ⟨he2, -⟩
    · exact Nat.lt_succ_self _
    · exact Nat.lt_succ_of_lt (idsFresh en he2)
  · rw [scheduleElevator_wait]
    exact nodup_sortIn _ _ (nodup_cancel _ _ idsNodup)
      (fun en he => Nat.ne_of_lt (idsFresh en (hmemc en he)))

/-- WAIT-list bookkeeping after an immediate handle reschedule. -/
theorem schedImm_bulk (s : Simulator) (h : Handle) (a : Act)
    (notPast : ∀ en ∈ s.wait, s.time ≤ en.nextTime)
    (sorted : agendaSorted s.wait)
    (idsFresh : ∀ en ∈ s.wait, en.id < s.nextId)
    (idsNodup : (s.wait.map WaitEntry.id).Nodup) :
    (∀ en ∈ (scheduleElevatorImmediately s h a).wait, s.time ≤ en.nextTime) ∧
    agendaSorted (scheduleElevatorImmediately s h a).wait ∧
    (∀ en ∈ (scheduleElevatorImmediately s h a).wait, en.id < s.nextId + 1) ∧
    (((scheduleElevatorImmediately s h a).wait).map WaitEntry.id).Nodup := by
  have hmemc : ∀ en ∈ (cancelId s (getHandle s.ele h)).wait, en ∈ s.wait :=
    fun en he => ((mem_cancel_iff _ _ _).mp he).1
  refine ⟨?_, ?_, ?_, ?_⟩
  · intro en he
    rcases (mem_scheduleElevatorImmediately_iff _ _ _ _).mp he with rfl | ⟨he2, -⟩
    · exact le_refl _
    · exact notPast en he2
  · rw [scheduleElevatorImmediately_wait]
    exact List.Pairwise.cons
      (fun e he => notPast e (hmemc e he)) (sorted_cancel _ _ sorted)
  · intro en he
    rcases (mem_scheduleElevatorImmediately_iff _ _ _ _).mp he with rfl | ⟨he2, -⟩
    · exact Nat.lt_succ_self _
    · exact Nat.lt_succ_of_lt (idsFresh en he2)
  · rw [scheduleElevatorImmediately_wait]
    refine List.Nodup.cons ?_ (nodup_cancel _ _ idsNodup)
    intro hc
    obtain ⟨en, hen, hid⟩ := List.mem_map.mp hc
    exact Nat.ne_of_lt (idsFresh en (hmemc en hen)) hid

/-- WAIT-list bookkeeping after a plain `sortIn` at a future time. -/
theorem insert_bulk (s : Simulator) (t : Int) (a : Act)
    (ht : s.time ≤ t)
    (notPast : ∀ en ∈ s.wait, s.time ≤ en.nextTime)
    (sorted : agendaSorted s.wait)
    (idsFresh : ∀ en ∈ s.wait, en.id < s.nextId)
    (idsNodup : (s.wait.map WaitEntry.id).Nodup) :
    (∀ en ∈ ((insertWait s t a).1).wait, s.time ≤ en.nextTime) ∧
    agendaSorted ((insertWait s t a).1).wait ∧
    (∀ en ∈ ((insertWait s t a).1).wait, en.id < s.nextId + 1) ∧
    ((((insertWait s t a).1).wait).map WaitEntry.id).Nodup := by
  refine ⟨?_, ?_, ?_, ?_⟩
  · intro en he
    rw [insertWait_wait] at he
    rcases (mem_sortIn _ _ _).mp he with rfl | he2
    · exact ht
    · exact notPast en he2
  · rw [insertWait_wait]
    exact sortIn_sorted _ _ sorted
  · intro en he
    rw [insertWait_wait] at he
    rcases (mem_sortIn _ _ _).mp he with rfl | he2
    · exact Nat.lt_succ_self _
    · exact Nat.lt_succ_of_lt (idsFresh en he2)
  · rw [insertWait_wait]
    exact nodup_sortIn _ _ idsNodup
      (fun en he => Nat.ne_of_lt (idsFresh en he))

/-- WAIT-list bookkeeping after a plain `immed` at the current time. -/
theorem immed_bulk (s : Simulator) (a : Act)
    (notPast : ∀ en ∈ s.wait, s.time ≤ en.nextTime)
    (sorted : agendaSorted s.wait)
    (idsFresh : ∀ en ∈ s.wait, en.id < s.nextId)
    (idsNodup : (s.wait.map WaitEntry.id).Nodup) :
    (∀ en ∈ (immedWait s a).wait, s.time ≤ en.nextTime) ∧
    agendaSorted (immedWait s a).wait ∧
    (∀ en ∈ (immedWait s a).wait, en.id < s.nextId + 1) ∧
    (((immedWait s a).wait).map WaitEntry.id).Nodup := by
  refine ⟨?_, ?_, ?_, ?_⟩
  · intro en he
    rw [immedWait_wait] at he
    rcases List.mem_cons.mp he with rfl | he2
    · exact le_refl _
    · exact notPast en he2
  · rw [immedWait_wait]
    exact List.Pairwise.cons (fun e he => notPast e he) sorted
  · intro en he
    rw [immedWait_wait] at he
    rcases List.mem_cons.mp he with rfl | he2
    · exact Nat.lt_succ_self _
    · exact Nat.lt_succ_of_lt (idsFresh en he2)
  · rw [immedWait_wait]
    refine List.Nodup.cons ?_ idsNodup
    intro hc
    obtain ⟨en, hen, hid⟩ := List.mem_map.mp hc
    exact Nat.ne_of_lt (idsFresh en hen) hid

end SafetyBulk

section SafetyHelpers

/-- Two WAIT-list entries of the primary-handle class cannot coexist:
their ids would both equal the handle value, contradicting id
distinctness.  Stated for the situation after popping the front. -/
theorem uniq_elev1_after_pop (s : Simulator) (h : Inv0 s) (en : WaitEntry)
    (rest : List WaitEntry) (hw : s.wait = en :: rest)
    (ha : isElev1Act en.act = true) :
    ∀ en2 ∈ rest, isElev1Act en2.act = false := by
  intro en2 hen2
  by_contra hc
  have hc2 : isElev1Act en2.act = true := by simpa using hc
  have h1 := h.coh1 en (hw ▸ List.mem_cons_self en rest) ha
  have h2 := h.coh1 en2 (hw ▸ List.mem_cons_of_mem en hen2) hc2
  have hid : en.id = en2.id := by
    rw [h1] at h2
    exact (Option.some_inj.mp h2)
  have hnd := h.idsNodup
  rw [hw] at hnd
  exact (List.nodup_cons.mp (by simpa using hnd)).1
    (hid ▸ List.mem_map_of_mem WaitEntry.id hen2)

theorem uniq_e5_after_pop (s : Simulator) (h : Inv0 s) (en : WaitEntry)
    (rest : List WaitEntry) (hw : s.wait = en :: rest)
    (ha : en.act = Act.closeDoors) :
    ∀ en2 ∈ rest, en2.act ≠ Act.closeDoors := by
  intro en2 hen2 hc
  have h1 := h.coh2 en (hw ▸ List.mem_cons_self en rest) ha
  have h2 := h.coh2 en2 (hw ▸ List.mem_cons_of_mem en hen2) hc
  have hid : en.id = en2.id := by
    rw [h1] at h2
    exact (Option.some_inj.mp h2)
  have hnd := h.idsNodup
  rw [hw] at hnd
  exact (List.nodup_cons.mp (by simpa using hnd)).1
    (hid ▸ List.mem_map_of_mem WaitEntry.id hen2)

theorem uniq_e9_after_pop (s : Simulator) (h : Inv0 s) (en : WaitEntry)
    (rest : List WaitEntry) (hw : s.wait = en :: rest)
    (ha : en.act = Act.setInactionIndicator) :
    ∀ en2 ∈ rest, en2.act ≠ Act.setInactionIndicator := by
  intro en2 hen2 hc
  have h1 := h.coh3 en (hw ▸ List.mem_cons_self en rest) ha
  have h2 := h.coh3 en2 (hw ▸ List.mem_cons_of_mem en hen2) hc
  have hid : en.id = en2.id := by
    rw [h1] at h2
    exact (Option.some_inj.mp h2)
  have hnd := h.idsNodup
  rw [hw] at hnd
  exact (List.nodup_cons.mp (by simpa using hnd)).1
    (hid ▸ List.mem_map_of_mem WaitEntry.id hen2)

/-- After popping the front entry there is no pending `getIn`: a pending
`getIn` is always the front entry itself. -/
theorem no_getIn_after_pop (s : Simulator) (h : Inv0 s) (en : WaitEntry)
    (rest : List WaitEntry) (hw : s.wait = en :: rest) :
    ∀ en2 ∈ rest, ∀ u, en2.act ≠ Act.getIn u := by
  intro en2 hen2 u hc
  have hg := h.getin en2 (hw ▸ List.mem_cons_of_mem en hen2) u hc
  have hhead : s.wait.head? = some en := by rw [hw]; rfl
  have : en = en2 := by
    rw [hhead] at hg
    exact Option.some_inj.mp hg.1
  have hnd := h.idsNodup
  rw [hw] at hnd
  exact (List.nodup_cons.mp (by simpa using hnd)).1
    (this ▸ List.mem_map_of_mem WaitEntry.id hen2)

theorem moving_isElev1 (a : Act) (h : isMovingAct a = true) :
    isElev1Act a = true := by
  cases a <;> simp_all [isMovingAct, isElev1Act]

theorem barred_isElev1 (a : Act) (h : isBarredWithE5 a = true) :
    isElev1Act a = true := by
  cases a <;> simp_all [isBarredWithE5, isElev1Act]

/-- Call-register monotonicity: growing the asserted registers without
moving the car preserves every call-existence witness. -/
theorem callAbove_mono (e e' : Elevator) (hf : e'.floor = e.floor)
    (hm : ∀ j, anyCallAt e j = true → anyCallAt e' j = true) :
    callAbove e → callAbove e' := by
  rintro ⟨j, h1, h2, h3⟩
  exact ⟨j, hf ▸ h1, h2, hm j h3⟩

theorem callBelow_mono (e e' : Elevator) (hf : e'.floor = e.floor)
    (hm : ∀ j, anyCallAt e j = true → anyCallAt e' j = true) :
    callBelow e → callBelow e' := by
  rintro ⟨j, h1, h2, h3⟩
  exact ⟨j, h1, hf ▸ h2, hm j h3⟩

theorem callAtOrAbove_mono (e e' : Elevator) (hf : e'.floor = e.floor)
    (hm : ∀ j, anyCallAt e j = true → anyCallAt e' j = true) :
    callAtOrAbove e → callAtOrAbove e' := by
  rintro ⟨j, h1, h2, h3⟩
  exact ⟨j, hf ▸ h1, h2, hm j h3⟩

theorem callAtOrBelow_mono (e e' : Elevator) (hf : e'.floor = e.floor)
    (hm : ∀ j, anyCallAt e j = true → anyCallAt e' j = true) :
    callAtOrBelow e → callAtOrBelow e' := by
  rintro ⟨j, h1, h2, h3⟩
  exact ⟨j, h1, hf ▸ h2, hm j h3⟩

end SafetyHelpers

section SafetyCases

/-- Facts available about the state right after the main loop pops the
front entry `en` (the wait list is `rest`, the clock is `en.nextTime`). -/
theorem pop_facts (s : Simulator) (h : Inv0 s) (en : WaitEntry)
    (rest : List WaitEntry) (hw : s.wait = en :: rest) :
    en ∈ s.wait ∧ (∀ e ∈ rest, e ∈ s.wait) ∧ 0 ≤ en.nextTime ∧
      (∀ e ∈ rest, en.nextTime ≤ e.nextTime) ∧ agendaSorted rest ∧
      (rest.map WaitEntry.id).Nodup := by
  have hmem : en ∈ s.wait := hw ▸ List.mem_cons_self en rest
  have hsub : ∀ e ∈ rest, e ∈ s.wait :=
    fun e he => hw ▸ List.mem_cons_of_mem en he
  have hsort := h.sorted
  rw [agendaSorted, hw, List.pairwise_cons] at hsort
  have hnd := h.idsNodup
  rw [hw] at hnd
  refine ⟨hmem, hsub, le_trans h.timeNN (h.notPast en hmem),
    hsort.1, hsort.2, (List.nodup_cons.mp (by simpa using hnd)).2⟩

/-- Popping a non-movement entry and changing only the rider
containers (to subsets of their previous contents) preserves the
invariant. -/
theorem inv_pop_container (s : Simulator) (h : Inv0 s) (en : WaitEntry)
    (rest : List WaitEntry) (hw : s.wait = en :: rest)
    (hmov : isMovingAct en.act = false)
    (Q : Int → List User) (ST : List User)
    (hQ : ∀ f u, u ∈ Q f → u ∈ s.ele.queue f)
    (hST : ∀ u, u ∈ ST → u ∈ s.ele.stack) :
    Inv0 { s with
      wait := rest
      time := en.nextTime
      ele := { s.ele with queue := Q, stack := ST } } := by
  obtain ⟨hmem, hsub, htNN, hNP, hsor, hnd⟩ := pop_facts s h en rest hw
  have hnomov : (∀ e ∈ rest, isMovingAct e.act = false) → noMovingPending s := by
    intro hg e he
    rcases List.mem_cons.mp (hw ▸ he) with rfl | he2
    · exact hmov
    · exact hg e he2
  exact {
    floorLo := h.floorLo
    floorHi := h.floorHi
    timeNN := htNN
    notPast := hNP
    sorted := hsor
    idsFresh := fun e he => h.idsFresh e (hsub e he)
    idsNodup := hnd
    hFresh1 := h.hFresh1
    hFresh2 := h.hFresh2
    hFresh3 := h.hFresh3
    gFresh := h.gFresh
    coh1 := fun e he hx => h.coh1 e (hsub e he) hx
    coh2 := fun e he hx => h.coh2 e (hsub e he) hx
    coh3 := fun e he hx => h.coh3 e (hsub e he) hx
    up1 := fun e he hx => h.up1 e (hsub e he) hx
    up2 := fun e he hx => h.up2 e (hsub e he) hx
    dn1 := fun e he hx => h.dn1 e (hsub e he) hx
    dn2 := fun e he hx => h.dn2 e (hsub e he) hx
    arr := fun e he hx => h.arr e (hsub e he) hx
    open9 := fun hg => h.open9 (hnomov hg)
    e5inv := fun ⟨e, he, hx⟩ =>
      ⟨fun e2 he2 => (h.e5inv ⟨e, hsub e he, hx⟩).1 e2 (hsub e2 he2),
        (h.e5inv ⟨e, hsub e he, hx⟩).2⟩
    w0 := fun ⟨e, he, hx⟩ => h.w0 ⟨e, hsub e he, hx⟩
    st1 := h.st1
    st5 := fun hx e he => h.st5 hx e (hsub e he)
    dd3 := fun hx e he => h.dd3 hx e (hsub e he)
    p6 := fun ⟨e, he, hx⟩ => h.p6 ⟨e, hsub e he, hx⟩
    getin := fun e he u2 hx =>
      absurd hx (no_getIn_after_pop s h en rest hw e he u2)
    actv := fun e he u2 hx => h.actv e (hsub e he) u2 hx
    qv := fun f u2 hu2 => h.qv f u2 (hQ f u2 hu2)
    sv := fun u2 hu2 => h.sv u2 (hST u2 hu2) }

theorem inv_case_getOut (s : Simulator) (h : Inv0 s) (en : WaitEntry)
    (rest : List WaitEntry) (hw : s.wait = en :: rest) (u : User)
    (ha : en.act = Act.getOut u) :
    Inv0 (userGetOut { s with wait := rest, time := en.nextTime } u) := by
  refine inv_pop_container s h en rest hw (by rw [ha]; rfl) _ _ ?_ ?_
  · intro f u2 hu2
    rw [updQ] at hu2
    split_ifs at hu2 with hf
    · exact hf ▸ List.mem_of_mem_filter hu2
    · exact hu2
  · intro u2 hu2
    exact List.mem_of_mem_filter hu2

theorem inv_case_giveUp (s : Simulator) (h : Inv0 s) (en : WaitEntry)
    (rest : List WaitEntry) (hw : s.wait = en :: rest) (u : User)
    (ha : en.act = Act.giveUp u) :
    Inv0 (userGiveUp { s with wait := rest, time := en.nextTime } u) := by
  rw [userGiveUp]
  split_ifs with hcond
  · refine inv_pop_container s h en rest hw (by rw [ha]; rfl) _ _ ?_ ?_
    · intro f u2 hu2
      rw [updQ] at hu2
      split_ifs at hu2 with hf
      · exact hf ▸ List.mem_of_mem_filter hu2
      · exact hu2
    · intro u2 hu2
      exact List.mem_of_mem_filter hu2
  · exact inv_pop_container s h en rest hw (by rw [ha]; rfl)
      s.ele.queue s.ele.stack (fun f u2 hu2 => hu2) (fun u2 hu2 => hu2)

/-- Popping a non-movement entry and changing only the step/door flags
preserves the invariant, provided the step/flag side conditions hold for
the new values. -/
theorem inv_pop_flags (s : Simulator) (h : Inv0 s) (en : WaitEntry)
    (rest : List WaitEntry) (hw : s.wait = en :: rest)
    (hmov : isMovingAct en.act = false)
    (newStep : Int) (newD1 newD2 newD3 : Bool)
    (hst1 : newStep = stepWaitForCall → newD3 = false)
    (hst5 : newStep = stepCloseDoors → ∀ e ∈ rest, isMovingAct e.act = false)
    (hdd3 : newD3 = true → ∀ e ∈ rest, isMovingAct e.act = false)
    (he5 : (∃ e ∈ rest, e.act = Act.closeDoors) → newStep ≠ stepWaitForCall)
    (hw0 : (∃ e ∈ rest, e.act = Act.waitForCall) → newD3 = false)
    (hp6 : (∃ e ∈ rest, e.act = Act.prepareToMove) → newD3 = false) :
    Inv0 { s with
      wait := rest
      time := en.nextTime
      ele := { s.ele with step := newStep, d1 := newD1, d2 := newD2, d3 := newD3 } } := by
  obtain ⟨hmem, hsub, htNN, hNP, hsor, hnd⟩ := pop_facts s h en rest hw
  have hnomov : (∀ e ∈ rest, isMovingAct e.act = false) → noMovingPending s := by
    intro hg e he
    rcases List.mem_cons.mp (hw ▸ he) with rfl | he2
    · exact hmov
    · exact hg e he2
  exact {
    floorLo := h.floorLo
    floorHi := h.floorHi
    timeNN := htNN
    notPast := hNP
    sorted := hsor
    idsFresh := fun e he => h.idsFresh e (hsub e he)
    idsNodup := hnd
    hFresh1 := h.hFresh1
    hFresh2 := h.hFresh2
    hFresh3 := h.hFresh3
    gFresh := h.gFresh
    coh1 := fun e he hx => h.coh1 e (hsub e he) hx
    coh2 := fun e he hx => h.coh2 e (hsub e he) hx
    coh3 := fun e he hx => h.coh3 e (hsub e he) hx
    up1 := fun e he hx => h.up1 e (hsub e he) hx
    up2 := fun e he hx => h.up2 e (hsub e he) hx
    dn1 := fun e he hx => h.dn1 e (hsub e he) hx
    dn2 := fun e he hx => h.dn2 e (hsub e he) hx
    arr := fun e he hx => h.arr e (hsub e he) hx
    open9 := fun hg => h.open9 (hnomov hg)
    e5inv := fun ⟨e, he, hx⟩ =>
      ⟨fun e2 he2 => (h.e5inv ⟨e, hsub e he, hx⟩).1 e2 (hsub e2 he2),
        he5 ⟨e, he, hx⟩⟩
    w0 := fun hx => hw0 hx
    st1 := hst1
    st5 := fun hx => hst5 hx
    dd3 := fun hx => hdd3 hx
    p6 := fun hx => hp6 hx
    getin := fun e he u2 hx =>
      absurd hx (no_getIn_after_pop s h en rest hw e he u2)
    actv := fun e he u2 hx => h.actv e (hsub e he) u2 hx
    qv := h.qv
    sv := h.sv }

theorem inv_case_waitForCall (s : Simulator) (h : Inv0 s) (en : WaitEntry)
    (rest : List WaitEntry) (hw : s.wait = en :: rest)
    (ha : en.act = Act.waitForCall) :
    Inv0 (executeWaitForCall { s with wait := rest, time := en.nextTime }) := by
  have hmem : en ∈ s.wait := hw ▸ List.mem_cons_self en rest
  have hd3 : s.ele.d3 = false := h.w0 ⟨en, hmem, ha⟩
  have hnoE1 : ∀ e ∈ rest, isElev1Act e.act = false :=
    uniq_elev1_after_pop s h en rest hw (by rw [ha]; rfl)
  have hnoE5 : ¬ ∃ e ∈ rest, e.act = Act.closeDoors := by
    rintro ⟨e, he, hx⟩
    have := (h.e5inv ⟨e, hw ▸ List.mem_cons_of_mem en he, hx⟩).1 en hmem
    rw [ha] at this
    cases this
  exact inv_pop_flags s h en rest hw (by rw [ha]; rfl)
    stepWaitForCall s.ele.d1 s.ele.d2 s.ele.d3
    (fun _ => hd3)
    (fun hx => absurd hx (by decide))
    (fun hx e he => by
      have := hnoE1 e he
      cases hmv : isMovingAct e.act
      · rfl
      · exact absurd (moving_isElev1 e.act hmv) (by simp [this]))
    (fun hx => absurd hx hnoE5)
    (fun _ => hd3)
    (fun _ => hd3)

theorem inv_case_enterPrepare (o : Oracle) (ho : oracleValid o)
    (s : Simulator) (h : Inv0 s) (en : WaitEntry)
    (rest : List WaitEntry) (hw : s.wait = en :: rest)
    (ha : en.act = Act.enterPrepare) :
    Inv0 (userEnterPrepareForSuccessor o
      { s with wait := rest, time := en.nextTime }) := by
  obtain ⟨hmem0, hsub, htNN, hNP, hsor, hnd⟩ := pop_facts s h en rest hw
  obtain ⟨hr1a, hr1b, hr2a, hr2b, hr3a, hr3b, hr4a, hr4b⟩ := ho
  set uNew : User :=
    ⟨s.userID + 1, o.r1, if o.r2 ≥ o.r1 then o.r2 + 1 else o.r2,
      minGiveUpTime + o.r3⟩ with huNew
  have hvalid : validUser uNew := by
    have hm : minGiveUpTime = 300 := rfl
    have hf : floors = 5 := rfl
    rw [hf] at hr1b hr2b
    simp only [huNew, validUser, hm, hf]
    refine ⟨hr1a, hr1b, ?_, ?_, ?_, ?_⟩ <;> (try split_ifs) <;> omega
  have hmem : ∀ e, e ∈ (userEnterPrepareForSuccessor o
      { s with wait := rest, time := en.nextTime }).wait ↔
      e = ⟨s.nextId + 1, en.nextTime, Act.signalAndWait uNew⟩ ∨
      e = ⟨s.nextId, en.nextTime + (minInterTime + o.r4), Act.enterPrepare⟩ ∨
      e ∈ rest := by
    intro e
    show e ∈ (⟨s.nextId + 1, en.nextTime, Act.signalAndWait uNew⟩ ::
      sortIn rest
        ⟨s.nextId, en.nextTime + (minInterTime + o.r4), Act.enterPrepare⟩ :
        List WaitEntry) ↔ _
    rw [List.mem_cons, mem_sortIn]
  have hrsub : ∀ e ∈ rest, e ∈ (userEnterPrepareForSuccessor o
      { s with wait := rest, time := en.nextTime }).wait :=
    fun e he => (hmem e).mpr (Or.inr (Or.inr he))
  have hwaitEq : (userEnterPrepareForSuccessor o
      { s with wait := rest, time := en.nextTime }).wait =
      ⟨s.nextId + 1, en.nextTime, Act.signalAndWait uNew⟩ ::
        sortIn rest
          ⟨s.nextId, en.nextTime + (minInterTime + o.r4), Act.enterPrepare⟩ := rfl
  have hsortmem : ∀ e ∈ sortIn rest
      ⟨s.nextId, en.nextTime + (minInterTime + o.r4), Act.enterPrepare⟩,
      e = ⟨s.nextId, en.nextTime + (minInterTime + o.r4), Act.enterPrepare⟩ ∨
        e ∈ rest :=
    fun e he => (mem_sortIn _ _ _).mp he
  have hnomov : noMovingPending (userEnterPrepareForSuccessor o
      { s with wait := rest, time := en.nextTime }) → noMovingPending s := by
    intro hg e he
    rcases List.mem_cons.mp (hw ▸ he) with rfl | he2
    · rw [ha]; rfl
    · exact hg e (hrsub e he2)
  refine {
    floorLo := h.floorLo
    floorHi := h.floorHi
    timeNN := htNN
    notPast := ?_
    sorted := ?_
    idsFresh := ?_
    idsNodup := ?_
    hFresh1 := fun i hi => Nat.lt_succ_of_lt (Nat.lt_succ_of_lt (h.hFresh1 i hi))
    hFresh2 := fun i hi => Nat.lt_succ_of_lt (Nat.lt_succ_of_lt (h.hFresh2 i hi))
    hFresh3 := fun i hi => Nat.lt_succ_of_lt (Nat.lt_succ_of_lt (h.hFresh3 i hi))
    gFresh := fun uid i hi =>
      Nat.lt_succ_of_lt (Nat.lt_succ_of_lt (h.gFresh uid i hi))
    coh1 := ?_
    coh2 := ?_
    coh3 := ?_
    up1 := ?_
    up2 := ?_
    dn1 := ?_
    dn2 := ?_
    arr := ?_
    open9 := fun hg => h.open9 (hnomov hg)
    e5inv := ?_
    w0 := ?_
    st1 := h.st1
    st5 := ?_
    dd3 := ?_
    p6 := ?_
    getin := ?_
    actv := ?_
    qv := h.qv
    sv := h.sv }
  · intro e he
    rcases (hmem e).mp he with rfl | rfl | he2
    · exact le_refl _
    · show en.nextTime ≤ en.nextTime + (minInterTime + o.r4)
      rw [show minInterTime = 10 from rfl]
      omega
    · exact hNP e he2
  · rw [hwaitEq]
    refine List.Pairwise.cons ?_ (sortIn_sorted _ _ hsor)
    intro e he
    rcases hsortmem e he with rfl | he2
    · show en.nextTime ≤ en.nextTime + (minInterTime + o.r4)
      rw [show minInterTime = 10 from rfl]
      omega
    · exact hNP e he2
  · intro e he
    rcases (hmem e).mp he with rfl | rfl | he2
    · exact Nat.lt_succ_self _
    · exact Nat.lt_succ_of_lt (Nat.lt_succ_self _)
    · exact Nat.lt_succ_of_lt (Nat.lt_succ_of_lt (h.idsFresh e (hsub e he2)))
  · rw [hwaitEq]
    refine List.Nodup.cons ?_ ?_
    · intro hc
      obtain ⟨e, he, hid⟩ := List.mem_map.mp hc
      rcases hsortmem e he with rfl | he2
      · simp at hid
      · exact absurd hid
          (Nat.ne_of_lt (Nat.lt_succ_of_lt (h.idsFresh e (hsub e he2))))
    · exact nodup_sortIn _ _ hnd
        (fun e he => Nat.ne_of_lt (h.idsFresh e (hsub e he)))
  · intro e he hx
    rcases (hmem e).mp he with rfl | rfl | he2
    · cases hx
    · cases hx
    · exact h.coh1 e (hsub e he2) hx
  · intro e he hx
    rcases (hmem e).mp he with rfl | rfl | he2
    · cases hx
    · cases hx
    · exact h.coh2 e (hsub e he2) hx
  · intro e he hx
    rcases (hmem e).mp he with rfl | rfl | he2
    · cases hx
    · cases hx
    · exact h.coh3 e (hsub e he2) hx
  · intro e he hx
    rcases (hmem e).mp he with rfl | rfl | he2
    · cases hx
    · cases hx
    · exact h.up1 e (hsub e he2) hx
  · intro e he hx
    rcases (hmem e).mp he with rfl | rfl | he2
    · cases hx
    · cases hx
    · exact h.up2 e (hsub e he2) hx
  · intro e he hx
    rcases (hmem e).mp he with rfl | rfl | he2
    · cases hx
    · cases hx
    · exact h.dn1 e (hsub e he2) hx
  · intro e he hx
    rcases (hmem e).mp he with rfl | rfl | he2
    · cases hx
    · cases hx
    · exact h.dn2 e (hsub e he2) hx
  · intro e he hx
    rcases (hmem e).mp he with rfl | rfl | he2
    · cases hx
    · cases hx
    · exact h.arr e (hsub e he2) hx
  · rintro ⟨e, he, hx⟩
    rcases (hmem e).mp he with rfl | rfl | he2
    · cases hx
    · cases hx
    · refine ⟨?_, (h.e5inv ⟨e, hsub e he2, hx⟩).2⟩
      intro e2 he2x
      rcases (hmem e2).mp he2x with rfl | rfl | he3
      · rfl
      · rfl
      · exact (h.e5inv ⟨e, hsub e he2, hx⟩).1 e2 (hsub e2 he3)
  · rintro ⟨e, he, hx⟩
    rcases (hmem e).mp he with rfl | rfl | he2
    · cases hx
    · cases hx
    · exact h.w0 ⟨e, hsub e he2, hx⟩
  · intro hx e he
    rcases (hmem e).mp he with rfl | rfl | he2
    · rfl
    · rfl
    · exact h.st5 hx e (hsub e he2)
  · intro hx e he
    rcases (hmem e).mp he with rfl | rfl | he2
    · rfl
    · rfl
    · exact h.dd3 hx e (hsub e he2)
  · rintro ⟨e, he, hx⟩
    rcases (hmem e).mp he with rfl | rfl | he2
    · cases hx
    · cases hx
    · exact h.p6 ⟨e, hsub e he2, hx⟩
  · intro e he u2 hx
    rcases (hmem e).mp he with rfl | rfl | he2
    · cases hx
    · cases hx
    · exact absurd hx (no_getIn_after_pop s h en rest hw e he2 u2)
  · intro e he u2 hx
    rcases (hmem e).mp he with rfl | rfl | he2
    · cases hx
      exact hvalid
    · cases hx
    · exact h.actv e (hsub e he2) u2 hx

theorem inv_case_enterQueue (s : Simulator) (h : Inv0 s) (en : WaitEntry)
    (rest : List WaitEntry) (hw : s.wait = en :: rest) (u : User)
    (ha : en.act = Act.enterQueue u) :
    Inv0 (userEnterQueue { s with wait := rest, time := en.nextTime } u) := by
  obtain ⟨hmem0, hsub, htNN, hNP, hsor, hnd⟩ := pop_facts s h en rest hw
  have hval : validUser u := h.actv en hmem0 u (by rw [ha]; rfl)
  have hgt : (0 : Int) ≤ u.giveUpTime := hval.2.2.2.2.2
  have hmem : ∀ e, e ∈ (userEnterQueue
      { s with wait := rest, time := en.nextTime } u).wait ↔
      e = ⟨s.nextId, en.nextTime + u.giveUpTime, Act.giveUp u⟩ ∨ e ∈ rest := by
    intro e
    show e ∈ sortIn rest ⟨s.nextId, en.nextTime + u.giveUpTime, Act.giveUp u⟩ ↔ _
    rw [mem_sortIn]
  have hrsub : ∀ e ∈ rest, e ∈ (userEnterQueue
      { s with wait := rest, time := en.nextTime } u).wait :=
    fun e he => (hmem e).mpr (Or.inr he)
  have hnomov : noMovingPending (userEnterQueue
      { s with wait := rest, time := en.nextTime } u) → noMovingPending s := by
    intro hg e he
    rcases List.mem_cons.mp (hw ▸ he) with rfl | he2
    · rw [ha]; rfl
    · exact hg e (hrsub e he2)
  refine {
    floorLo := h.floorLo
    floorHi := h.floorHi
    timeNN := htNN
    notPast := ?_
    sorted := ?_
    idsFresh := ?_
    idsNodup := ?_
    hFresh1 := fun i hi => Nat.lt_succ_of_lt (h.hFresh1 i hi)
    hFresh2 := fun i hi => Nat.lt_succ_of_lt (h.hFresh2 i hi)
    hFresh3 := fun i hi => Nat.lt_succ_of_lt (h.hFresh3 i hi)
    gFresh := ?_
    coh1 := ?_
    coh2 := ?_
    coh3 := ?_
    up1 := ?_
    up2 := ?_
    dn1 := ?_
    dn2 := ?_
    arr := ?_
    open9 := fun hg => h.open9 (hnomov hg)
    e5inv := ?_
    w0 := ?_
    st1 := h.st1
    st5 := ?_
    dd3 := ?_
    p6 := ?_
    getin := ?_
    actv := ?_
    qv := ?_
    sv := h.sv }
  · intro e he
    rcases (hmem e).mp he with rfl | he2
    · show en.nextTime ≤ en.nextTime + u.giveUpTime
      omega
    · exact hNP e he2
  · show agendaSorted (sortIn rest _)
    exact sortIn_sorted _ _ hsor
  · intro e he
    rcases (hmem e).mp he with rfl | he2
    · exact Nat.lt_succ_self _
    · exact Nat.lt_succ_of_lt (h.idsFresh e (hsub e he2))
  · show ((sortIn rest
      ⟨s.nextId, en.nextTime + u.giveUpTime, Act.giveUp u⟩).map WaitEntry.id).Nodup
    exact nodup_sortIn _ _ hnd
      (fun e he => Nat.ne_of_lt (h.idsFresh e (hsub e he)))
  · intro uid i hi
    have hi2 : (if uid = u.id then some s.nextId else s.giveUpH uid) = some i := hi
    by_cases hc : uid = u.id
    · rw [if_pos hc] at hi2
      exact (Option.some_inj.mp hi2) ▸ Nat.lt_succ_self _
    · rw [if_neg hc] at hi2
      exact Nat.lt_succ_of_lt (h.gFresh uid i hi2)
  · intro e he hx
    rcases (hmem e).mp he with rfl | he2
    · cases hx
    · exact h.coh1 e (hsub e he2) hx
  · intro e he hx
    rcases (hmem e).mp he with rfl | he2
    · cases hx
    · exact h.coh2 e (hsub e he2) hx
  · intro e he hx
    rcases (hmem e).mp he with rfl | he2
    · cases hx
    · exact h.coh3 e (hsub e he2) hx
  · intro e he hx
    rcases (hmem e).mp he with rfl | he2
    · cases hx
    · exact h.up1 e (hsub e he2) hx
  · intro e he hx
    rcases (hmem e).mp he with rfl | he2
    · cases hx
    · exact h.up2 e (hsub e he2) hx
  · intro e he hx
    rcases (hmem e).mp he with rfl | he2
    · cases hx
    · exact h.dn1 e (hsub e he2) hx
  · intro e he hx
    rcases (hmem e).mp he with rfl | he2
    · cases hx
    · exact h.dn2 e (hsub e he2) hx
  · intro e he hx
    rcases (hmem e).mp he with rfl | he2
    · cases hx
    · exact h.arr e (hsub e he2) hx
  · rintro ⟨e, he, hx⟩
    rcases (hmem e).mp he with rfl | he2
    · cases hx
    · refine ⟨?_, (h.e5inv ⟨e, hsub e he2, hx⟩).2⟩
      intro e2 he2x
      rcases (hmem e2).mp he2x with rfl | he3
      · rfl
      · exact (h.e5inv ⟨e, hsub e he2, hx⟩).1 e2 (hsub e2 he3)
  · rintro ⟨e, he, hx⟩
    rcases (hmem e).mp he with rfl | he2
    · cases hx
    · exact h.w0 ⟨e, hsub e he2, hx⟩
  · intro hx e he
    rcases (hmem e).mp he with rfl | he2
    · rfl
    · exact h.st5 hx e (hsub e he2)
  · intro hx e he
    rcases (hmem e).mp he with rfl | he2
    · rfl
    · exact h.dd3 hx e (hsub e he2)
  · rintro ⟨e, he, hx⟩
    rcases (hmem e).mp he with rfl | he2
    · cases hx
    · exact h.p6 ⟨e, hsub e he2, hx⟩
  · intro e he u2 hx
    rcases (hmem e).mp he with rfl | he2
    · cases hx
    · exact absurd hx (no_getIn_after_pop s h en rest hw e he2 u2)
  · intro e he u2 hx
    rcases (hmem e).mp he with rfl | he2
    · cases hx
      exact hval
    · exact h.actv e (hsub e he2) u2 hx
  · intro f u2 hu2
    have hu2a : u2 ∈ updQ s.ele.queue u.uin (s.ele.queue u.uin ++ [u]) f := hu2
    rw [updQ] at hu2a
    by_cases hc : f = u.uin
    · subst hc
      rw [if_pos rfl] at hu2a
      rcases List.mem_append.mp hu2a with h1 | h1
      · exact h.qv u.uin u2 h1
      · have : u2 = u := by simpa using h1
        subst this
        exact ⟨hval, rfl⟩
    · rw [if_neg hc] at hu2a
      exact h.qv f u2 hu2a

/-- Overwriting the travel state preserves the invariant when no
movement action is pending, provided the new state comes with the call
witness `open9` demands. -/
theorem inv_setState (s : Simulator) (h : Inv0 s) (hnomov : noMovingPending s)
    (st : Int)
    (hU : st = stateGoingUp → callAbove s.ele ∨ s.ele.floor ≤ 1)
    (hD : st = stateGoingDown → callBelow s.ele ∨ 3 ≤ s.ele.floor) :
    Inv0 { s with ele := { s.ele with state := st } } := by
  have hmv : ∀ e ∈ s.wait, isMovingAct e.act = true → False :=
    fun e he hx => by rw [hnomov e he] at hx; cases hx
  exact {
    floorLo := h.floorLo
    floorHi := h.floorHi
    timeNN := h.timeNN
    notPast := h.notPast
    sorted := h.sorted
    idsFresh := h.idsFresh
    idsNodup := h.idsNodup
    hFresh1 := h.hFresh1
    hFresh2 := h.hFresh2
    hFresh3 := h.hFresh3
    gFresh := h.gFresh
    coh1 := h.coh1
    coh2 := h.coh2
    coh3 := h.coh3
    up1 := fun e he hx => (hmv e he (by rw [hx]; rfl)).elim
    up2 := fun e he hx => (hmv e he (by rw [hx]; rfl)).elim
    dn1 := fun e he hx => (hmv e he (by rw [hx]; rfl)).elim
    dn2 := fun e he hx => (hmv e he (by rw [hx]; rfl)).elim
    arr := fun e he hx => (hmv e he (by rw [hx]; rfl)).elim
    open9 := fun _ => ⟨fun h7 => hU h7, fun h8 => hD h8⟩
    e5inv := fun hex => h.e5inv hex
    w0 := h.w0
    st1 := h.st1
    st5 := fun _ => hnomov
    dd3 := fun hx => h.dd3 hx
    p6 := h.p6
    getin := fun e he u hx => h.getin e he u hx
    actv := h.actv
    qv := h.qv
    sv := h.sv }

/-- Scheduling a non-movement primary-handle action at a non-negative
delay preserves the invariant when no movement action is pending. -/
theorem inv_sched_elev1 (s : Simulator) (h : Inv0 s)
    (hnomov : noMovingPending s)
    (hng : ∀ en ∈ s.wait, ∀ u, en.act ≠ Act.getIn u)
    (a : Act) (ha1 : isElev1Act a = true) (hamov : isMovingAct a = false)
    (haBar : isBarredWithE5 a = true → ¬ ∃ en ∈ s.wait, en.act = Act.closeDoors)
    (haP6 : a = Act.prepareToMove → s.ele.d3 = false)
    (haW0 : a ≠ Act.waitForCall)
    (haGI : ∀ u, a ≠ Act.getIn u)
    (haUser : actUser a = none)
    (d : Int) (hd : 0 ≤ d) :
    Inv0 (scheduleElevator s Handle.elev1 d a) := by
  obtain ⟨hNP, hsor, hfr, hnd⟩ :=
    sched_bulk s Handle.elev1 d a hd h.notPast h.sorted h.idsFresh h.idsNodup
  have hmemi := mem_scheduleElevator_iff s Handle.elev1 d a
  have hpost : scheduleElevator s Handle.elev1 d a =
      { s with
        wait := (scheduleElevator s Handle.elev1 d a).wait
        nextId := s.nextId + 1
        ele := { s.ele with elev1 := some s.nextId } } := by
    cases hh : s.ele.elev1 <;>
      simp [scheduleElevator, cancelId, insertWait, hh]
  rw [hpost]
  refine {
    floorLo := h.floorLo
    floorHi := h.floorHi
    timeNN := h.timeNN
    notPast := hNP
    sorted := hsor
    idsFresh := hfr
    idsNodup := hnd
    hFresh1 := ?_
    hFresh2 := fun i hi => Nat.lt_succ_of_lt (h.hFresh2 i hi)
    hFresh3 := fun i hi => Nat.lt_succ_of_lt (h.hFresh3 i hi)
    gFresh := fun uid i hi => Nat.lt_succ_of_lt (h.gFresh uid i hi)
    coh1 := ?_
    coh2 := ?_
    coh3 := ?_
    up1 := ?_
    up2 := ?_
    dn1 := ?_
    dn2 := ?_
    arr := ?_
    open9 := fun _ => h.open9 hnomov
    e5inv := ?_
    w0 := ?_
    st1 := h.st1
    st5 := ?_
    dd3 := ?_
    p6 := ?_
    getin := ?_
    actv := ?_
    qv := h.qv
    sv := h.sv }
  · intro i hi
    injection hi with hi2
    show i < s.nextId + 1
    omega
  · intro e he hx
    rcases (hmemi e).mp he with rfl | ⟨he2, hni⟩
    · exact rfl
    · exact absurd rfl (hni e.id (h.coh1 e he2 hx))
  · intro e he hx
    rcases (hmemi e).mp he with rfl | ⟨he2, -⟩
    · have hxa : a = Act.closeDoors := hx
      rw [hxa] at ha1
      exact absurd ha1 (by decide)
    · exact h.coh2 e he2 hx
  · intro e he hx
    rcases (hmemi e).mp he with rfl | ⟨he2, -⟩
    · have hxa : a = Act.setInactionIndicator := hx
      rw [hxa] at ha1
      exact absurd ha1 (by decide)
    · exact h.coh3 e he2 hx
  · intro e he hx
    rcases (hmemi e).mp he with rfl | ⟨he2, -⟩
    · have hxa : a = Act.goUpAFloor := hx
      rw [hxa] at hamov
      exact absurd hamov (by decide)
    · exact absurd (hx ▸ hnomov e he2) (by decide)
  · intro e he hx
    rcases (hmemi e).mp he with rfl | ⟨he2, -⟩
    · have hxa : a = Act.goUpAFloor2 := hx
      rw [hxa] at hamov
      exact absurd hamov (by decide)
    · exact absurd (hx ▸ hnomov e he2) (by decide)
  · intro e he hx
    rcases (hmemi e).mp he with rfl | ⟨he2, -⟩
    · have hxa : a = Act.goDownAFloor := hx
      rw [hxa] at hamov
      exact absurd hamov (by decide)
    · exact absurd (hx ▸ hnomov e he2) (by decide)
  · intro e he hx
    rcases (hmemi e).mp he with rfl | ⟨he2, -⟩
    · have hxa : a = Act.goDownAFloor2 := hx
      rw [hxa] at hamov
      exact absurd hamov (by decide)
    · exact absurd (hx ▸ hnomov e he2) (by decide)
  · intro e he hx
    rcases (hmemi e).mp he with rfl | ⟨he2, -⟩
    · have hxa : a = Act.changeOfState := hx
      rw [hxa] at hamov
      exact absurd hamov (by decide)
    · exact absurd (hx ▸ hnomov e he2) (by decide)
  · rintro ⟨e, he, hx⟩
    rcases (hmemi e).mp he with rfl | ⟨he2, -⟩
    · have hxa : a = Act.closeDoors := hx
      rw [hxa] at ha1
      exact absurd ha1 (by decide)
    · have pre := h.e5inv ⟨e, he2, hx⟩
      refine ⟨?_, pre.2⟩
      intro e2 he2x
      rcases (hmemi e2).mp he2x with rfl | ⟨he3, -⟩
      · cases hb : isBarredWithE5 a
        · rfl
        · exact absurd ⟨e, he2, hx⟩ (haBar hb)
      · exact pre.1 e2 he3
  · rintro ⟨e, he, hx⟩
    rcases (hmemi e).mp he with rfl | ⟨he2, -⟩
    · exact absurd hx haW0
    · exact h.w0 ⟨e, he2, hx⟩
  · intro h5 e he
    rcases (hmemi e).mp he with rfl | ⟨he2, -⟩
    · exact hamov
    · exact hnomov e he2
  · intro h5 e he
    rcases (hmemi e).mp he with rfl | ⟨he2, -⟩
    · exact hamov
    · exact hnomov e he2
  · rintro ⟨e, he, hx⟩
    rcases (hmemi e).mp he with rfl | ⟨he2, -⟩
    · exact haP6 hx
    · exact h.p6 ⟨e, he2, hx⟩
  · intro e he u hx
    rcases (hmemi e).mp he with rfl | ⟨he2, -⟩
    · exact absurd hx (haGI u)
    · exact absurd hx (hng e he2 u)
  · intro e he u hx
    rcases (hmemi e).mp he with rfl | ⟨he2, -⟩
    · have hxa : actUser a = some u := hx
      rw [haUser] at hxa
      cases hxa
    · exact h.actv e he2 u hx

/-- Step D4 preserves the invariant: the state assignment carries a call
witness (or a home-floor bound) in the chosen direction, and the E6
scheduling can only happen from step E1, whose flag invariants supply
what the new pending `prepareToMove` entry requires. -/
theorem inv_decisionD4 (s : Simulator) (h : Inv0 s)
    (hnomov : noMovingPending s)
    (hng : ∀ en ∈ s.wait, ∀ u, en.act ≠ Act.getIn u)
    (j : Int)
    (hwitU : s.ele.floor < j → callAbove s.ele ∨ s.ele.floor ≤ 1)
    (hwitD : j < s.ele.floor → callBelow s.ele ∨ 3 ≤ s.ele.floor) :
    Inv0 (decisionD4 s j) := by
  simp only [decisionD4]
  rcases lt_trichotomy j s.ele.floor with hgt | heq | hlt
  · rw [if_pos hgt]
    have h1 : Inv0 { s with ele := { s.ele with state := stateGoingDown } } :=
      inv_setState s h hnomov stateGoingDown
        (fun hx => absurd hx (by decide)) (fun _ => hwitD hgt)
    split_ifs with hc
    · exact inv_sched_elev1 _ h1 hnomov hng Act.prepareToMove rfl rfl
        (fun _ hex => absurd hc.1 (h1.e5inv hex).2)
        (fun _ => h1.st1 hc.1) (fun hx => Act.noConfusion hx)
        (fun u hx => Act.noConfusion hx) rfl 20 (by omega)
    · exact h1
  · rw [if_neg (by omega : ¬ s.ele.floor > j),
      if_neg (by omega : ¬ s.ele.floor < j)]
    split_ifs with hc
    · exact inv_sched_elev1 s h hnomov hng Act.prepareToMove rfl rfl
        (fun _ hex => absurd hc.1 (h.e5inv hex).2)
        (fun _ => h.st1 hc.1) (fun hx => Act.noConfusion hx)
        (fun u hx => Act.noConfusion hx) rfl 20 (by omega)
    · exact h
  · rw [if_neg (by omega : ¬ s.ele.floor > j), if_pos hlt]
    have h1 : Inv0 { s with ele := { s.ele with state := stateGoingUp } } :=
      inv_setState s h hnomov stateGoingUp
        (fun _ => hwitU hlt) (fun hx => absurd hx (by decide))
    split_ifs with hc
    · exact inv_sched_elev1 _ h1 hnomov hng Act.prepareToMove rfl rfl
        (fun _ hex => absurd hc.1 (h1.e5inv hex).2)
        (fun _ => h1.st1 hc.1) (fun hx => Act.noConfusion hx)
        (fun u hx => Act.noConfusion hx) rfl 20 (by omega)
    · exact h1

/-- The DECISION subroutine preserves the invariant whenever no `getIn`
action is pending (always true at its call sites, since a pending
`getIn` sits at the front of the WAIT list). -/
theorem inv_decision (s : Simulator) (h : Inv0 s)
    (hng : ∀ en ∈ s.wait, ∀ u, en.act ≠ Act.getIn u) :
    Inv0 (decision s) := by
  by_cases h9 : s.ele.state = stateNeutral
  · have hnomov : noMovingPending s := by
      intro e he
      cases hact : e.act
      case changeOfState => exact absurd h9 (h.arr e he hact)
      case goUpAFloor =>
        exact absurd (h9.symm.trans (h.up1 e he hact).1) (by decide)
      case goUpAFloor2 =>
        exact absurd (h9.symm.trans (h.up2 e he hact).1) (by decide)
      case goDownAFloor =>
        exact absurd (h9.symm.trans (h.dn1 e he hact).1) (by decide)
      case goDownAFloor2 =>
        exact absurd (h9.symm.trans (h.dn2 e he hact).1) (by decide)
      all_goals rfl
    simp only [decision]
    rw [if_neg (not_not_intro h9)]
    split_ifs with hD2 h6
    · exact inv_sched_elev1 s h hnomov hng Act.openDoors rfl rfl
        (fun hb => absurd hb (by decide)) (fun hx => Act.noConfusion hx)
        (fun hx => Act.noConfusion hx) (fun u hx => Act.noConfusion hx)
        rfl 20 (by omega)
    · cases hfind : (intRange 0 floors).find?
          (fun j => decide (j ≠ s.ele.floor) && anyCallAt s.ele j) with
      | none =>
          show Inv0 (decisionD4 s 2)
          exact inv_decisionD4 s h hnomov hng 2
            (fun hlt => Or.inr (by omega)) (fun hgt => Or.inr (by omega))
      | some j =>
          show Inv0 (decisionD4 s j)
          have hjmem := List.mem_of_find?_eq_some hfind
          have hjp := List.find?_some hfind
          rw [Bool.and_eq_true] at hjp
          have hjc : anyCallAt s.ele j = true := hjp.2
          obtain ⟨hj0, hjf⟩ := (mem_intRange 0 floors j).mp hjmem
          exact inv_decisionD4 s h hnomov hng j
            (fun hlt => Or.inl ⟨j, hlt, hjf, hjc⟩)
            (fun hgt => Or.inl ⟨j, hj0, hgt, hjc⟩)
    · cases hfind : (intRange 0 floors).find?
          (fun j => decide (j ≠ s.ele.floor) && anyCallAt s.ele j) with
      | none => exact h
      | some j =>
          show Inv0 (decisionD4 s j)
          have hjmem := List.mem_of_find?_eq_some hfind
          have hjp := List.find?_some hfind
          rw [Bool.and_eq_true] at hjp
          have hjc : anyCallAt s.ele j = true := hjp.2
          obtain ⟨hj0, hjf⟩ := (mem_intRange 0 floors j).mp hjmem
          exact inv_decisionD4 s h hnomov hng j
            (fun hlt => Or.inl ⟨j, hlt, hjf, hjc⟩)
            (fun hgt => Or.inl ⟨j, hj0, hgt, hjc⟩)
  · simp only [decision]
    rw [if_pos h9]
    exact h

/-- After popping a barred primary-handle entry, rescheduling the
primary handle with a movement action preserves the invariant, provided
the new elevator record keeps the handles, queues and stack, keeps the
floor in range, has D3 off, is not in step E5, and carries the movement
obligation of the scheduled action. -/
theorem inv_pop_sched_mov (s : Simulator) (h : Inv0 s) (en : WaitEntry)
    (rest : List WaitEntry) (hw : s.wait = en :: rest)
    (henb : isBarredWithE5 en.act = true)
    (E : Elevator)
    (hE1 : E.elev1 = s.ele.elev1) (hE2 : E.elev2 = s.ele.elev2)
    (hE3 : E.elev3 = s.ele.elev3)
    (hEq : E.queue = s.ele.queue) (hEs : E.stack = s.ele.stack)
    (hElo : 0 ≤ E.floor) (hEhi : E.floor ≤ 4)
    (hEd3 : E.d3 = false)
    (hEst5 : E.step = stepCloseDoors → False)
    (a : Act) (hamov : isMovingAct a = true)
    (hup1 : a = Act.goUpAFloor → E.state = stateGoingUp ∧ E.floor ≤ 3 ∧
      (callAbove E ∨ E.floor ≤ 1))
    (hup2 : a = Act.goUpAFloor2 → E.state = stateGoingUp ∧
      (callAtOrAbove E ∨ E.floor ≤ 2))
    (hdn1 : a = Act.goDownAFloor → E.state = stateGoingDown ∧ 1 ≤ E.floor ∧
      (callBelow E ∨ 3 ≤ E.floor))
    (hdn2 : a = Act.goDownAFloor2 → E.state = stateGoingDown ∧
      (callAtOrBelow E ∨ 2 ≤ E.floor))
    (harr : a = Act.changeOfState → E.state ≠ stateNeutral)
    (d : Int) (hd : 0 ≤ d) :
    Inv0 (scheduleElevator
      { s with wait := rest, time := en.nextTime, ele := E }
      Handle.elev1 d a) := by
  obtain ⟨hmem0, hsub, htNN, hNP, hsor, hnd⟩ := pop_facts s h en rest hw
  have hen1 : isElev1Act en.act = true := barred_isElev1 en.act henb
  have hnoE1 : ∀ e ∈ rest, isElev1Act e.act = false :=
    uniq_elev1_after_pop s h en rest hw hen1
  have hnoE5 : ¬ ∃ e ∈ rest, e.act = Act.closeDoors := by
    rintro ⟨e, he, hx⟩
    have := (h.e5inv ⟨e, hsub e he, hx⟩).1 en hmem0
    rw [henb] at this
    cases this
  have haUser : actUser a = none := by
    cases a <;> simp_all [isMovingAct, actUser]
  obtain ⟨hbNP, hbsor, hbfr, hbnd⟩ :=
    sched_bulk { s with wait := rest, time := en.nextTime, ele := E }
      Handle.elev1 d a hd hNP hsor
      (fun e he => h.idsFresh e (hsub e he)) hnd
  have hmemi := mem_scheduleElevator_iff
    { s with wait := rest, time := en.nextTime, ele := E } Handle.elev1 d a
  have hpost : scheduleElevator
      { s with wait := rest, time := en.nextTime, ele := E }
      Handle.elev1 d a =
      { s with
        wait := (scheduleElevator
          { s with wait := rest, time := en.nextTime, ele := E }
          Handle.elev1 d a).wait
        time := en.nextTime
        nextId := s.nextId + 1
        ele := { E with elev1 := some s.nextId } } := by
    cases hh : E.elev1 <;>
      simp [scheduleElevator, cancelId, insertWait, hh]
  rw [hpost]
  have hmemNew : (⟨s.nextId, en.nextTime + d, a⟩ : WaitEntry) ∈
      (scheduleElevator { s with wait := rest, time := en.nextTime, ele := E }
        Handle.elev1 d a).wait :=
    (hmemi _).mpr (Or.inl rfl)
  refine {
    floorLo := hElo
    floorHi := hEhi
    timeNN := htNN
    notPast := hbNP
    sorted := hbsor
    idsFresh := hbfr
    idsNodup := hbnd
    hFresh1 := ?_
    hFresh2 := ?_
    hFresh3 := ?_
    gFresh := fun uid i hi => Nat.lt_succ_of_lt (h.gFresh uid i hi)
    coh1 := ?_
    coh2 := ?_
    coh3 := ?_
    up1 := ?_
    up2 := ?_
    dn1 := ?_
    dn2 := ?_
    arr := ?_
    open9 := fun hg => absurd
      (show isMovingAct a = false from hg _ hmemNew) (by simp [hamov])
    e5inv := ?_
    w0 := fun _ => hEd3
    st1 := fun _ => hEd3
    st5 := fun h5 => (hEst5 h5).elim
    dd3 := fun hx3 => absurd (hEd3.symm.trans hx3) (by decide)
    p6 := fun _ => hEd3
    getin := ?_
    actv := ?_
    qv := ?_
    sv := ?_ }
  · intro i hi
    injection hi with hi2
    show i < s.nextId + 1
    omega
  · intro i hi
    have hi2 : E.elev2 = some i := hi
    rw [hE2] at hi2
    exact Nat.lt_succ_of_lt (h.hFresh2 i hi2)
  · intro i hi
    have hi2 : E.elev3 = some i := hi
    rw [hE3] at hi2
    exact Nat.lt_succ_of_lt (h.hFresh3 i hi2)
  · intro e he hx
    rcases (hmemi e).mp he with rfl | ⟨he2, -⟩
    · exact rfl
    · exact absurd hx (by rw [hnoE1 e he2]; decide)
  · intro e he hx
    rcases (hmemi e).mp he with rfl | ⟨he2, -⟩
    · have hxa : a = Act.closeDoors := hx
      rw [hxa] at hamov
      exact absurd hamov (by decide)
    · show E.elev2 = some e.id
      rw [hE2]
      exact h.coh2 e (hsub e he2) hx
  · intro e he hx
    rcases (hmemi e).mp he with rfl | ⟨he2, -⟩
    · have hxa : a = Act.setInactionIndicator := hx
      rw [hxa] at hamov
      exact absurd hamov (by decide)
    · show E.elev3 = some e.id
      rw [hE3]
      exact h.coh3 e (hsub e he2) hx
  · intro e he hx
    rcases (hmemi e).mp he with rfl | ⟨he2, -⟩
    · exact hup1 hx
    · exact absurd (hx ▸ hnoE1 e he2) (by decide)
  · intro e he hx
    rcases (hmemi e).mp he with rfl | ⟨he2, -⟩
    · exact hup2 hx
    · exact absurd (hx ▸ hnoE1 e he2) (by decide)
  · intro e he hx
    rcases (hmemi e).mp he with rfl | ⟨he2, -⟩
    · exact hdn1 hx
    · exact absurd (hx ▸ hnoE1 e he2) (by decide)
  · intro e he hx
    rcases (hmemi e).mp he with rfl | ⟨he2, -⟩
    · exact hdn2 hx
    · exact absurd (hx ▸ hnoE1 e he2) (by decide)
  · intro e he hx
    rcases (hmemi e).mp he with rfl | ⟨he2, -⟩
    · exact harr hx
    · exact absurd (hx ▸ hnoE1 e he2) (by decide)
  · rintro ⟨e, he, hx⟩
    rcases (hmemi e).mp he with rfl | ⟨he2, -⟩
    · have hxa : a = Act.closeDoors := hx
      rw [hxa] at hamov
      exact absurd hamov (by decide)
    · exact absurd ⟨e, he2, hx⟩ hnoE5
  · intro e he u hx
    rcases (hmemi e).mp he with rfl | ⟨he2, -⟩
    · have hxa : a = Act.getIn u := hx
      rw [hxa] at hamov
      exact absurd hamov (by simp [isMovingAct])
    · exact absurd hx (no_getIn_after_pop s h en rest hw e he2 u)
  · intro e he u hx
    rcases (hmemi e).mp he with rfl | ⟨he2, -⟩
    · have hxa : actUser a = some u := hx
      rw [haUser] at hxa
      cases hxa
    · exact h.actv e (hsub e he2) u hx
  · intro f u hu
    have hu2 : u ∈ E.queue f := hu
    rw [hEq] at hu2
    exact h.qv f u hu2
  · intro u hu
    have hu2 : u ∈ E.stack := hu
    rw [hEs] at hu2
    exact h.sv u hu2

/-- The immediate-rescheduling variant of `inv_pop_sched_mov`, used by
the repeat branches of E7 and E8. -/
theorem inv_pop_schedImm_mov (s : Simulator) (h : Inv0 s) (en : WaitEntry)
    (rest : List WaitEntry) (hw : s.wait = en :: rest)
    (henb : isBarredWithE5 en.act = true)
    (E : Elevator)
    (hE1 : E.elev1 = s.ele.elev1) (hE2 : E.elev2 = s.ele.elev2)
    (hE3 : E.elev3 = s.ele.elev3)
    (hEq : E.queue = s.ele.queue) (hEs : E.stack = s.ele.stack)
    (hElo : 0 ≤ E.floor) (hEhi : E.floor ≤ 4)
    (hEd3 : E.d3 = false)
    (hEst5 : E.step = stepCloseDoors → False)
    (a : Act) (hamov : isMovingAct a = true)
    (hup1 : a = Act.goUpAFloor → E.state = stateGoingUp ∧ E.floor ≤ 3 ∧
      (callAbove E ∨ E.floor ≤ 1))
    (hup2 : a = Act.goUpAFloor2 → E.state = stateGoingUp ∧
      (callAtOrAbove E ∨ E.floor ≤ 2))
    (hdn1 : a = Act.goDownAFloor → E.state = stateGoingDown ∧ 1 ≤ E.floor ∧
      (callBelow E ∨ 3 ≤ E.floor))
    (hdn2 : a = Act.goDownAFloor2 → E.state = stateGoingDown ∧
      (callAtOrBelow E ∨ 2 ≤ E.floor))
    (harr : a = Act.changeOfState → E.state ≠ stateNeutral) :
    Inv0 (scheduleElevatorImmediately
      { s with wait := rest, time := en.nextTime, ele := E }
      Handle.elev1 a) := by
  obtain ⟨hmem0, hsub, htNN, hNP, hsor, hnd⟩ := pop_facts s h en rest hw
  have hen1 : isElev1Act en.act = true := barred_isElev1 en.act henb
  have hnoE1 : ∀ e ∈ rest, isElev1Act e.act = false :=
    uniq_elev1_after_pop s h en rest hw hen1
  have hnoE5 : ¬ ∃ e ∈ rest, e.act = Act.closeDoors := by
    rintro ⟨e, he, hx⟩
    have := (h.e5inv ⟨e, hsub e he, hx⟩).1 en hmem0
    rw [henb] at this
    cases this
  have haUser : actUser a = none := by
    cases a <;> simp_all [isMovingAct, actUser]
  obtain ⟨hbNP, hbsor, hbfr, hbnd⟩ :=
    schedImm_bulk { s with wait := rest, time := en.nextTime, ele := E }
      Handle.elev1 a hNP hsor
      (fun e he => h.idsFresh e (hsub e he)) hnd
  have hmemi := mem_scheduleElevatorImmediately_iff
    { s with wait := rest, time := en.nextTime, ele := E } Handle.elev1 a
  have hpost : scheduleElevatorImmediately
      { s with wait := rest, time := en.nextTime, ele := E }
      Handle.elev1 a =
      { s with
        wait := (scheduleElevatorImmediately
          { s with wait := rest, time := en.nextTime, ele := E }
          Handle.elev1 a).wait
        time := en.nextTime
        nextId := s.nextId + 1
        ele := { E with elev1 := some s.nextId } } := by
    cases hh : E.elev1 <;>
      simp [scheduleElevatorImmediately, cancelId, immedWaitH, immed, hh]
  rw [hpost]
  have hmemNew : (⟨s.nextId, en.nextTime, a⟩ : WaitEntry) ∈
      (scheduleElevatorImmediately
        { s with wait := rest, time := en.nextTime, ele := E }
        Handle.elev1 a).wait :=
    (hmemi _).mpr (Or.inl rfl)
  refine {
    floorLo := hElo
    floorHi := hEhi
    timeNN := htNN
    notPast := hbNP
    sorted := hbsor
    idsFresh := hbfr
    idsNodup := hbnd
    hFresh1 := ?_
    hFresh2 := ?_
    hFresh3 := ?_
    gFresh := fun uid i hi => Nat.lt_succ_of_lt (h.gFresh uid i hi)
    coh1 := ?_
    coh2 := ?_
    coh3 := ?_
    up1 := ?_
    up2 := ?_
    dn1 := ?_
    dn2 := ?_
    arr := ?_
    open9 := fun hg => absurd
      (show isMovingAct a = false from hg _ hmemNew) (by simp [hamov])
    e5inv := ?_
    w0 := fun _ => hEd3
    st1 := fun _ => hEd3
    st5 := fun h5 => (hEst5 h5).elim
    dd3 := fun hx3 => absurd (hEd3.symm.trans hx3) (by decide)
    p6 := fun _ => hEd3
    getin := ?_
    actv := ?_
    qv := ?_
    sv := ?_ }
  · intro i hi
    injection hi with hi2
    show i < s.nextId + 1
    omega
  · intro i hi
    have hi2 : E.elev2 = some i := hi
    rw [hE2] at hi2
    exact Nat.lt_succ_of_lt (h.hFresh2 i hi2)
  · intro i hi
    have hi2 : E.elev3 = some i := hi
    rw [hE3] at hi2
    exact Nat.lt_succ_of_lt (h.hFresh3 i hi2)
  · intro e he hx
    rcases (hmemi e).mp he with rfl | ⟨he2, -⟩
    · exact rfl
    · exact absurd hx (by rw [hnoE1 e he2]; decide)
  · intro e he hx
    rcases (hmemi e).mp he with rfl | ⟨he2, -⟩
    · have hxa : a = Act.closeDoors := hx
      rw [hxa] at hamov
      exact absurd hamov (by decide)
    · show E.elev2 = some e.id
      rw [hE2]
      exact h.coh2 e (hsub e he2) hx
  · intro e he hx
    rcases (hmemi e).mp he with rfl | ⟨he2, -⟩
    · have hxa : a = Act.setInactionIndicator := hx
      rw [hxa] at hamov
      exact absurd hamov (by decide)
    · show E.elev3 = some e.id
      rw [hE3]
      exact h.coh3 e (hsub e he2) hx
  · intro e he hx
    rcases (hmemi e).mp he with rfl | ⟨he2, -⟩
    · exact hup1 hx
    · exact absurd (hx ▸ hnoE1 e he2) (by decide)
  · intro e he hx
    rcases (hmemi e).mp he with rfl | ⟨he2, -⟩
    · exact hup2 hx
    · exact absurd (hx ▸ hnoE1 e he2) (by decide)
  · intro e he hx
    rcases (hmemi e).mp he with rfl | ⟨he2, -⟩
    · exact hdn1 hx
    · exact absurd (hx ▸ hnoE1 e he2) (by decide)
  · intro e he hx
    rcases (hmemi e).mp he with rfl | ⟨he2, -⟩
    · exact hdn2 hx
    · exact absurd (hx ▸ hnoE1 e he2) (by decide)
  · intro e he hx
    rcases (hmemi e).mp he with rfl | ⟨he2, -⟩
    · exact harr hx
    · exact absurd (hx ▸ hnoE1 e he2) (by decide)
  · rintro ⟨e, he, hx⟩
    rcases (hmemi e).mp he with rfl | ⟨he2, -⟩
    · have hxa : a = Act.closeDoors := hx
      rw [hxa] at hamov
      exact absurd hamov (by decide)
    · exact absurd ⟨e, he2, hx⟩ hnoE5
  · intro e he u hx
    rcases (hmemi e).mp he with rfl | ⟨he2, -⟩
    · have hxa : a = Act.getIn u := hx
      rw [hxa] at hamov
      exact absurd hamov (by simp [isMovingAct])
    · exact absurd hx (no_getIn_after_pop s h en rest hw e he2 u)
  · intro e he u hx
    rcases (hmemi e).mp he with rfl | ⟨he2, -⟩
    · have hxa : actUser a = some u := hx
      rw [haUser] at hxa
      cases hxa
    · exact h.actv e (hsub e he2) u hx
  · intro f u hu
    have hu2 : u ∈ E.queue f := hu
    rw [hEq] at hu2
    exact h.qv f u hu2
  · intro u hu
    have hu2 : u ∈ E.stack := hu
    rw [hEs] at hu2
    exact h.sv u hu2

theorem inv_case_setInactionIndicator (s : Simulator) (h : Inv0 s)
    (en : WaitEntry) (rest : List WaitEntry) (hw : s.wait = en :: rest)
    (ha : en.act = Act.setInactionIndicator) :
    Inv0 (executeSetInactionIndicator
      { s with wait := rest, time := en.nextTime }) := by
  have h1 := inv_pop_flags s h en rest hw (by rw [ha]; rfl)
    s.ele.step s.ele.d1 false s.ele.d3
    h.st1
    (fun hx e he => h.st5 hx e (hw ▸ List.mem_cons_of_mem en he))
    (fun hx e he => h.dd3 hx e (hw ▸ List.mem_cons_of_mem en he))
    (fun hex => (h.e5inv ⟨hex.choose, hw ▸
      List.mem_cons_of_mem en hex.choose_spec.1, hex.choose_spec.2⟩).2)
    (fun hex => h.w0 ⟨hex.choose, hw ▸
      List.mem_cons_of_mem en hex.choose_spec.1, hex.choose_spec.2⟩)
    (fun hex => h.p6 ⟨hex.choose, hw ▸
      List.mem_cons_of_mem en hex.choose_spec.1, hex.choose_spec.2⟩)
  exact inv_decision _ h1
    (fun e he u => no_getIn_after_pop s h en rest hw e he u)

theorem inv_case_goUpAFloor (s : Simulator) (h : Inv0 s) (en : WaitEntry)
    (rest : List WaitEntry) (hw : s.wait = en :: rest)
    (ha : en.act = Act.goUpAFloor) :
    Inv0 (executeGoUpAFloor { s with wait := rest, time := en.nextTime }) := by
  have hmem0 : en ∈ s.wait := hw ▸ List.mem_cons_self en rest
  have hob := h.up1 en hmem0 ha
  have hd3 : s.ele.d3 = false := by
    cases hd : s.ele.d3
    · rfl
    · exact absurd (h.dd3 hd en hmem0) (by rw [ha]; decide)
  exact inv_pop_sched_mov s h en rest hw (by rw [ha]; rfl)
    { s.ele with step := stepGoUpAFloor, floor := s.ele.floor + 1 }
    rfl rfl rfl rfl rfl
    (by show (0 : Int) ≤ s.ele.floor + 1
        have := h.floorLo
        omega)
    (by show s.ele.floor + 1 ≤ 4
        have := hob.2.1
        omega)
    hd3
    (fun h5 => absurd (show stepGoUpAFloor = stepCloseDoors from h5) (by decide))
    Act.goUpAFloor2 rfl
    (fun hx => Act.noConfusion hx)
    (fun _ => ⟨hob.1, by
      rcases hob.2.2 with ⟨j, hj1, hj2, hj3⟩ | hle
      · exact Or.inl ⟨j, show s.ele.floor + 1 ≤ j by omega, hj2, hj3⟩
      · exact Or.inr (show s.ele.floor + 1 ≤ 2 by omega)⟩)
    (fun hx => Act.noConfusion hx)
    (fun hx => Act.noConfusion hx)
    (fun hx => Act.noConfusion hx)
    51 (by omega)

theorem inv_case_goDownAFloor (s : Simulator) (h : Inv0 s) (en : WaitEntry)
    (rest : List WaitEntry) (hw : s.wait = en :: rest)
    (ha : en.act = Act.goDownAFloor) :
    Inv0 (executeGoDownAFloor { s with wait := rest, time := en.nextTime }) := by
  have hmem0 : en ∈ s.wait := hw ▸ List.mem_cons_self en rest
  have hob := h.dn1 en hmem0 ha
  have hd3 : s.ele.d3 = false := by
    cases hd : s.ele.d3
    · rfl
    · exact absurd (h.dd3 hd en hmem0) (by rw [ha]; decide)
  exact inv_pop_sched_mov s h en rest hw (by rw [ha]; rfl)
    { s.ele with step := stepGoDownAFloor, floor := s.ele.floor - 1 }
    rfl rfl rfl rfl rfl
    (by show (0 : Int) ≤ s.ele.floor - 1
        have := hob.2.1
        omega)
    (by show s.ele.floor - 1 ≤ 4
        have := h.floorHi
        omega)
    hd3
    (fun h5 => absurd (show stepGoDownAFloor = stepCloseDoors from h5) (by decide))
    Act.goDownAFloor2 rfl
    (fun hx => Act.noConfusion hx)
    (fun hx => Act.noConfusion hx)
    (fun hx => Act.noConfusion hx)
    (fun _ => ⟨hob.1, by
      rcases hob.2.2 with ⟨j, hj1, hj2, hj3⟩ | hge
      · exact Or.inl ⟨j, hj1, show j ≤ s.ele.floor - 1 by omega, hj3⟩
      · exact Or.inr (show (2 : Int) ≤ s.ele.floor - 1 by omega)⟩)
    (fun hx => Act.noConfusion hx)
    61 (by omega)

theorem inv_case_goUpAFloor2 (s : Simulator) (h : Inv0 s) (en : WaitEntry)
    (rest : List WaitEntry) (hw : s.wait = en :: rest)
    (ha : en.act = Act.goUpAFloor2) :
    Inv0 (executeGoUpAFloor2 { s with wait := rest, time := en.nextTime }) := by
  have hmem0 : en ∈ s.wait := hw ▸ List.mem_cons_self en rest
  have hob := h.up2 en hmem0 ha
  have hd3 : s.ele.d3 = false := by
    cases hd : s.ele.d3
    · rfl
    · exact absurd (h.dd3 hd en hmem0) (by rw [ha]; decide)
  have hst5 : s.ele.step = stepCloseDoors → False :=
    fun h5 => absurd (h.st5 h5 en hmem0) (by rw [ha]; decide)
  simp only [executeGoUpAFloor2]
  split_ifs with hstop
  · exact inv_pop_sched_mov s h en rest hw (by rw [ha]; rfl)
      s.ele rfl rfl rfl rfl rfl h.floorLo h.floorHi hd3 hst5
      Act.changeOfState rfl
      (fun hx => Act.noConfusion hx)
      (fun hx => Act.noConfusion hx)
      (fun hx => Act.noConfusion hx)
      (fun hx => Act.noConfusion hx)
      (fun _ => by rw [hob.1]; decide)
      14 (by omega)
  · have hcond := Bool.eq_false_iff.mpr hstop
    rw [Bool.or_eq_false_iff] at hcond
    obtain ⟨h12, h3⟩ := hcond
    rw [Bool.or_eq_false_iff] at h12
    obtain ⟨hcc, hcu⟩ := h12
    rw [Bool.and_eq_false_iff] at h3
    have habove : isAllCallsAboveFalse s.ele = false → callAbove s.ele :=
      fun hx => (isAllCallsAboveFalse_false_iff s.ele).mp hx
    have hup : callAbove s.ele ∨ s.ele.floor ≤ 1 := by
      rcases hob.2 with ⟨j, hj1, hj2, hj3⟩ | hle2
      · rcases lt_or_eq_of_le hj1 with hlt | heqj
        · exact Or.inl ⟨j, hlt, hj2, hj3⟩
        · have h33 : anyCallAt s.ele s.ele.floor = true := heqj ▸ hj3
          have hcd : s.ele.callDown s.ele.floor = true := by
            simpa [anyCallAt, hcc, hcu] using h33
          have h4 : (s.ele.floor == 2 || s.ele.callDown s.ele.floor) = true := by
            simp [hcd]
          rcases h3 with h3a | h3b
          · rw [h4] at h3a
            cases h3a
          · exact Or.inl (habove h3b)
      · rcases eq_or_lt_of_le hle2 with heq2 | hlt2
        · have h4 : (s.ele.floor == 2 || s.ele.callDown s.ele.floor) = true := by
            simp [heq2]
          rcases h3 with h3a | h3b
          · rw [h4] at h3a
            cases h3a
          · exact Or.inl (habove h3b)
        · exact Or.inr (by omega)
    have hfl3 : s.ele.floor ≤ 3 := by
      rcases hup with ⟨j, hj1, hj2, hj3⟩ | hle1
      · have h5f : floors = 5 := rfl
        rw [h5f] at hj2
        omega
      · omega
    exact inv_pop_schedImm_mov s h en rest hw (by rw [ha]; rfl)
      s.ele rfl rfl rfl rfl rfl h.floorLo h.floorHi hd3 hst5
      Act.goUpAFloor rfl
      (fun _ => ⟨hob.1, hfl3, hup⟩)
      (fun hx => Act.noConfusion hx)
      (fun hx => Act.noConfusion hx)
      (fun hx => Act.noConfusion hx)
      (fun hx => Act.noConfusion hx)

theorem inv_case_goDownAFloor2 (s : Simulator) (h : Inv0 s) (en : WaitEntry)
    (rest : List WaitEntry) (hw : s.wait = en :: rest)
    (ha : en.act = Act.goDownAFloor2) :
    Inv0 (executeGoDownAFloor2 { s with wait := rest, time := en.nextTime }) := by
  have hmem0 : en ∈ s.wait := hw ▸ List.mem_cons_self en rest
  have hob := h.dn2 en hmem0 ha
  have hd3 : s.ele.d3 = false := by
    cases hd : s.ele.d3
    · rfl
    · exact absurd (h.dd3 hd en hmem0) (by rw [ha]; decide)
  have hst5 : s.ele.step = stepCloseDoors → False :=
    fun h5 => absurd (h.st5 h5 en hmem0) (by rw [ha]; decide)
  simp only [executeGoDownAFloor2]
  split_ifs with hstop
  · exact inv_pop_sched_mov s h en rest hw (by rw [ha]; rfl)
      s.ele rfl rfl rfl rfl rfl h.floorLo h.floorHi hd3 hst5
      Act.changeOfState rfl
      (fun hx => Act.noConfusion hx)
      (fun hx => Act.noConfusion hx)
      (fun hx => Act.noConfusion hx)
      (fun hx => Act.noConfusion hx)
      (fun _ => by rw [hob.1]; decide)
      23 (by omega)
  · have hcond := Bool.eq_false_iff.mpr hstop
    rw [Bool.or_eq_false_iff] at hcond
    obtain ⟨h12, h3⟩ := hcond
    rw [Bool.or_eq_false_iff] at h12
    obtain ⟨hcc, hcd⟩ := h12
    rw [Bool.and_eq_false_iff] at h3
    have hbelow : isAllCallsBelowFalse s.ele = false → callBelow s.ele :=
      fun hx => (isAllCallsBelowFalse_false_iff s.ele).mp hx
    have hdn : callBelow s.ele ∨ 3 ≤ s.ele.floor := by
      rcases hob.2 with ⟨j, hj0, hj1, hj3⟩ | hge2
      · rcases lt_or_eq_of_le hj1 with hlt | heqj
        · exact Or.inl ⟨j, hj0, hlt, hj3⟩
        · have h33 : anyCallAt s.ele s.ele.floor = true := heqj ▸ hj3
          have hcuT : s.ele.callUp s.ele.floor = true := by
            simpa [anyCallAt, hcc, hcd] using h33
          have h4 : (s.ele.floor == 2 || s.ele.callUp s.ele.floor) = true := by
            simp [hcuT]
          rcases h3 with h3a | h3b
          · rw [h4] at h3a
            cases h3a
          · exact Or.inl (hbelow h3b)
      · rcases eq_or_lt_of_le hge2 with heq2 | hlt2
        · have h4 : (s.ele.floor == 2 || s.ele.callUp s.ele.floor) = true := by
            simp [heq2.symm]
          rcases h3 with h3a | h3b
          · rw [h4] at h3a
            cases h3a
          · exact Or.inl (hbelow h3b)
        · exact Or.inr (by omega)
    have hfl1 : 1 ≤ s.ele.floor := by
      rcases hdn with ⟨j, hj0, hj1, hj3⟩ | hge3
      · omega
      · omega
    exact inv_pop_schedImm_mov s h en rest hw (by rw [ha]; rfl)
      s.ele rfl rfl rfl rfl rfl h.floorLo h.floorHi hd3 hst5
      Act.goDownAFloor rfl
      (fun hx => Act.noConfusion hx)
      (fun hx => Act.noConfusion hx)
      (fun _ => ⟨hob.1, hfl1, hdn⟩)
      (fun hx => Act.noConfusion hx)
      (fun hx => Act.noConfusion hx)

/-- The immediate variant of `inv_sched_elev1`. -/
theorem inv_schedImm_elev1 (s : Simulator) (h : Inv0 s)
    (hnomov : noMovingPending s)
    (hng : ∀ en ∈ s.wait, ∀ u, en.act ≠ Act.getIn u)
    (a : Act) (ha1 : isElev1Act a = true) (hamov : isMovingAct a = false)
    (haBar : isBarredWithE5 a = true → ¬ ∃ en ∈ s.wait, en.act = Act.closeDoors)
    (haP6 : a = Act.prepareToMove → s.ele.d3 = false)
    (haW0 : a = Act.waitForCall → s.ele.d3 = false)
    (haGI : ∀ u, a ≠ Act.getIn u)
    (haUser : actUser a = none) :
    Inv0 (scheduleElevatorImmediately s Handle.elev1 a) := by
  obtain ⟨hNP, hsor, hfr, hnd⟩ :=
    schedImm_bulk s Handle.elev1 a h.notPast h.sorted h.idsFresh h.idsNodup
  have hmemi := mem_scheduleElevatorImmediately_iff s Handle.elev1 a
  have hpost : scheduleElevatorImmediately s Handle.elev1 a =
      { s with
        wait := (scheduleElevatorImmediately s Handle.elev1 a).wait
        nextId := s.nextId + 1
        ele := { s.ele with elev1 := some s.nextId } } := by
    cases hh : s.ele.elev1 <;>
      simp [scheduleElevatorImmediately, cancelId, immedWaitH, immed, hh]
  rw [hpost]
  refine {
    floorLo := h.floorLo
    floorHi := h.floorHi
    timeNN := h.timeNN
    notPast := hNP
    sorted := hsor
    idsFresh := hfr
    idsNodup := hnd
    hFresh1 := ?_
    hFresh2 := fun i hi => Nat.lt_succ_of_lt (h.hFresh2 i hi)
    hFresh3 := fun i hi => Nat.lt_succ_of_lt (h.hFresh3 i hi)
    gFresh := fun uid i hi => Nat.lt_succ_of_lt (h.gFresh uid i hi)
    coh1 := ?_
    coh2 := ?_
    coh3 := ?_
    up1 := ?_
    up2 := ?_
    dn1 := ?_
    dn2 := ?_
    arr := ?_
    open9 := fun _ => h.open9 hnomov
    e5inv := ?_
    w0 := ?_
    st1 := h.st1
    st5 := ?_
    dd3 := ?_
    p6 := ?_
    getin := ?_
    actv := ?_
    qv := h.qv
    sv := h.sv }
  · intro i hi
    injection hi with hi2
    show i < s.nextId + 1
    omega
  · intro e he hx
    rcases (hmemi e).mp he with rfl | ⟨he2, hni⟩
    · exact rfl
    · exact absurd rfl (hni e.id (h.coh1 e he2 hx))
  · intro e he hx
    rcases (hmemi e).mp he with rfl | ⟨he2, -⟩
    · have hxa : a = Act.closeDoors := hx
      rw [hxa] at ha1
      exact absurd ha1 (by decide)
    · exact h.coh2 e he2 hx
  · intro e he hx
    rcases (hmemi e).mp he with rfl | ⟨he2, -⟩
    · have hxa : a = Act.setInactionIndicator := hx
      rw [hxa] at ha1
      exact absurd ha1 (by decide)
    · exact h.coh3 e he2 hx
  · intro e he hx
    rcases (hmemi e).mp he with rfl | ⟨he2, -⟩
    · have hxa : a = Act.goUpAFloor := hx
      rw [hxa] at hamov
      exact absurd hamov (by decide)
    · exact absurd (hx ▸ hnomov e he2) (by decide)
  · intro e he hx
    rcases (hmemi e).mp he with rfl | ⟨he2, -⟩
    · have hxa : a = Act.goUpAFloor2 := hx
      rw [hxa] at hamov
      exact absurd hamov (by decide)
    · exact absurd (hx ▸ hnomov e he2) (by decide)
  · intro e he hx
    rcases (hmemi e).mp he with rfl | ⟨he2, -⟩
    · have hxa : a = Act.goDownAFloor := hx
      rw [hxa] at hamov
      exact absurd hamov (by decide)
    · exact absurd (hx ▸ hnomov e he2) (by decide)
  · intro e he hx
    rcases (hmemi e).mp he with rfl | ⟨he2, -⟩
    · have hxa : a = Act.goDownAFloor2 := hx
      rw [hxa] at hamov
      exact absurd hamov (by decide)
    · exact absurd (hx ▸ hnomov e he2) (by decide)
  · intro e he hx
    rcases (hmemi e).mp he with rfl | ⟨he2, -⟩
    · have hxa : a = Act.changeOfState := hx
      rw [hxa] at hamov
      exact absurd hamov (by decide)
    · exact absurd (hx ▸ hnomov e he2) (by decide)
  · rintro ⟨e, he, hx⟩
    rcases (hmemi e).mp he with rfl | ⟨he2, -⟩
    · have hxa : a = Act.closeDoors := hx
      rw [hxa] at ha1
      exact absurd ha1 (by decide)
    · have pre := h.e5inv ⟨e, he2, hx⟩
      refine ⟨?_, pre.2⟩
      intro e2 he2x
      rcases (hmemi e2).mp he2x with rfl | ⟨he3, -⟩
      · cases hb : isBarredWithE5 a
        · rfl
        · exact absurd ⟨e, he2, hx⟩ (haBar hb)
      · exact pre.1 e2 he3
  · rintro ⟨e, he, hx⟩
    rcases (hmemi e).mp he with rfl | ⟨he2, -⟩
    · exact haW0 hx
    · exact h.w0 ⟨e, he2, hx⟩
  · intro h5 e he
    rcases (hmemi e).mp he with rfl | ⟨he2, -⟩
    · exact hamov
    · exact hnomov e he2
  · intro h5 e he
    rcases (hmemi e).mp he with rfl | ⟨he2, -⟩
    · exact hamov
    · exact hnomov e he2
  · rintro ⟨e, he, hx⟩
    rcases (hmemi e).mp he with rfl | ⟨he2, -⟩
    · exact haP6 hx
    · exact h.p6 ⟨e, he2, hx⟩
  · intro e he u hx
    rcases (hmemi e).mp he with rfl | ⟨he2, -⟩
    · exact absurd hx (haGI u)
    · exact absurd hx (hng e he2 u)
  · intro e he u hx
    rcases (hmemi e).mp he with rfl | ⟨he2, -⟩
    · have hxa : actUser a = some u := hx
      rw [haUser] at hxa
      cases hxa
    · exact h.actv e he2 u hx

/-- After popping a barred primary-handle entry, any rewrite of the
elevator record that keeps the handles, queues and stack, keeps the floor
in range, turns D3 off and carries the stopped-state call witness
preserves the invariant (no movement action remains pending). -/
theorem inv_pop_ele_nomov (s : Simulator) (h : Inv0 s) (en : WaitEntry)
    (rest : List WaitEntry) (hw : s.wait = en :: rest)
    (henb : isBarredWithE5 en.act = true)
    (E : Elevator)
    (hE1 : E.elev1 = s.ele.elev1) (hE2 : E.elev2 = s.ele.elev2)
    (hE3 : E.elev3 = s.ele.elev3)
    (hEq : E.queue = s.ele.queue) (hEs : E.stack = s.ele.stack)
    (hElo : 0 ≤ E.floor) (hEhi : E.floor ≤ 4)
    (hEd3 : E.d3 = false)
    (hO9U : E.state = stateGoingUp → callAbove E ∨ E.floor ≤ 1)
    (hO9D : E.state = stateGoingDown → callBelow E ∨ 3 ≤ E.floor) :
    Inv0 { s with wait := rest, time := en.nextTime, ele := E } := by
  obtain ⟨hmem0, hsub, htNN, hNP, hsor, hnd⟩ := pop_facts s h en rest hw
  have hen1 : isElev1Act en.act = true := barred_isElev1 en.act henb
  have hnoE1 : ∀ e ∈ rest, isElev1Act e.act = false :=
    uniq_elev1_after_pop s h en rest hw hen1
  have hnoE5 : ¬ ∃ e ∈ rest, e.act = Act.closeDoors := by
    rintro ⟨e, he, hx⟩
    have := (h.e5inv ⟨e, hsub e he, hx⟩).1 en hmem0
    rw [henb] at this
    cases this
  refine {
    floorLo := hElo
    floorHi := hEhi
    timeNN := htNN
    notPast := hNP
    sorted := hsor
    idsFresh := fun e he => h.idsFresh e (hsub e he)
    idsNodup := hnd
    hFresh1 := ?_
    hFresh2 := ?_
    hFresh3 := ?_
    gFresh := h.gFresh
    coh1 := ?_
    coh2 := ?_
    coh3 := ?_
    up1 := ?_
    up2 := ?_
    dn1 := ?_
    dn2 := ?_
    arr := ?_
    open9 := fun _ => ⟨hO9U, hO9D⟩
    e5inv := fun hex => absurd hex hnoE5
    w0 := fun _ => hEd3
    st1 := fun _ => hEd3
    st5 := fun _ e he => ?_
    dd3 := fun _ e he => ?_
    p6 := fun _ => hEd3
    getin := fun e he u hx =>
      absurd hx (no_getIn_after_pop s h en rest hw e he u)
    actv := fun e he u hx => h.actv e (hsub e he) u hx
    qv := ?_
    sv := ?_ }
  · intro i hi
    have hi2 : E.elev1 = some i := hi
    rw [hE1] at hi2
    exact h.hFresh1 i hi2
  · intro i hi
    have hi2 : E.elev2 = some i := hi
    rw [hE2] at hi2
    exact h.hFresh2 i hi2
  · intro i hi
    have hi2 : E.elev3 = some i := hi
    rw [hE3] at hi2
    exact h.hFresh3 i hi2
  · intro e he hx
    exact absurd hx (by rw [hnoE1 e he]; decide)
  · intro e he hx
    show E.elev2 = some e.id
    rw [hE2]
    exact h.coh2 e (hsub e he) hx
  · intro e he hx
    show E.elev3 = some e.id
    rw [hE3]
    exact h.coh3 e (hsub e he) hx
  · intro e he hx
    exact absurd (hx ▸ hnoE1 e he) (by decide)
  · intro e he hx
    exact absurd (hx ▸ hnoE1 e he) (by decide)
  · intro e he hx
    exact absurd (hx ▸ hnoE1 e he) (by decide)
  · intro e he hx
    exact absurd (hx ▸ hnoE1 e he) (by decide)
  · intro e he hx
    exact absurd (hx ▸ hnoE1 e he) (by decide)
  · cases hmv : isMovingAct e.act
    · rfl
    · exact absurd (moving_isElev1 e.act hmv) (by rw [hnoE1 e he]; decide)
  · cases hmv : isMovingAct e.act
    · rfl
    · exact absurd (moving_isElev1 e.act hmv) (by rw [hnoE1 e he]; decide)
  · intro f u hu
    have hu2 : u ∈ E.queue f := hu
    rw [hEq] at hu2
    exact h.qv f u hu2
  · intro u hu
    have hu2 : u ∈ E.stack := hu
    rw [hEs] at hu2
    exact h.sv u hu2

theorem anyCallAt_clearFloorCalls (X : Elevator) (j : Int)
    (hne : j ≠ X.floor) :
    anyCallAt (clearFloorCalls X) j = anyCallAt X j := by
  simp [clearFloorCalls, anyCallAt, upd, hne]

theorem inv_case_changeOfState (s : Simulator) (h : Inv0 s) (en : WaitEntry)
    (rest : List WaitEntry) (hw : s.wait = en :: rest)
    (ha : en.act = Act.changeOfState) :
    Inv0 (executeChangeOfState { s with wait := rest, time := en.nextTime }) := by
  have hmem0 : en ∈ s.wait := hw ▸ List.mem_cons_self en rest
  have hd3 : s.ele.d3 = false := by
    cases hd : s.ele.d3
    · rfl
    · exact absurd (h.dd3 hd en hmem0) (by rw [ha]; decide)
  have hnoE1 : ∀ e ∈ rest, isElev1Act e.act = false :=
    uniq_elev1_after_pop s h en rest hw (by rw [ha]; rfl)
  have h1 : Inv0 { s with
      wait := rest
      time := en.nextTime
      ele := changeOfStateEle s.ele } := by
    by_cases hb1 : s.ele.state = stateGoingUp ∧ isAllCallsAboveFalse s.ele = true
    · have hEq1 : changeOfStateEle s.ele =
          clearFloorCalls { s.ele with
            step := stepChangeOfState
            state := if isAllCallsBelowFalse s.ele then stateNeutral
              else stateGoingDown } := by
        unfold changeOfStateEle
        rw [if_pos hb1]
      rw [hEq1]
      by_cases hbb : isAllCallsBelowFalse s.ele = true
      · rw [if_pos hbb]
        exact inv_pop_ele_nomov s h en rest hw (by rw [ha]; rfl) _
          rfl rfl rfl rfl rfl h.floorLo h.floorHi hd3
          (fun h7 => absurd (show stateNeutral = stateGoingUp from h7) (by decide))
          (fun h8 => absurd (show stateNeutral = stateGoingDown from h8) (by decide))
      · rw [if_neg hbb]
        refine inv_pop_ele_nomov s h en rest hw (by rw [ha]; rfl) _
          rfl rfl rfl rfl rfl h.floorLo h.floorHi hd3
          (fun h7 => absurd (show stateGoingDown = stateGoingUp from h7) (by decide))
          (fun _ => ?_)
        obtain ⟨j, hj0, hjlt, hcall⟩ :=
          (isAllCallsBelowFalse_false_iff s.ele).mp (Bool.eq_false_iff.mpr hbb)
        refine Or.inl ⟨j, hj0, hjlt, ?_⟩
        rw [anyCallAt_clearFloorCalls]
        · exact hcall
        · show j ≠ s.ele.floor
          omega
    · by_cases hb2 : s.ele.state = stateGoingDown ∧
          isAllCallsBelowFalse s.ele = true
      · have hEq2 : changeOfStateEle s.ele =
            clearFloorCalls { s.ele with
              step := stepChangeOfState
              state := if isAllCallsAboveFalse s.ele then stateNeutral
                else stateGoingUp } := by
          unfold changeOfStateEle
          rw [if_neg hb1, if_pos hb2]
        rw [hEq2]
        by_cases hba : isAllCallsAboveFalse s.ele = true
        · rw [if_pos hba]
          exact inv_pop_ele_nomov s h en rest hw (by rw [ha]; rfl) _
            rfl rfl rfl rfl rfl h.floorLo h.floorHi hd3
            (fun h7 => absurd (show stateNeutral = stateGoingUp from h7) (by decide))
            (fun h8 => absurd (show stateNeutral = stateGoingDown from h8) (by decide))
        · rw [if_neg hba]
          refine inv_pop_ele_nomov s h en rest hw (by rw [ha]; rfl) _
            rfl rfl rfl rfl rfl h.floorLo h.floorHi hd3
            (fun _ => ?_)
            (fun h8 => absurd (show stateGoingUp = stateGoingDown from h8) (by decide))
          obtain ⟨j, hjgt, hjf, hcall⟩ :=
            (isAllCallsAboveFalse_false_iff s.ele).mp (Bool.eq_false_iff.mpr hba)
          refine Or.inl ⟨j, hjgt, hjf, ?_⟩
          rw [anyCallAt_clearFloorCalls]
          · exact hcall
          · show j ≠ s.ele.floor
            omega
      · have hEq3 : changeOfStateEle s.ele =
            { s.ele with step := stepChangeOfState } := by
          unfold changeOfStateEle
          rw [if_neg hb1, if_neg hb2]
        rw [hEq3]
        refine inv_pop_ele_nomov s h en rest hw (by rw [ha]; rfl) _
          rfl rfl rfl rfl rfl h.floorLo h.floorHi hd3
          (fun h7 => ?_) (fun h8 => ?_)
        · have hna : ¬ isAllCallsAboveFalse s.ele = true :=
            fun hx => hb1 ⟨h7, hx⟩
          exact Or.inl ((isAllCallsAboveFalse_false_iff s.ele).mp
            (Bool.eq_false_iff.mpr hna))
        · have hnb : ¬ isAllCallsBelowFalse s.ele = true :=
            fun hx => hb2 ⟨h8, hx⟩
          exact Or.inl ((isAllCallsBelowFalse_false_iff s.ele).mp
            (Bool.eq_false_iff.mpr hnb))
  rw [show executeChangeOfState { s with wait := rest, time := en.nextTime } =
      scheduleElevatorImmediately
        { s with
          wait := rest
          time := en.nextTime
          ele := changeOfStateEle s.ele }
        Handle.elev1 Act.openDoors from rfl]
  exact inv_schedImm_elev1 _ h1
    (fun e he => by
      cases hmv : isMovingAct e.act
      · rfl
      · exact absurd (moving_isElev1 e.act hmv) (by rw [hnoE1 e he]; decide))
    (fun e he u => no_getIn_after_pop s h en rest hw e he u)
    Act.openDoors rfl rfl
    (fun hb => absurd hb (by decide))
    (fun hx => Act.noConfusion hx)
    (fun hx => Act.noConfusion hx)
    (fun u hx => Act.noConfusion hx)
    rfl

/-- Queueing a user-step action at the front of the WAIT list at the
current instant preserves the invariant. -/
theorem inv_immed_user_act (s : Simulator) (h : Inv0 s)
    (hng : ∀ en ∈ s.wait, ∀ u2, en.act ≠ Act.getIn u2)
    (a : Act) (hmov : isMovingAct a = false)
    (h1a : isElev1Act a = false) (hbar : isBarredWithE5 a = false)
    (hgi : ∀ u2, a ≠ Act.getIn u2)
    (hW : a ≠ Act.waitForCall) (hP : a ≠ Act.prepareToMove)
    (hCD : a ≠ Act.closeDoors) (hSI : a ≠ Act.setInactionIndicator)
    (hus : ∀ u2, actUser a = some u2 → validUser u2) :
    Inv0 (immedWait s a) := by
  obtain ⟨hNP, hsor, hfr, hnd⟩ :=
    immed_bulk s a h.notPast h.sorted h.idsFresh h.idsNodup
  have hmemi : ∀ e, e ∈ (immedWait s a).wait ↔
      e = ⟨s.nextId, s.time, a⟩ ∨ e ∈ s.wait := by
    intro e
    rw [immedWait_wait]
    exact List.mem_cons
  refine {
    floorLo := h.floorLo
    floorHi := h.floorHi
    timeNN := h.timeNN
    notPast := hNP
    sorted := hsor
    idsFresh := hfr
    idsNodup := hnd
    hFresh1 := fun i hi => Nat.lt_succ_of_lt (h.hFresh1 i hi)
    hFresh2 := fun i hi => Nat.lt_succ_of_lt (h.hFresh2 i hi)
    hFresh3 := fun i hi => Nat.lt_succ_of_lt (h.hFresh3 i hi)
    gFresh := fun uid i hi => Nat.lt_succ_of_lt (h.gFresh uid i hi)
    coh1 := ?_
    coh2 := ?_
    coh3 := ?_
    up1 := ?_
    up2 := ?_
    dn1 := ?_
    dn2 := ?_
    arr := ?_
    open9 := ?_
    e5inv := ?_
    w0 := ?_
    st1 := h.st1
    st5 := ?_
    dd3 := ?_
    p6 := ?_
    getin := ?_
    actv := ?_
    qv := h.qv
    sv := h.sv }
  · intro e he hx
    rcases (hmemi e).mp he with rfl | he2
    · exact absurd hx (by rw [show isElev1Act a = false from h1a]; decide)
    · exact h.coh1 e he2 hx
  · intro e he hx
    rcases (hmemi e).mp he with rfl | he2
    · exact absurd hx hCD
    · exact h.coh2 e he2 hx
  · intro e he hx
    rcases (hmemi e).mp he with rfl | he2
    · exact absurd hx hSI
    · exact h.coh3 e he2 hx
  · intro e he hx
    rcases (hmemi e).mp he with rfl | he2
    · have hxa : a = Act.goUpAFloor := hx
      rw [hxa] at hmov
      exact absurd hmov (by decide)
    · exact h.up1 e he2 hx
  · intro e he hx
    rcases (hmemi e).mp he with rfl | he2
    · have hxa : a = Act.goUpAFloor2 := hx
      rw [hxa] at hmov
      exact absurd hmov (by decide)
    · exact h.up2 e he2 hx
  · intro e he hx
    rcases (hmemi e).mp he with rfl | he2
    · have hxa : a = Act.goDownAFloor := hx
      rw [hxa] at hmov
      exact absurd hmov (by decide)
    · exact h.dn1 e he2 hx
  · intro e he hx
    rcases (hmemi e).mp he with rfl | he2
    · have hxa : a = Act.goDownAFloor2 := hx
      rw [hxa] at hmov
      exact absurd hmov (by decide)
    · exact h.dn2 e he2 hx
  · intro e he hx
    rcases (hmemi e).mp he with rfl | he2
    · have hxa : a = Act.changeOfState := hx
      rw [hxa] at hmov
      exact absurd hmov (by decide)
    · exact h.arr e he2 hx
  · intro hg
    refine h.open9 (fun e he2 => hg e ((hmemi e).mpr (Or.inr he2)))
  · rintro ⟨e, he, hx⟩
    rcases (hmemi e).mp he with rfl | he2
    · exact absurd hx hCD
    · refine ⟨?_, (h.e5inv ⟨e, he2, hx⟩).2⟩
      intro e2 he2x
      rcases (hmemi e2).mp he2x with rfl | he3
      · exact hbar
      · exact (h.e5inv ⟨e, he2, hx⟩).1 e2 he3
  · rintro ⟨e, he, hx⟩
    rcases (hmemi e).mp he with rfl | he2
    · exact absurd hx hW
    · exact h.w0 ⟨e, he2, hx⟩
  · intro h5 e he
    rcases (hmemi e).mp he with rfl | he2
    · exact hmov
    · exact h.st5 h5 e he2
  · intro h5 e he
    rcases (hmemi e).mp he with rfl | he2
    · exact hmov
    · exact h.dd3 h5 e he2
  · rintro ⟨e, he, hx⟩
    rcases (hmemi e).mp he with rfl | he2
    · exact absurd hx hP
    · exact h.p6 ⟨e, he2, hx⟩
  · intro e he u2 hx
    rcases (hmemi e).mp he with rfl | he2
    · exact absurd hx (hgi u2)
    · exact absurd hx (hng e he2 u2)
  · intro e he u2 hx
    rcases (hmemi e).mp he with rfl | he2
    · exact hus u2 hx
    · exact h.actv e he2 u2 hx

/-- Asserting additional call registers without touching anything else
preserves the invariant: every call witness is monotone in the asserted
registers. -/
theorem inv_more_calls (s : Simulator) (h : Inv0 s) (E : Elevator)
    (hfl : E.floor = s.ele.floor) (hst : E.state = s.ele.state)
    (hstp : E.step = s.ele.step)
    (hd1 : E.d1 = s.ele.d1) (hd2 : E.d2 = s.ele.d2) (hd3 : E.d3 = s.ele.d3)
    (hE1 : E.elev1 = s.ele.elev1) (hE2 : E.elev2 = s.ele.elev2)
    (hE3 : E.elev3 = s.ele.elev3)
    (hQ : E.queue = s.ele.queue) (hS : E.stack = s.ele.stack)
    (hmore : ∀ j, anyCallAt s.ele j = true → anyCallAt E j = true) :
    Inv0 { s with ele := E } := by
  refine {
    floorLo := hfl ▸ h.floorLo
    floorHi := hfl ▸ h.floorHi
    timeNN := h.timeNN
    notPast := h.notPast
    sorted := h.sorted
    idsFresh := h.idsFresh
    idsNodup := h.idsNodup
    hFresh1 := fun i hi => h.hFresh1 i (by rw [← hE1]; exact hi)
    hFresh2 := fun i hi => h.hFresh2 i (by rw [← hE2]; exact hi)
    hFresh3 := fun i hi => h.hFresh3 i (by rw [← hE3]; exact hi)
    gFresh := h.gFresh
    coh1 := fun e he hx => by
      show E.elev1 = some e.id
      rw [hE1]
      exact h.coh1 e he hx
    coh2 := fun e he hx => by
      show E.elev2 = some e.id
      rw [hE2]
      exact h.coh2 e he hx
    coh3 := fun e he hx => by
      show E.elev3 = some e.id
      rw [hE3]
      exact h.coh3 e he hx
    up1 := ?_
    up2 := ?_
    dn1 := ?_
    dn2 := ?_
    arr := fun e he hx => by
      show E.state ≠ stateNeutral
      rw [hst]
      exact h.arr e he hx
    open9 := ?_
    e5inv := fun hex => ⟨(h.e5inv hex).1, by
      show E.step ≠ stepWaitForCall
      rw [hstp]
      exact (h.e5inv hex).2⟩
    w0 := fun hex => hd3.trans (h.w0 hex)
    st1 := fun hx => hd3.trans (h.st1 (hstp.symm.trans hx))
    st5 := fun hx => h.st5 (hstp.symm.trans hx)
    dd3 := fun hx => h.dd3 (hd3.symm.trans hx)
    p6 := fun hex => hd3.trans (h.p6 hex)
    getin := ?_
    actv := h.actv
    qv := fun f u hu => h.qv f u (by rw [← hQ]; exact hu)
    sv := fun u hu => h.sv u (by rw [← hS]; exact hu) }
  · intro e he hx
    obtain ⟨o1, o2, o3⟩ := h.up1 e he hx
    exact ⟨hst.trans o1, hfl ▸ o2,
      o3.imp (callAbove_mono s.ele E hfl hmore) (fun hle => hfl ▸ hle)⟩
  · intro e he hx
    obtain ⟨o1, o2⟩ := h.up2 e he hx
    exact ⟨hst.trans o1,
      o2.imp (callAtOrAbove_mono s.ele E hfl hmore) (fun hle => hfl ▸ hle)⟩
  · intro e he hx
    obtain ⟨o1, o2, o3⟩ := h.dn1 e he hx
    exact ⟨hst.trans o1, hfl ▸ o2,
      o3.imp (callBelow_mono s.ele E hfl hmore) (fun hle => hfl ▸ hle)⟩
  · intro e he hx
    obtain ⟨o1, o2⟩ := h.dn2 e he hx
    exact ⟨hst.trans o1,
      o2.imp (callAtOrBelow_mono s.ele E hfl hmore) (fun hle => hfl ▸ hle)⟩
  · intro hg
    obtain ⟨o1, o2⟩ := h.open9 hg
    refine ⟨fun h7 => ?_, fun h8 => ?_⟩
    · exact (o1 (hst.symm.trans h7)).imp
        (callAbove_mono s.ele E hfl hmore) (fun hle => hfl ▸ hle)
    · exact (o2 (hst.symm.trans h8)).imp
        (callBelow_mono s.ele E hfl hmore) (fun hle => hfl ▸ hle)
  · intro e he u hx
    obtain ⟨g1, g2, g3, g4⟩ := h.getin e he u hx
    exact ⟨g1, hfl ▸ g2, hstp.trans g3, g4⟩

/-- Step D4 inserts at most a `prepareToMove` entry. -/
theorem decisionD4_wait_sub (s : Simulator) (j : Int) :
    ∀ e ∈ (decisionD4 s j).wait,
      e ∈ s.wait ∨ e.act = Act.openDoors ∨ e.act = Act.prepareToMove := by
  intro e he
  simp only [decisionD4] at he
  split_ifs at he
  all_goals try exact Or.inl he
  all_goals rcases (mem_scheduleElevator_iff _ _ _ _ _).mp he with rfl | ⟨he2, -⟩
  all_goals try exact Or.inr (Or.inr rfl)
  all_goals exact Or.inl he2

/-- The DECISION subroutine inserts at most an `openDoors` or a
`prepareToMove` entry. -/
theorem decision_wait_sub (s : Simulator) :
    ∀ e ∈ (decision s).wait,
      e ∈ s.wait ∨ e.act = Act.openDoors ∨ e.act = Act.prepareToMove := by
  intro e he
  by_cases h9 : s.ele.state = stateNeutral
  · simp only [decision] at he
    rw [if_neg (not_not_intro h9)] at he
    by_cases hD2 : s.ele.step = stepWaitForCall ∧
        (s.ele.callUp floorHome || s.ele.callCar floorHome ||
          s.ele.callDown floorHome) = true
    · rw [if_pos hD2] at he
      rcases (mem_scheduleElevator_iff _ _ _ _ _).mp he with rfl | ⟨he2, -⟩
      · exact Or.inr (Or.inl rfl)
      · exact Or.inl he2
    · rw [if_neg hD2] at he
      rcases hdd : (intRange 0 floors).find?
          (fun j => decide (j ≠ s.ele.floor) && anyCallAt s.ele j) with _ | j
      · rw [hdd] at he
        have he2 : e ∈ (if s.ele.step = stepPrepareToMove
            then decisionD4 s 2 else s).wait := he
        split_ifs at he2 with h6
        · exact decisionD4_wait_sub s 2 e he2
        · exact Or.inl he2
      · rw [hdd] at he
        exact decisionD4_wait_sub s j e he
  · simp only [decision] at he
    rw [if_pos h9] at he
    exact Or.inl he

theorem inv_case_signalAndWait (s : Simulator) (h : Inv0 s) (en : WaitEntry)
    (rest : List WaitEntry) (hw : s.wait = en :: rest) (u : User)
    (ha : en.act = Act.signalAndWait u) :
    Inv0 (userSignalAndWait { s with wait := rest, time := en.nextTime } u) := by
  have hmem0 : en ∈ s.wait := hw ▸ List.mem_cons_self en rest
  have hval : validUser u := h.actv en hmem0 u (by rw [ha]; rfl)
  have hngr : ∀ e ∈ rest, ∀ u2, e.act ≠ Act.getIn u2 :=
    fun e he u2 => no_getIn_after_pop s h en rest hw e he u2
  have hpop : Inv0 { s with wait := rest, time := en.nextTime } :=
    inv_pop_container s h en rest hw (by rw [ha]; rfl)
      s.ele.queue s.ele.stack (fun f u2 hu2 => hu2) (fun u2 hu2 => hu2)
  have key : ∀ (t : Simulator), Inv0 t →
      (∀ e ∈ t.wait, ∀ u2, e.act ≠ Act.getIn u2) →
      Inv0 (immedWait t (Act.enterQueue u)) :=
    fun t ht hngt => inv_immed_user_act t ht hngt (Act.enterQueue u)
      rfl rfl rfl
      (fun u2 hx => Act.noConfusion hx)
      (fun hx => Act.noConfusion hx)
      (fun hx => Act.noConfusion hx)
      (fun hx => Act.noConfusion hx)
      (fun hx => Act.noConfusion hx)
      (fun u2 hx => by cases hx; exact hval)
  simp only [userSignalAndWait]
  by_cases hc1 : s.ele.floor = u.uin ∧ s.ele.step = stepCloseDoors
  · rw [if_pos hc1]
    have hnomov : noMovingPending { s with wait := rest, time := en.nextTime } :=
      fun e he => h.st5 hc1.2 e (hw ▸ List.mem_cons_of_mem en he)
    have h1 : Inv0 (scheduleElevatorImmediately
        { s with wait := rest, time := en.nextTime }
        Handle.elev1 Act.openDoors) :=
      inv_schedImm_elev1 _ hpop hnomov hngr Act.openDoors rfl rfl
        (fun hb => absurd hb (by decide))
        (fun hx => Act.noConfusion hx)
        (fun hx => Act.noConfusion hx)
        (fun u2 hx => Act.noConfusion hx)
        rfl
    refine key _ h1 ?_
    intro e he u2
    rcases (mem_scheduleElevatorImmediately_iff _ _ _ _).mp he with rfl | ⟨he2, -⟩
    · exact fun hx => Act.noConfusion hx
    · exact hngr e he2 u2
  · rw [if_neg hc1]
    by_cases hc2 : s.ele.floor = u.uin ∧ s.ele.d3 = true
    · rw [if_pos hc2]
      have hnomovr : ∀ e ∈ rest, isMovingAct e.act = false :=
        fun e he => h.dd3 hc2.2 e (hw ▸ List.mem_cons_of_mem en he)
      have hmid : Inv0 { s with
          wait := rest
          time := en.nextTime
          ele := { s.ele with d3 := false, d1 := true } } := by
        have := inv_pop_flags s h en rest hw (by rw [ha]; rfl)
          s.ele.step true s.ele.d2 false
          (fun _ => rfl)
          (fun _ e he => hnomovr e he)
          (fun hx => absurd hx (by decide))
          (fun hex => (h.e5inv ⟨hex.choose, hw ▸
            List.mem_cons_of_mem en hex.choose_spec.1, hex.choose_spec.2⟩).2)
          (fun _ => rfl)
          (fun _ => rfl)
        exact this
      have h1 : Inv0 (scheduleElevatorImmediately
          { s with
            wait := rest
            time := en.nextTime
            ele := { s.ele with d3 := false, d1 := true } }
          Handle.elev1 Act.letPeopleOutIn) :=
        inv_schedImm_elev1 _ hmid (fun e he => hnomovr e he) hngr
          Act.letPeopleOutIn rfl rfl
          (fun hb => absurd hb (by decide))
          (fun hx => Act.noConfusion hx)
          (fun hx => Act.noConfusion hx)
          (fun u2 hx => Act.noConfusion hx)
          rfl
      refine key _ h1 ?_
      intro e he u2
      rcases (mem_scheduleElevatorImmediately_iff _ _ _ _).mp he
        with rfl | ⟨he2, -⟩
      · exact fun hx => Act.noConfusion hx
      · exact hngr e he2 u2
    · rw [if_neg hc2]
      by_cases hdir : u.uout > u.uin
      · rw [if_pos hdir]
        have hcall : Inv0 { s with
            wait := rest
            time := en.nextTime
            ele := { s.ele with callUp := upd s.ele.callUp u.uin true } } := by
          refine inv_more_calls _ hpop _ rfl rfl rfl rfl rfl rfl rfl rfl rfl
            rfl rfl ?_
          intro j hj
          by_cases hju : j = u.uin
          · simp [anyCallAt, upd, hju]
          · simpa [anyCallAt, upd, hju] using hj
        by_cases hdec : ¬ ({ s with
            wait := rest
            time := en.nextTime
            ele := { s.ele with callUp := upd s.ele.callUp u.uin true }
            : Simulator }).ele.d2 = true ∨ ({ s with
            wait := rest
            time := en.nextTime
            ele := { s.ele with callUp := upd s.ele.callUp u.uin true }
            : Simulator }).ele.step = stepWaitForCall
        · rw [if_pos hdec]
          have h1 := inv_decision _ hcall (fun e he u2 => hngr e he u2)
          refine key _ h1 ?_
          intro e he u2 hx
          rcases decision_wait_sub _ e he with hin | hod | hpm
          · exact hngr e hin u2 hx
          · exact Act.noConfusion (hx ▸ hod)
          · exact Act.noConfusion (hx ▸ hpm)
        · rw [if_neg hdec]
          exact key _ hcall (fun e he u2 => hngr e he u2)
      · rw [if_neg hdir]
        have hcall : Inv0 { s with
            wait := rest
            time := en.nextTime
            ele := { s.ele with callDown := upd s.ele.callDown u.uin true } } := by
          refine inv_more_calls _ hpop _ rfl rfl rfl rfl rfl rfl rfl rfl rfl
            rfl rfl ?_
          intro j hj
          by_cases hju : j = u.uin
          · simp [anyCallAt, upd, hju]
          · simpa [anyCallAt, upd, hju] using hj
        by_cases hdec : ¬ ({ s with
            wait := rest
            time := en.nextTime
            ele := { s.ele with callDown := upd s.ele.callDown u.uin true }
            : Simulator }).ele.d2 = true ∨ ({ s with
            wait := rest
            time := en.nextTime
            ele := { s.ele with callDown := upd s.ele.callDown u.uin true }
            : Simulator }).ele.step = stepWaitForCall
        · rw [if_pos hdec]
          have h1 := inv_decision _ hcall (fun e he u2 => hngr e he u2)
          refine key _ h1 ?_
          intro e he u2 hx
          rcases decision_wait_sub _ e he with hin | hod | hpm
          · exact hngr e hin u2 hx
          · exact Act.noConfusion (hx ▸ hod)
          · exact Act.noConfusion (hx ▸ hpm)
        · rw [if_neg hdec]
          exact key _ hcall (fun e he u2 => hngr e he u2)

theorem moving_isBarred (a : Act) (h : isMovingAct a = true) :
    isBarredWithE5 a = true := by
  cases a <;> simp_all [isMovingAct, isBarredWithE5]

theorem inv_case_closeDoors (s : Simulator) (h : Inv0 s) (en : WaitEntry)
    (rest : List WaitEntry) (hw : s.wait = en :: rest)
    (ha : en.act = Act.closeDoors) :
    Inv0 (executeCloseDoors { s with wait := rest, time := en.nextTime }) := by
  obtain ⟨hmem0, hsub, htNN, hNP, hsor, hnd⟩ := pop_facts s h en rest hw
  have hpre5 := h.e5inv ⟨en, hmem0, ha⟩
  have hbarR : ∀ e ∈ rest, isBarredWithE5 e.act = false :=
    fun e he => hpre5.1 e (hsub e he)
  have hnomovR : ∀ e ∈ rest, isMovingAct e.act = false := by
    intro e he
    cases hmv : isMovingAct e.act
    · rfl
    · exact absurd (moving_isBarred e.act hmv) (by rw [hbarR e he]; decide)
  have hnoE5R : ∀ e ∈ rest, e.act ≠ Act.closeDoors :=
    uniq_e5_after_pop s h en rest hw ha
  have hnomovS : noMovingPending s := by
    intro e he
    rcases List.mem_cons.mp (hw ▸ he) with rfl | he2
    · rw [ha]; rfl
    · exact hnomovR e he2
  simp only [executeCloseDoors]
  split_ifs with hd1
  · obtain ⟨hbNP, hbsor, hbfr, hbnd⟩ :=
      sched_bulk { s with
          wait := rest
          time := en.nextTime
          ele := { s.ele with step := stepCloseDoors } }
        Handle.elev2 40 Act.closeDoors (by omega) hNP hsor
        (fun e he => h.idsFresh e (hsub e he)) hnd
    have hmemi := mem_scheduleElevator_iff
      { s with
        wait := rest
        time := en.nextTime
        ele := { s.ele with step := stepCloseDoors } }
      Handle.elev2 40 Act.closeDoors
    have hpost : scheduleElevator
        { s with
          wait := rest
          time := en.nextTime
          ele := { s.ele with step := stepCloseDoors } }
        Handle.elev2 40 Act.closeDoors =
        { s with
          wait := (scheduleElevator
            { s with
              wait := rest
              time := en.nextTime
              ele := { s.ele with step := stepCloseDoors } }
            Handle.elev2 40 Act.closeDoors).wait
          time := en.nextTime
          nextId := s.nextId + 1
          ele := { s.ele with
            step := stepCloseDoors
            elev2 := some s.nextId } } := by
      cases hh : s.ele.elev2 <;>
        simp [scheduleElevator, cancelId, insertWait, hh]
    rw [hpost]
    refine {
      floorLo := h.floorLo
      floorHi := h.floorHi
      timeNN := htNN
      notPast := hbNP
      sorted := hbsor
      idsFresh := hbfr
      idsNodup := hbnd
      hFresh1 := fun i hi => Nat.lt_succ_of_lt (h.hFresh1 i hi)
      hFresh2 := ?_
      hFresh3 := fun i hi => Nat.lt_succ_of_lt (h.hFresh3 i hi)
      gFresh := fun uid i hi => Nat.lt_succ_of_lt (h.gFresh uid i hi)
      coh1 := ?_
      coh2 := ?_
      coh3 := ?_
      up1 := ?_
      up2 := ?_
      dn1 := ?_
      dn2 := ?_
      arr := ?_
      open9 := fun _ => h.open9 hnomovS
      e5inv := ?_
      st1 := fun hq =>
        absurd (show (stepCloseDoors : Int) = stepWaitForCall from hq) (by decide)
      st5 := ?_
      dd3 := ?_
      w0 := ?_
      p6 := ?_
      getin := ?_
      actv := ?_
      qv := h.qv
      sv := h.sv }
    · intro i hi
      injection hi with hi2
      show i < s.nextId + 1
      omega
    · intro e he hx
      rcases (hmemi e).mp he with rfl | ⟨he2, -⟩
      · exact absurd (show isElev1Act Act.closeDoors = true from hx) (by decide)
      · exact h.coh1 e (hsub e he2) hx
    · intro e he hx
      rcases (hmemi e).mp he with rfl | ⟨he2, -⟩
      · exact rfl
      · exact absurd hx (hnoE5R e he2)
    · intro e he hx
      rcases (hmemi e).mp he with rfl | ⟨he2, -⟩
      · exact Act.noConfusion
          (show Act.closeDoors = Act.setInactionIndicator from hx)
      · exact h.coh3 e (hsub e he2) hx
    · intro e he hx
      rcases (hmemi e).mp he with rfl | ⟨he2, -⟩
      · exact Act.noConfusion (show Act.closeDoors = Act.goUpAFloor from hx)
      · exact absurd (hx ▸ hnomovR e he2) (by decide)
    · intro e he hx
      rcases (hmemi e).mp he with rfl | ⟨he2, -⟩
      · exact Act.noConfusion (show Act.closeDoors = Act.goUpAFloor2 from hx)
      · exact absurd (hx ▸ hnomovR e he2) (by decide)
    · intro e he hx
      rcases (hmemi e).mp he with rfl | ⟨he2, -⟩
      · exact Act.noConfusion (show Act.closeDoors = Act.goDownAFloor from hx)
      · exact absurd (hx ▸ hnomovR e he2) (by decide)
    · intro e he hx
      rcases (hmemi e).mp he with rfl | ⟨he2, -⟩
      · exact Act.noConfusion (show Act.closeDoors = Act.goDownAFloor2 from hx)
      · exact absurd (hx ▸ hnomovR e he2) (by decide)
    · intro e he hx
      rcases (hmemi e).mp he with rfl | ⟨he2, -⟩
      · exact Act.noConfusion (show Act.closeDoors = Act.changeOfState from hx)
      · exact absurd (hx ▸ hnomovR e he2) (by decide)
    · rintro -
      refine ⟨?_, fun hq =>
        absurd (show (stepCloseDoors : Int) = stepWaitForCall from hq)
          (by decide)⟩
      intro e2 he2x
      rcases (hmemi e2).mp he2x with rfl | ⟨he3, -⟩
      · exact rfl
      · exact hbarR e2 he3
    · rintro ⟨e, he, hx⟩
      rcases (hmemi e).mp he with rfl | ⟨he2, -⟩
      · exact absurd (show Act.closeDoors = Act.waitForCall from hx)
          (fun hq => Act.noConfusion hq)
      · exact absurd (hx ▸ hbarR e he2) (by decide)
    · intro h5 e he
      rcases (hmemi e).mp he with rfl | ⟨he2, -⟩
      · exact rfl
      · exact hnomovR e he2
    · intro h5 e he
      rcases (hmemi e).mp he with rfl | ⟨he2, -⟩
      · exact rfl
      · exact hnomovR e he2
    · rintro ⟨e, he, hx⟩
      rcases (hmemi e).mp he with rfl | ⟨he2, -⟩
      · exact absurd (show Act.closeDoors = Act.prepareToMove from hx)
          (fun hq => Act.noConfusion hq)
      · exact absurd (hx ▸ hbarR e he2) (by decide)
    · intro e he u hx
      rcases (hmemi e).mp he with rfl | ⟨he2, -⟩
      · exact Act.noConfusion (show Act.closeDoors = Act.getIn u from hx)
      · exact absurd hx (no_getIn_after_pop s h en rest hw e he2 u)
    · intro e he u hx
      rcases (hmemi e).mp he with rfl | ⟨he2, -⟩
      · exact Option.noConfusion
          (show (none : Option User) = some u from hx)
      · exact h.actv e (hsub e he2) u hx
  · have hmid := inv_pop_flags s h en rest hw (by rw [ha]; rfl)
      stepCloseDoors s.ele.d1 s.ele.d2 false
      (fun _ => rfl)
      (fun _ e he => hnomovR e he)
      (fun hx => absurd hx (by decide))
      (fun hex => absurd hex.choose_spec.2 (hnoE5R hex.choose hex.choose_spec.1))
      (fun _ => rfl)
      (fun _ => rfl)
    exact inv_sched_elev1 _ hmid (fun e he => hnomovR e he)
      (fun e he u2 => no_getIn_after_pop s h en rest hw e he u2)
      Act.prepareToMove rfl rfl
      (fun _ hex => absurd hex.choose_spec.2 (hnoE5R hex.choose hex.choose_spec.1))
      (fun _ => rfl)
      (fun hx => Act.noConfusion hx)
      (fun u2 hx => Act.noConfusion hx)
      rfl 20 (by omega)

/-- Rescheduling the inaction handle with E9 preserves the invariant
when no movement action is pending. -/
theorem inv_sched_elev3_E9 (s : Simulator) (h : Inv0 s)
    (hnomov : noMovingPending s)
    (hng : ∀ en ∈ s.wait, ∀ u, en.act ≠ Act.getIn u)
    (d : Int) (hd : 0 ≤ d) :
    Inv0 (scheduleElevator s Handle.elev3 d Act.setInactionIndicator) := by
  obtain ⟨hNP, hsor, hfr, hnd⟩ :=
    sched_bulk s Handle.elev3 d Act.setInactionIndicator hd
      h.notPast h.sorted h.idsFresh h.idsNodup
  have hmemi := mem_scheduleElevator_iff s Handle.elev3 d Act.setInactionIndicator
  have hpost : scheduleElevator s Handle.elev3 d Act.setInactionIndicator =
      { s with
        wait := (scheduleElevator s Handle.elev3 d Act.setInactionIndicator).wait
        nextId := s.nextId + 1
        ele := { s.ele with elev3 := some s.nextId } } := by
    cases hh : s.ele.elev3 <;>
      simp [scheduleElevator, cancelId, insertWait, hh]
  rw [hpost]
  refine {
    floorLo := h.floorLo
    floorHi := h.floorHi
    timeNN := h.timeNN
    notPast := hNP
    sorted := hsor
    idsFresh := hfr
    idsNodup := hnd
    hFresh1 := fun i hi => Nat.lt_succ_of_lt (h.hFresh1 i hi)
    hFresh2 := fun i hi => Nat.lt_succ_of_lt (h.hFresh2 i hi)
    hFresh3 := ?_
    gFresh := fun uid i hi => Nat.lt_succ_of_lt (h.gFresh uid i hi)
    coh1 := ?_
    coh2 := ?_
    coh3 := ?_
    up1 := ?_
    up2 := ?_
    dn1 := ?_
    dn2 := ?_
    arr := ?_
    open9 := fun _ => h.open9 hnomov
    e5inv := ?_
    w0 := ?_
    st1 := h.st1
    st5 := ?_
    dd3 := ?_
    p6 := ?_
    getin := ?_
    actv := ?_
    qv := h.qv
    sv := h.sv }
  · intro i hi
    injection hi with hi2
    show i < s.nextId + 1
    omega
  · intro e he hx
    rcases (hmemi e).mp he with rfl | ⟨he2, -⟩
    · exact absurd
        (show isElev1Act Act.setInactionIndicator = true from hx) (by decide)
    · exact h.coh1 e he2 hx
  · intro e he hx
    rcases (hmemi e).mp he with rfl | ⟨he2, -⟩
    · exact Act.noConfusion
        (show Act.setInactionIndicator = Act.closeDoors from hx)
    · exact h.coh2 e he2 hx
  · intro e he hx
    rcases (hmemi e).mp he with rfl | ⟨he2, hni⟩
    · exact rfl
    · exact absurd rfl (hni e.id (h.coh3 e he2 hx))
  · intro e he hx
    rcases (hmemi e).mp he with rfl | ⟨he2, -⟩
    · exact Act.noConfusion
        (show Act.setInactionIndicator = Act.goUpAFloor from hx)
    · exact absurd (hx ▸ hnomov e he2) (by decide)
  · intro e he hx
    rcases (hmemi e).mp he with rfl | ⟨he2, -⟩
    · exact Act.noConfusion
        (show Act.setInactionIndicator = Act.goUpAFloor2 from hx)
    · exact absurd (hx ▸ hnomov e he2) (by decide)
  · intro e he hx
    rcases (hmemi e).mp he with rfl | ⟨he2, -⟩
    · exact Act.noConfusion
        (show Act.setInactionIndicator = Act.goDownAFloor from hx)
    · exact absurd (hx ▸ hnomov e he2) (by decide)
  · intro e he hx
    rcases (hmemi e).mp he with rfl | ⟨he2, -⟩
    · exact Act.noConfusion
        (show Act.setInactionIndicator = Act.goDownAFloor2 from hx)
    · exact absurd (hx ▸ hnomov e he2) (by decide)
  · intro e he hx
    rcases (hmemi e).mp he with rfl | ⟨he2, -⟩
    · exact Act.noConfusion
        (show Act.setInactionIndicator = Act.changeOfState from hx)
    · exact absurd (hx ▸ hnomov e he2) (by decide)
  · rintro ⟨e, he, hx⟩
    rcases (hmemi e).mp he with rfl | ⟨he2, -⟩
    · exact Act.noConfusion
        (show Act.setInactionIndicator = Act.closeDoors from hx)
    · have pre := h.e5inv ⟨e, he2, hx⟩
      refine ⟨?_, pre.2⟩
      intro e2 he2x
      rcases (hmemi e2).mp he2x with rfl | ⟨he3, -⟩
      · exact rfl
      · exact pre.1 e2 he3
  · rintro ⟨e, he, hx⟩
    rcases (hmemi e).mp he with rfl | ⟨he2, -⟩
    · exact absurd (show Act.setInactionIndicator = Act.waitForCall from hx)
        (fun hq => Act.noConfusion hq)
    · exact h.w0 ⟨e, he2, hx⟩
  · intro h5 e he
    rcases (hmemi e).mp he with rfl | ⟨he2, -⟩
    · exact rfl
    · exact hnomov e he2
  · intro h5 e he
    rcases (hmemi e).mp he with rfl | ⟨he2, -⟩
    · exact rfl
    · exact hnomov e he2
  · rintro ⟨e, he, hx⟩
    rcases (hmemi e).mp he with rfl | ⟨he2, -⟩
    · exact absurd (show Act.setInactionIndicator = Act.prepareToMove from hx)
        (fun hq => Act.noConfusion hq)
    · exact h.p6 ⟨e, he2, hx⟩
  · intro e he u hx
    rcases (hmemi e).mp he with rfl | ⟨he2, -⟩
    · exact Act.noConfusion
        (show Act.setInactionIndicator = Act.getIn u from hx)
    · exact absurd hx (hng e he2 u)
  · intro e he u hx
    rcases (hmemi e).mp he with rfl | ⟨he2, -⟩
    · exact Option.noConfusion (show (none : Option User) = some u from hx)
    · exact h.actv e he2 u hx

/-- Rescheduling the door handle with E5 preserves the invariant when no
movement action is pending, nothing pending is barred, and the car is
not in step E1. -/
theorem inv_sched_elev2_E5 (s : Simulator) (h : Inv0 s)
    (hnomov : noMovingPending s)
    (hng : ∀ en ∈ s.wait, ∀ u, en.act ≠ Act.getIn u)
    (hstep : s.ele.step ≠ stepWaitForCall)
    (hbarS : ∀ e ∈ s.wait, isBarredWithE5 e.act = false)
    (d : Int) (hd : 0 ≤ d) :
    Inv0 (scheduleElevator s Handle.elev2 d Act.closeDoors) := by
  obtain ⟨hNP, hsor, hfr, hnd⟩ :=
    sched_bulk s Handle.elev2 d Act.closeDoors hd
      h.notPast h.sorted h.idsFresh h.idsNodup
  have hmemi := mem_scheduleElevator_iff s Handle.elev2 d Act.closeDoors
  have hpost : scheduleElevator s Handle.elev2 d Act.closeDoors =
      { s with
        wait := (scheduleElevator s Handle.elev2 d Act.closeDoors).wait
        nextId := s.nextId + 1
        ele := { s.ele with elev2 := some s.nextId } } := by
    cases hh : s.ele.elev2 <;>
      simp [scheduleElevator, cancelId, insertWait, hh]
  rw [hpost]
  refine {
    floorLo := h.floorLo
    floorHi := h.floorHi
    timeNN := h.timeNN
    notPast := hNP
    sorted := hsor
    idsFresh := hfr
    idsNodup := hnd
    hFresh1 := fun i hi => Nat.lt_succ_of_lt (h.hFresh1 i hi)
    hFresh2 := ?_
    hFresh3 := fun i hi => Nat.lt_succ_of_lt (h.hFresh3 i hi)
    gFresh := fun uid i hi => Nat.lt_succ_of_lt (h.gFresh uid i hi)
    coh1 := ?_
    coh2 := ?_
    coh3 := ?_
    up1 := ?_
    up2 := ?_
    dn1 := ?_
    dn2 := ?_
    arr := ?_
    open9 := fun _ => h.open9 hnomov
    e5inv := ?_
    w0 := ?_
    st1 := h.st1
    st5 := ?_
    dd3 := ?_
    p6 := ?_
    getin := ?_
    actv := ?_
    qv := h.qv
    sv := h.sv }
  · intro i hi
    injection hi with hi2
    show i < s.nextId + 1
    omega
  · intro e he hx
    rcases (hmemi e).mp he with rfl | ⟨he2, -⟩
    · exact absurd (show isElev1Act Act.closeDoors = true from hx) (by decide)
    · exact h.coh1 e he2 hx
  · intro e he hx
    rcases (hmemi e).mp he with rfl | ⟨he2, hni⟩
    · exact rfl
    · exact absurd rfl (hni e.id (h.coh2 e he2 hx))
  · intro e he hx
    rcases (hmemi e).mp he with rfl | ⟨he2, -⟩
    · exact Act.noConfusion
        (show Act.closeDoors = Act.setInactionIndicator from hx)
    · exact h.coh3 e he2 hx
  · intro e he hx
    rcases (hmemi e).mp he with rfl | ⟨he2, -⟩
    · exact Act.noConfusion (show Act.closeDoors = Act.goUpAFloor from hx)
    · exact absurd (hx ▸ hnomov e he2) (by decide)
  · intro e he hx
    rcases (hmemi e).mp he with rfl | ⟨he2, -⟩
    · exact Act.noConfusion (show Act.closeDoors = Act.goUpAFloor2 from hx)
    · exact absurd (hx ▸ hnomov e he2) (by decide)
  · intro e he hx
    rcases (hmemi e).mp he with rfl | ⟨he2, -⟩
    · exact Act.noConfusion (show Act.closeDoors = Act.goDownAFloor from hx)
    · exact absurd (hx ▸ hnomov e he2) (by decide)
  · intro e he hx
    rcases (hmemi e).mp he with rfl | ⟨he2, -⟩
    · exact Act.noConfusion (show Act.closeDoors = Act.goDownAFloor2 from hx)
    · exact absurd (hx ▸ hnomov e he2) (by decide)
  · intro e he hx
    rcases (hmemi e).mp he with rfl | ⟨he2, -⟩
    · exact Act.noConfusion (show Act.closeDoors = Act.changeOfState from hx)
    · exact absurd (hx ▸ hnomov e he2) (by decide)
  · rintro -
    refine ⟨?_, hstep⟩
    intro e2 he2x
    rcases (hmemi e2).mp he2x with rfl | ⟨he3, -⟩
    · exact rfl
    · exact hbarS e2 he3
  · rintro ⟨e, he, hx⟩
    rcases (hmemi e).mp he with rfl | ⟨he2, -⟩
    · exact absurd (show Act.closeDoors = Act.waitForCall from hx)
        (fun hq => Act.noConfusion hq)
    · exact absurd (hx ▸ hbarS e he2) (by decide)
  · intro h5 e he
    rcases (hmemi e).mp he with rfl | ⟨he2, -⟩
    · exact rfl
    · exact hnomov e he2
  · intro h5 e he
    rcases (hmemi e).mp he with rfl | ⟨he2, -⟩
    · exact rfl
    · exact hnomov e he2
  · rintro ⟨e, he, hx⟩
    rcases (hmemi e).mp he with rfl | ⟨he2, -⟩
    · exact absurd (show Act.closeDoors = Act.prepareToMove from hx)
        (fun hq => Act.noConfusion hq)
    · exact absurd (hx ▸ hbarS e he2) (by decide)
  · intro e he u hx
    rcases (hmemi e).mp he with rfl | ⟨he2, -⟩
    · exact Act.noConfusion (show Act.closeDoors = Act.getIn u from hx)
    · exact absurd hx (hng e he2 u)
  · intro e he u hx
    rcases (hmemi e).mp he with rfl | ⟨he2, -⟩
    · exact Option.noConfusion (show (none : Option User) = some u from hx)
    · exact h.actv e he2 u hx

theorem inv_case_openDoors (s : Simulator) (h : Inv0 s) (en : WaitEntry)
    (rest : List WaitEntry) (hw : s.wait = en :: rest)
    (ha : en.act = Act.openDoors) :
    Inv0 (executeOpenDoors { s with wait := rest, time := en.nextTime }) := by
  obtain ⟨hmem0, hsub, htNN, hNP, hsor, hnd⟩ := pop_facts s h en rest hw
  have hnoE1R := uniq_elev1_after_pop s h en rest hw (by rw [ha]; rfl)
  have hnomovR : ∀ e ∈ rest, isMovingAct e.act = false := fun e he => by
    cases hmv : isMovingAct e.act
    · rfl
    · exact absurd (moving_isElev1 e.act hmv) (by rw [hnoE1R e he]; decide)
  have hngr : ∀ e ∈ rest, ∀ u2, e.act ≠ Act.getIn u2 :=
    fun e he u2 => no_getIn_after_pop s h en rest hw e he u2
  have hS0 : Inv0 { s with
      wait := rest
      time := en.nextTime
      ele := { s.ele with step := stepOpenDoors, d1 := true, d2 := true } } := by
    have := inv_pop_flags s h en rest hw (by rw [ha]; rfl)
      stepOpenDoors true true s.ele.d3
      (fun hq => absurd hq (by decide))
      (fun hq => absurd hq (by decide))
      (fun _ e he => hnomovR e he)
      (fun _ hq => absurd hq (by decide))
      (fun hex => absurd (hex.choose_spec.2 ▸ hnoE1R hex.choose
        hex.choose_spec.1) (by decide))
      (fun hex => absurd (hex.choose_spec.2 ▸ hnoE1R hex.choose
        hex.choose_spec.1) (by decide))
    exact this
  have hS1 : Inv0 (scheduleElevator { s with
      wait := rest
      time := en.nextTime
      ele := { s.ele with step := stepOpenDoors, d1 := true, d2 := true } }
      Handle.elev3 300 Act.setInactionIndicator) :=
    inv_sched_elev3_E9 _ hS0 (fun e he => hnomovR e he)
      (fun e he u2 => hngr e he u2) 300 (by omega)
  have hmm1 := mem_scheduleElevator_iff { s with
      wait := rest
      time := en.nextTime
      ele := { s.ele with step := stepOpenDoors, d1 := true, d2 := true } }
      Handle.elev3 300 Act.setInactionIndicator
  have hnomov1 : noMovingPending (scheduleElevator { s with
      wait := rest
      time := en.nextTime
      ele := { s.ele with step := stepOpenDoors, d1 := true, d2 := true } }
      Handle.elev3 300 Act.setInactionIndicator) := by
    intro e he
    rcases (hmm1 e).mp he with rfl | ⟨he2, -⟩
    · rfl
    · exact hnomovR e he2
  have hng1 : ∀ e ∈ (scheduleElevator { s with
      wait := rest
      time := en.nextTime
      ele := { s.ele with step := stepOpenDoors, d1 := true, d2 := true } }
      Handle.elev3 300 Act.setInactionIndicator).wait,
      ∀ u2, e.act ≠ Act.getIn u2 := by
    intro e he u2
    rcases (hmm1 e).mp he with rfl | ⟨he2, -⟩
    · exact fun hx => Act.noConfusion hx
    · exact hngr e he2 u2
  have hbar1 : ∀ e ∈ (scheduleElevator { s with
      wait := rest
      time := en.nextTime
      ele := { s.ele with step := stepOpenDoors, d1 := true, d2 := true } }
      Handle.elev3 300 Act.setInactionIndicator).wait,
      isBarredWithE5 e.act = false := by
    intro e he
    rcases (hmm1 e).mp he with rfl | ⟨he2, -⟩
    · rfl
    · cases hb : isBarredWithE5 e.act
      · rfl
      · exact absurd (barred_isElev1 e.act hb) (by rw [hnoE1R e he2]; decide)
  have hS2 : Inv0 (scheduleElevator (scheduleElevator { s with
      wait := rest
      time := en.nextTime
      ele := { s.ele with step := stepOpenDoors, d1 := true, d2 := true } }
      Handle.elev3 300 Act.setInactionIndicator)
      Handle.elev2 76 Act.closeDoors) :=
    inv_sched_elev2_E5 _ hS1 hnomov1 hng1
      (fun hq => by
        simp only [scheduleElevator_ele, setHandle_elev3] at hq
        exact absurd hq (by decide))
      hbar1 76 (by omega)
  have hmm2 := mem_scheduleElevator_iff (scheduleElevator { s with
      wait := rest
      time := en.nextTime
      ele := { s.ele with step := stepOpenDoors, d1 := true, d2 := true } }
      Handle.elev3 300 Act.setInactionIndicator)
      Handle.elev2 76 Act.closeDoors
  have hnomov2 : noMovingPending (scheduleElevator (scheduleElevator { s with
      wait := rest
      time := en.nextTime
      ele := { s.ele with step := stepOpenDoors, d1 := true, d2 := true } }
      Handle.elev3 300 Act.setInactionIndicator)
      Handle.elev2 76 Act.closeDoors) := by
    intro e he
    rcases (hmm2 e).mp he with rfl | ⟨he2, -⟩
    · rfl
    · exact hnomov1 e he2
  have hng2 : ∀ e ∈ (scheduleElevator (scheduleElevator { s with
      wait := rest
      time := en.nextTime
      ele := { s.ele with step := stepOpenDoors, d1 := true, d2 := true } }
      Handle.elev3 300 Act.setInactionIndicator)
      Handle.elev2 76 Act.closeDoors).wait,
      ∀ u2, e.act ≠ Act.getIn u2 := by
    intro e he u2
    rcases (hmm2 e).mp he with rfl | ⟨he2, -⟩
    · exact fun hx => Act.noConfusion hx
    · exact hng1 e he2 u2
  exact inv_sched_elev1 _ hS2 hnomov2 hng2 Act.letPeopleOutIn rfl rfl
    (fun hb => absurd hb (by decide))
    (fun hx => Act.noConfusion hx)
    (fun hx => Act.noConfusion hx)
    (fun u2 hx => Act.noConfusion hx)
    rfl 20 (by omega)

theorem inv_case_letPeopleOutIn (s : Simulator) (h : Inv0 s) (en : WaitEntry)
    (rest : List WaitEntry) (hw : s.wait = en :: rest)
    (ha : en.act = Act.letPeopleOutIn) :
    Inv0 (executeLetPeopleOutIn { s with wait := rest, time := en.nextTime }) := by
  obtain ⟨hmem0, hsub, htNN, hNP, hsor, hnd⟩ := pop_facts s h en rest hw
  have hnoE1R := uniq_elev1_after_pop s h en rest hw (by rw [ha]; rfl)
  have hnomovR : ∀ e ∈ rest, isMovingAct e.act = false := fun e he => by
    cases hmv : isMovingAct e.act
    · rfl
    · exact absurd (moving_isElev1 e.act hmv) (by rw [hnoE1R e he]; decide)
  have hngr : ∀ e ∈ rest, ∀ u2, e.act ≠ Act.getIn u2 :=
    fun e he u2 => no_getIn_after_pop s h en rest hw e he u2
  have hnomovS : noMovingPending s := by
    intro e he
    rcases List.mem_cons.mp (hw ▸ he) with rfl | he2
    · rw [ha]; rfl
    · exact hnomovR e he2
  have hS0 : Inv0 { s with
      wait := rest
      time := en.nextTime
      ele := { s.ele with step := stepLetPeopleOutIn } } := by
    have := inv_pop_flags s h en rest hw (by rw [ha]; rfl)
      stepLetPeopleOutIn s.ele.d1 s.ele.d2 s.ele.d3
      (fun hq => absurd hq (by decide))
      (fun hq => absurd hq (by decide))
      (fun _ e he => hnomovR e he)
      (fun _ hq => absurd hq (by decide))
      (fun hex => h.w0 ⟨hex.choose, hw ▸
        List.mem_cons_of_mem en hex.choose_spec.1, hex.choose_spec.2⟩)
      (fun hex => h.p6 ⟨hex.choose, hw ▸
        List.mem_cons_of_mem en hex.choose_spec.1, hex.choose_spec.2⟩)
    exact this
  simp only [executeLetPeopleOutIn]
  rcases hfind : s.ele.stack.find? (fun u => u.uout == s.ele.floor) with _ | u
  · rw [hfind]
    rcases hq : s.ele.queue s.ele.floor with _ | ⟨u, qrest⟩
    · show Inv0 { s with
        wait := rest
        time := en.nextTime
        ele := { s.ele with step := stepLetPeopleOutIn, d1 := false, d3 := true } }
      have := inv_pop_flags s h en rest hw (by rw [ha]; rfl)
        stepLetPeopleOutIn false s.ele.d2 true
        (fun hq2 => absurd hq2 (by decide))
        (fun hq2 => absurd hq2 (by decide))
        (fun _ e he => hnomovR e he)
        (fun _ hq2 => absurd hq2 (by decide))
        (fun hex => absurd (hex.choose_spec.2 ▸ hnoE1R hex.choose
          hex.choose_spec.1) (by decide))
        (fun hex => absurd (hex.choose_spec.2 ▸ hnoE1R hex.choose
          hex.choose_spec.1) (by decide))
      exact this
    · show Inv0 (scheduleElevator (immedWait { s with
          wait := rest
          time := en.nextTime
          ele := { s.ele with step := stepLetPeopleOutIn } } (Act.getIn u))
        Handle.elev1 25 Act.letPeopleOutIn)
      have huq : u ∈ s.ele.queue s.ele.floor := by
        rw [hq]
        exact List.mem_cons_self u qrest
      obtain ⟨hvalu, huin⟩ := h.qv s.ele.floor u huq
      obtain ⟨b1NP, b1sor, b1fr, b1nd⟩ := immed_bulk { s with
          wait := rest
          time := en.nextTime
          ele := { s.ele with step := stepLetPeopleOutIn } } (Act.getIn u)
        hNP hsor (fun e he => h.idsFresh e (hsub e he)) hnd
      obtain ⟨b2NP, b2sor, b2fr, b2nd⟩ := sched_bulk (immedWait { s with
          wait := rest
          time := en.nextTime
          ele := { s.ele with step := stepLetPeopleOutIn } } (Act.getIn u))
        Handle.elev1 25 Act.letPeopleOutIn (by omega) b1NP b1sor b1fr b1nd
      have hspec := immedThenSched_spec { s with
          wait := rest
          time := en.nextTime
          ele := { s.ele with step := stepLetPeopleOutIn } } (Act.getIn u)
        (fun i hi => h.hFresh1 i hi)
      have hmemS1 : ∀ e, e ∈ (immedWait { s with
          wait := rest
          time := en.nextTime
          ele := { s.ele with step := stepLetPeopleOutIn } }
            (Act.getIn u)).wait ↔
          e = ⟨s.nextId, en.nextTime, Act.getIn u⟩ ∨ e ∈ rest := fun e => by
        rw [immedWait_wait]
        exact List.mem_cons
      have hmem := mem_scheduleElevator_iff (immedWait { s with
          wait := rest
          time := en.nextTime
          ele := { s.ele with step := stepLetPeopleOutIn } } (Act.getIn u))
        Handle.elev1 25 Act.letPeopleOutIn
      have hpost : scheduleElevator (immedWait { s with
          wait := rest
          time := en.nextTime
          ele := { s.ele with step := stepLetPeopleOutIn } } (Act.getIn u))
          Handle.elev1 25 Act.letPeopleOutIn =
          { s with
            wait := (scheduleElevator (immedWait { s with
              wait := rest
              time := en.nextTime
              ele := { s.ele with step := stepLetPeopleOutIn } } (Act.getIn u))
              Handle.elev1 25 Act.letPeopleOutIn).wait
            time := en.nextTime
            nextId := s.nextId + 2
            ele := { s.ele with
              step := stepLetPeopleOutIn
              elev1 := some (s.nextId + 1) } } := by
        cases hh : s.ele.elev1 <;>
          simp [scheduleElevator, cancelId, insertWait, immedWait, immed, hh]
      rw [hpost]
      refine {
        floorLo := h.floorLo
        floorHi := h.floorHi
        timeNN := htNN
        notPast := b2NP
        sorted := b2sor
        idsFresh := b2fr
        idsNodup := b2nd
        hFresh1 := ?_
        hFresh2 := fun i hi =>
          Nat.lt_succ_of_lt (Nat.lt_succ_of_lt (h.hFresh2 i hi))
        hFresh3 := fun i hi =>
          Nat.lt_succ_of_lt (Nat.lt_succ_of_lt (h.hFresh3 i hi))
        gFresh := fun uid i hi =>
          Nat.lt_succ_of_lt (Nat.lt_succ_of_lt (h.gFresh uid i hi))
        coh1 := ?_
        coh2 := ?_
        coh3 := ?_
        up1 := ?_
        up2 := ?_
        dn1 := ?_
        dn2 := ?_
        arr := ?_
        open9 := fun _ => h.open9 hnomovS
        e5inv := ?_
        w0 := ?_
        st1 := fun hq2 =>
          absurd (show stepLetPeopleOutIn = stepWaitForCall from hq2) (by decide)
        st5 := fun hq2 =>
          absurd (show stepLetPeopleOutIn = stepCloseDoors from hq2) (by decide)
        dd3 := ?_
        p6 := ?_
        getin := ?_
        actv := ?_
        qv := h.qv
        sv := h.sv }
      · intro i hi
        injection hi with hi2
        show i < s.nextId + 2
        omega
      · intro e he hx
        rcases (hmem e).mp he with rfl | ⟨he2, -⟩
        · exact rfl
        · rcases (hmemS1 e).mp he2 with rfl | heR
          · exact absurd (show isElev1Act (Act.getIn u) = true from hx)
              (by rw [show isElev1Act (Act.getIn u) = false from rfl]; decide)
          · exact absurd hx (by rw [hnoE1R e heR]; decide)
      · intro e he hx
        rcases (hmem e).mp he with rfl | ⟨he2, -⟩
        · exact Act.noConfusion
            (show Act.letPeopleOutIn = Act.closeDoors from hx)
        · rcases (hmemS1 e).mp he2 with rfl | heR
          · exact Act.noConfusion (show Act.getIn u = Act.closeDoors from hx)
          · exact h.coh2 e (hsub e heR) hx
      · intro e he hx
        rcases (hmem e).mp he with rfl | ⟨he2, -⟩
        · exact Act.noConfusion
            (show Act.letPeopleOutIn = Act.setInactionIndicator from hx)
        · rcases (hmemS1 e).mp he2 with rfl | heR
          · exact Act.noConfusion
              (show Act.getIn u = Act.setInactionIndicator from hx)
          · exact h.coh3 e (hsub e heR) hx
      · intro e he hx
        rcases (hmem e).mp he with rfl | ⟨he2, -⟩
        · exact Act.noConfusion
            (show Act.letPeopleOutIn = Act.goUpAFloor from hx)
        · rcases (hmemS1 e).mp he2 with rfl | heR
          · exact Act.noConfusion (show Act.getIn u = Act.goUpAFloor from hx)
          · exact absurd (hx ▸ hnomovR e heR) (by decide)
      · intro e he hx
        rcases (hmem e).mp he with rfl | ⟨he2, -⟩
        · exact Act.noConfusion
            (show Act.letPeopleOutIn = Act.goUpAFloor2 from hx)
        · rcases (hmemS1 e).mp he2 with rfl | heR
          · exact Act.noConfusion (show Act.getIn u = Act.goUpAFloor2 from hx)
          · exact absurd (hx ▸ hnomovR e heR) (by decide)
      · intro e he hx
        rcases (hmem e).mp he with rfl | ⟨he2, -⟩
        · exact Act.noConfusion
            (show Act.letPeopleOutIn = Act.goDownAFloor from hx)
        · rcases (hmemS1 e).mp he2 with rfl | heR
          · exact Act.noConfusion (show Act.getIn u = Act.goDownAFloor from hx)
          · exact absurd (hx ▸ hnomovR e heR) (by decide)
      · intro e he hx
        rcases (hmem e).mp he with rfl | ⟨he2, -⟩
        · exact Act.noConfusion
            (show Act.letPeopleOutIn = Act.goDownAFloor2 from hx)
        · rcases (hmemS1 e).mp he2 with rfl | heR
          · exact Act.noConfusion (show Act.getIn u = Act.goDownAFloor2 from hx)
          · exact absurd (hx ▸ hnomovR e heR) (by decide)
      · intro e he hx
        rcases (hmem e).mp he with rfl | ⟨he2, -⟩
        · exact Act.noConfusion
            (show Act.letPeopleOutIn = Act.changeOfState from hx)
        · rcases (hmemS1 e).mp he2 with rfl | heR
          · exact Act.noConfusion (show Act.getIn u = Act.changeOfState from hx)
          · exact absurd (hx ▸ hnomovR e heR) (by decide)
      · rintro ⟨e, he, hx⟩
        have hxrest : ∃ e2 ∈ rest, e2.act = Act.closeDoors := by
          rcases (hmem e).mp he with rfl | ⟨he2, -⟩
          · exact absurd (show Act.letPeopleOutIn = Act.closeDoors from hx)
              (fun hq2 => Act.noConfusion hq2)
          · rcases (hmemS1 e).mp he2 with rfl | heR
            · exact absurd (show Act.getIn u = Act.closeDoors from hx)
                (fun hq2 => Act.noConfusion hq2)
            · exact ⟨e, heR, hx⟩
        obtain ⟨e2, he2R, hx2⟩ := hxrest
        have pre := h.e5inv ⟨e2, hsub e2 he2R, hx2⟩
        refine ⟨?_, fun hq2 =>
          absurd (show stepLetPeopleOutIn = stepWaitForCall from hq2)
            (by decide)⟩
        intro e3 he3x
        rcases (hmem e3).mp he3x with rfl | ⟨he4, -⟩
        · exact rfl
        · rcases (hmemS1 e3).mp he4 with rfl | heR3
          · exact rfl
          · exact pre.1 e3 (hsub e3 heR3)
      · rintro ⟨e, he, hx⟩
        rcases (hmem e).mp he with rfl | ⟨he2, -⟩
        · exact absurd (show Act.letPeopleOutIn = Act.waitForCall from hx)
            (fun hq2 => Act.noConfusion hq2)
        · rcases (hmemS1 e).mp he2 with rfl | heR
          · exact absurd (show Act.getIn u = Act.waitForCall from hx)
              (fun hq2 => Act.noConfusion hq2)
          · exact absurd (hx ▸ hnoE1R e heR) (by decide)
      · intro hd3t e he
        rcases (hmem e).mp he with rfl | ⟨he2, -⟩
        · exact rfl
        · rcases (hmemS1 e).mp he2 with rfl | heR
          · exact rfl
          · exact hnomovR e heR
      · rintro ⟨e, he, hx⟩
        rcases (hmem e).mp he with rfl | ⟨he2, -⟩
        · exact absurd (show Act.letPeopleOutIn = Act.prepareToMove from hx)
            (fun hq2 => Act.noConfusion hq2)
        · rcases (hmemS1 e).mp he2 with rfl | heR
          · exact absurd (show Act.getIn u = Act.prepareToMove from hx)
              (fun hq2 => Act.noConfusion hq2)
          · exact absurd (hx ▸ hnoE1R e heR) (by decide)
      · intro e he u2 hx
        rcases (hmem e).mp he with rfl | ⟨he2, -⟩
        · exact absurd (show Act.letPeopleOutIn = Act.getIn u2 from hx)
            (fun hq2 => Act.noConfusion hq2)
        · rcases (hmemS1 e).mp he2 with rfl | heR
          · have hu2 : u = u2 := by
              injection (show Act.getIn u = Act.getIn u2 from hx) with hinj
            subst hu2
            refine ⟨hspec.1, huin, rfl, ?_⟩
            exact ⟨⟨s.nextId + 1, en.nextTime + 25, Act.letPeopleOutIn⟩,
              hspec.2.2, rfl⟩
          · exact absurd hx (hngr e heR u2)
      · intro e he u2 hx
        rcases (hmem e).mp he with rfl | ⟨he2, -⟩
        · exact Option.noConfusion (show (none : Option User) = some u2 from hx)
        · rcases (hmemS1 e).mp he2 with rfl | heR
          · have hu2 : u = u2 := by
              injection (show some u = some u2 from hx) with hinj
            subst hu2
            exact hvalu
          · exact h.actv e (hsub e heR) u2 hx
  · rw [hfind]
    show Inv0 (scheduleElevator (immedWait { s with
        wait := rest
        time := en.nextTime
        ele := { s.ele with step := stepLetPeopleOutIn } } (Act.getOut u))
      Handle.elev1 25 Act.letPeopleOutIn)
    have hvalu : validUser u :=
      h.sv u (List.mem_of_find?_eq_some hfind)
    have hS1 : Inv0 (immedWait { s with
        wait := rest
        time := en.nextTime
        ele := { s.ele with step := stepLetPeopleOutIn } } (Act.getOut u)) :=
      inv_immed_user_act _ hS0 (fun e he u2 => hngr e he u2)
        (Act.getOut u) rfl rfl rfl
        (fun u2 hx => Act.noConfusion hx)
        (fun hx => Act.noConfusion hx)
        (fun hx => Act.noConfusion hx)
        (fun hx => Act.noConfusion hx)
        (fun hx => Act.noConfusion hx)
        (fun u2 hx => by
          injection (show some u = some u2 from hx) with hinj
          subst hinj
          exact hvalu)
    have hmemS1 : ∀ e, e ∈ (immedWait { s with
        wait := rest
        time := en.nextTime
        ele := { s.ele with step := stepLetPeopleOutIn } }
          (Act.getOut u)).wait ↔
        e = ⟨s.nextId, en.nextTime, Act.getOut u⟩ ∨ e ∈ rest := fun e => by
      rw [immedWait_wait]
      exact List.mem_cons
    refine inv_sched_elev1 _ hS1 ?_ ?_ Act.letPeopleOutIn rfl rfl
      (fun hb => absurd hb (by decide))
      (fun hx => Act.noConfusion hx)
      (fun hx => Act.noConfusion hx)
      (fun u2 hx => Act.noConfusion hx)
      rfl 25 (by omega)
    · intro e he
      rcases (hmemS1 e).mp he with rfl | heR
      · rfl
      · exact hnomovR e heR
    · intro e he u2
      rcases (hmemS1 e).mp he with rfl | heR
      · exact fun hx => Act.noConfusion hx
      · exact hngr e heR u2

/-- Unlinking an arbitrary WAIT-list node preserves the invariant when
no movement action and no boarding action is pending. -/
theorem inv_cancel_nomov (s : Simulator) (h : Inv0 s)
    (hnomov : noMovingPending s)
    (hng : ∀ en ∈ s.wait, ∀ u, en.act ≠ Act.getIn u)
    (ho : Option Nat) :
    Inv0 (cancelId s ho) := by
  have hpost : cancelId s ho = { s with wait := (cancelId s ho).wait } := by
    cases ho <;> simp [cancelId]
  rw [hpost]
  have hsubC : ∀ e ∈ (cancelId s ho).wait, e ∈ s.wait :=
    fun e he => ((mem_cancel_iff s ho e).mp he).1
  exact {
    floorLo := h.floorLo
    floorHi := h.floorHi
    timeNN := h.timeNN
    notPast := fun e he => h.notPast e (hsubC e he)
    sorted := sorted_cancel s ho h.sorted
    idsFresh := fun e he => h.idsFresh e (hsubC e he)
    idsNodup := nodup_cancel s ho h.idsNodup
    hFresh1 := h.hFresh1
    hFresh2 := h.hFresh2
    hFresh3 := h.hFresh3
    gFresh := h.gFresh
    coh1 := fun e he hx => h.coh1 e (hsubC e he) hx
    coh2 := fun e he hx => h.coh2 e (hsubC e he) hx
    coh3 := fun e he hx => h.coh3 e (hsubC e he) hx
    up1 := fun e he hx => h.up1 e (hsubC e he) hx
    up2 := fun e he hx => h.up2 e (hsubC e he) hx
    dn1 := fun e he hx => h.dn1 e (hsubC e he) hx
    dn2 := fun e he hx => h.dn2 e (hsubC e he) hx
    arr := fun e he hx => h.arr e (hsubC e he) hx
    open9 := fun _ => h.open9 hnomov
    e5inv := fun ⟨e, he, hx⟩ =>
      ⟨fun e2 he2 => (h.e5inv ⟨e, hsubC e he, hx⟩).1 e2 (hsubC e2 he2),
        (h.e5inv ⟨e, hsubC e he, hx⟩).2⟩
    w0 := fun ⟨e, he, hx⟩ => h.w0 ⟨e, hsubC e he, hx⟩
    st1 := h.st1
    st5 := fun _ e he => hnomov e (hsubC e he)
    dd3 := fun _ e he => hnomov e (hsubC e he)
    p6 := fun ⟨e, he, hx⟩ => h.p6 ⟨e, hsubC e he, hx⟩
    getin := fun e he u hx => absurd hx (hng e (hsubC e he) u)
    actv := fun e he u hx => h.actv e (hsubC e he) u hx
    qv := h.qv
    sv := h.sv }

/-- Boarding: pushing a valid user onto the manifest and pressing a car
button preserves the invariant. -/
theorem inv_board (s : Simulator) (h : Inv0 s) (u : User)
    (hval : validUser u) (j : Int) :
    Inv0 { s with ele := { s.ele with
      stack := u :: s.ele.stack
      callCar := upd s.ele.callCar j true } } := by
  have hmore : ∀ k, anyCallAt s.ele k = true →
      anyCallAt { s.ele with
        stack := u :: s.ele.stack
        callCar := upd s.ele.callCar j true } k = true := by
    intro k hk
    by_cases hkj : k = j
    · simp [anyCallAt, upd, hkj]
    · simpa [anyCallAt, upd, hkj] using hk
  refine {
    floorLo := h.floorLo
    floorHi := h.floorHi
    timeNN := h.timeNN
    notPast := h.notPast
    sorted := h.sorted
    idsFresh := h.idsFresh
    idsNodup := h.idsNodup
    hFresh1 := h.hFresh1
    hFresh2 := h.hFresh2
    hFresh3 := h.hFresh3
    gFresh := h.gFresh
    coh1 := h.coh1
    coh2 := h.coh2
    coh3 := h.coh3
    up1 := ?_
    up2 := ?_
    dn1 := ?_
    dn2 := ?_
    arr := h.arr
    open9 := ?_
    e5inv := h.e5inv
    w0 := h.w0
    st1 := h.st1
    st5 := h.st5
    dd3 := h.dd3
    p6 := h.p6
    getin := h.getin
    actv := h.actv
    qv := h.qv
    sv := ?_ }
  · intro e he hx
    obtain ⟨o1, o2, o3⟩ := h.up1 e he hx
    exact ⟨o1, o2, o3.imp (callAbove_mono s.ele _ rfl hmore) id⟩
  · intro e he hx
    obtain ⟨o1, o2⟩ := h.up2 e he hx
    exact ⟨o1, o2.imp (callAtOrAbove_mono s.ele _ rfl hmore) id⟩
  · intro e he hx
    obtain ⟨o1, o2, o3⟩ := h.dn1 e he hx
    exact ⟨o1, o2, o3.imp (callBelow_mono s.ele _ rfl hmore) id⟩
  · intro e he hx
    obtain ⟨o1, o2⟩ := h.dn2 e he hx
    exact ⟨o1, o2.imp (callAtOrBelow_mono s.ele _ rfl hmore) id⟩
  · intro hg
    obtain ⟨o1, o2⟩ := h.open9 hg
    refine ⟨fun h7 => ?_, fun h8 => ?_⟩
    · exact (o1 h7).imp (callAbove_mono s.ele _ rfl hmore) id
    · exact (o2 h8).imp (callBelow_mono s.ele _ rfl hmore) id
  · intro v hv
    rcases List.mem_cons.mp hv with rfl | hv2
    · exact hval
    · exact h.sv v hv2

theorem inv_case_getIn (s : Simulator) (h : Inv0 s) (en : WaitEntry)
    (rest : List WaitEntry) (hw : s.wait = en :: rest) (u : User)
    (ha : en.act = Act.getIn u) :
    Inv0 (userGetIn { s with wait := rest, time := en.nextTime } u) := by
  have hmem0 : en ∈ s.wait := hw ▸ List.mem_cons_self en rest
  have hvalu : validUser u := h.actv en hmem0 u (by rw [ha]; rfl)
  obtain ⟨hhead, huin, hstep4, hletp⟩ := h.getin en hmem0 u ha
  obtain ⟨eL, heLs, haL⟩ := hletp
  have heLr : eL ∈ rest := by
    rcases List.mem_cons.mp (hw ▸ heLs) with rfl | h2
    · exact absurd (ha.symm.trans haL) (fun hq => Act.noConfusion hq)
    · exact h2
  have huniq1 : ∀ e ∈ rest, isElev1Act e.act = true → e = eL := by
    intro e he hx
    have h1 := h.coh1 e (hw ▸ List.mem_cons_of_mem en he) hx
    have h2 := h.coh1 eL heLs (by rw [haL]; rfl)
    have hid : e.id = eL.id := by
      rw [h1] at h2
      exact Option.some_inj.mp h2
    exact List.inj_on_of_nodup_map h.idsNodup
      (hw ▸ List.mem_cons_of_mem en he) heLs hid
  have hnomovR : ∀ e ∈ rest, isMovingAct e.act = false := by
    intro e he
    cases hmv : isMovingAct e.act
    · rfl
    · have heq := huniq1 e he (moving_isElev1 e.act hmv)
      rw [heq, haL] at hmv
      cases hmv
  have hbarR : ∀ e ∈ rest, isBarredWithE5 e.act = false := by
    intro e he
    cases hb : isBarredWithE5 e.act
    · rfl
    · have heq := huniq1 e he (barred_isElev1 e.act hb)
      rw [heq, haL] at hb
      cases hb
  have hngr : ∀ e ∈ rest, ∀ u2, e.act ≠ Act.getIn u2 :=
    fun e he u2 => no_getIn_after_pop s h en rest hw e he u2
  have hA : Inv0 { s with
      wait := rest
      time := en.nextTime
      ele := { s.ele with
        queue := updQ s.ele.queue u.uin
          ((s.ele.queue u.uin).filter (fun v => decide (v.id ≠ u.id)))
        stack := s.ele.stack.filter (fun v => decide (v.id ≠ u.id)) } } := by
    refine inv_pop_container s h en rest hw (by rw [ha]; rfl) _ _ ?_ ?_
    · intro f v hv
      have hv2 : v ∈ (if f = u.uin then
          (s.ele.queue u.uin).filter (fun v => decide (v.id ≠ u.id))
        else s.ele.queue f) := hv
      by_cases hfu : f = u.uin
      · subst hfu
        rw [if_pos rfl] at hv2
        exact (List.mem_filter.mp hv2).1
      · rw [if_neg hfu] at hv2
        exact hv2
    · intro v hv
      exact (List.mem_filter.mp hv).1
  have hstepNe : s.ele.step = stepWaitForCall → False := fun hq =>
    absurd (hstep4.symm.trans hq) (by decide)
  simp only [userGetIn, deleteListNode]
  rcases hgu : s.giveUpH u.id with _ | gid
  · have hC := inv_board _ hA u hvalu u.uout
    split_ifs with hneu hdir
    · have h4 := inv_setState _ hC (fun e he => hnomovR e he) stateGoingUp
        (fun _ => Or.inl ⟨u.uout,
          show s.ele.floor < u.uout from huin ▸ hdir,
          hvalu.2.2.2.1,
          by simp [anyCallAt, upd]⟩)
        (fun hq => absurd hq (by decide))
      exact inv_sched_elev2_E5 _ h4 (fun e he => hnomovR e he)
        (fun e he u2 => hngr e he u2) hstepNe
        (fun e he => hbarR e he) 25 (by omega)
    · have hne := hvalu.2.2.2.2.1
      have h4 := inv_setState _ hC (fun e he => hnomovR e he) stateGoingDown
        (fun hq => absurd hq (by decide))
        (fun _ => Or.inl ⟨u.uout, hvalu.2.2.1,
          show u.uout < s.ele.floor from by
            rw [← huin]
            omega,
          by simp [anyCallAt, upd]⟩)
      exact inv_sched_elev2_E5 _ h4 (fun e he => hnomovR e he)
        (fun e he u2 => hngr e he u2) hstepNe
        (fun e he => hbarR e he) 25 (by omega)
    · exact hC
  · have hB := inv_cancel_nomov _ hA (fun e he => hnomovR e he)
      (fun e he u2 => hngr e he u2) (some gid)
    have hsubF : ∀ e ∈ (rest.filter (fun en2 => decide (en2.id ≠ gid))),
        e ∈ rest := fun e he => (List.mem_filter.mp he).1
    have hC := inv_board _ hB u hvalu u.uout
    split_ifs with hneu hdir
    · have h4 := inv_setState _ hC (fun e he => hnomovR e (hsubF e he))
        stateGoingUp
        (fun _ => Or.inl ⟨u.uout,
          show s.ele.floor < u.uout from huin ▸ hdir,
          hvalu.2.2.2.1,
          by simp [anyCallAt, upd]⟩)
        (fun hq => absurd hq (by decide))
      exact inv_sched_elev2_E5 _ h4 (fun e he => hnomovR e (hsubF e he))
        (fun e he u2 => hngr e (hsubF e he) u2) hstepNe
        (fun e he => hbarR e (hsubF e he)) 25 (by omega)
    · have hne := hvalu.2.2.2.2.1
      have h4 := inv_setState _ hC (fun e he => hnomovR e (hsubF e he))
        stateGoingDown
        (fun hq => absurd hq (by decide))
        (fun _ => Or.inl ⟨u.uout, hvalu.2.2.1,
          show u.uout < s.ele.floor from by
            rw [← huin]
            omega,
          by simp [anyCallAt, upd]⟩)
      exact inv_sched_elev2_E5 _ h4 (fun e he => hnomovR e (hsubF e he))
        (fun e he u2 => hngr e (hsubF e he) u2) hstepNe
        (fun e he => hbarR e (hsubF e he)) 25 (by omega)
    · exact hC

/-- The travel state only ever holds GOINGUP, GOINGDOWN or NEUTRAL. -/
def stateDom (e : Elevator) : Prop :=
  e.state = stateGoingUp ∨ e.state = stateGoingDown ∨ e.state = stateNeutral

theorem stateDom_decisionD4 (s : Simulator) (j : Int)
    (hd : stateDom s.ele) : stateDom (decisionD4 s j).ele := by
  simp only [decisionD4]
  split_ifs <;>
    simp only [stateDom, scheduleElevator_ele, setHandle_elev1] <;>
    first
      | exact Or.inl trivial
      | exact Or.inr (Or.inl trivial)
      | exact Or.inl rfl
      | exact Or.inr (Or.inl rfl)
      | exact hd

theorem stateDom_decision (s : Simulator) (hd : stateDom s.ele) :
    stateDom (decision s).ele := by
  simp only [decision]
  split_ifs with h1 h2 h6
  · exact hd
  · simp only [stateDom, scheduleElevator_ele, setHandle_elev1]
    exact hd
  · rcases hdd : (intRange 0 floors).find?
        (fun j => decide (j ≠ s.ele.floor) && anyCallAt s.ele j) with _ | j
    · exact stateDom_decisionD4 s 2 hd
    · exact stateDom_decisionD4 s j hd
  · rcases hdd : (intRange 0 floors).find?
        (fun j => decide (j ≠ s.ele.floor) && anyCallAt s.ele j) with _ | j
    · exact hd
    · exact stateDom_decisionD4 s j hd

/-- The call-register clearing at the head of step E6 (the statements of
`executePrepareToMove` before the DECISION call). -/
def prepClear (e : Elevator) : Elevator :=
  let e1 := { e with step := stepPrepareToMove }
  let e2 := { e1 with callCar := upd e1.callCar e1.floor false }
  let e3 :=
    if e2.state ≠ stateGoingDown then
      { e2 with callUp := upd e2.callUp e2.floor false }
    else e2
  if e3.state ≠ stateGoingUp then
    { e3 with callDown := upd e3.callDown e3.floor false }
  else e3

/-- The tail of step E6 after the DECISION call. -/
def prepTail (s1 : Simulator) : Simulator :=
  if s1.ele.state = stateNeutral then
    scheduleElevatorImmediately s1 Handle.elev1 Act.waitForCall
  else
    let s2 := if s1.ele.d2 then cancelId s1 s1.ele.elev3 else s1
    if s1.ele.state = stateGoingUp then
      scheduleElevator s2 Handle.elev1 15 Act.goUpAFloor
    else
      scheduleElevator s2 Handle.elev1 15 Act.goDownAFloor

theorem executePrepareToMove_eq (s : Simulator) :
    executePrepareToMove s =
      prepTail (decision { s with ele := prepClear s.ele }) := rfl

theorem prepClear_elev1 (e : Elevator) : (prepClear e).elev1 = e.elev1 := by
  simp only [prepClear]
  split_ifs <;> rfl

theorem prepClear_elev2 (e : Elevator) : (prepClear e).elev2 = e.elev2 := by
  simp only [prepClear]
  split_ifs <;> rfl

theorem prepClear_elev3 (e : Elevator) : (prepClear e).elev3 = e.elev3 := by
  simp only [prepClear]
  split_ifs <;> rfl

theorem prepClear_queue (e : Elevator) : (prepClear e).queue = e.queue := by
  simp only [prepClear]
  split_ifs <;> rfl

theorem prepClear_stack (e : Elevator) : (prepClear e).stack = e.stack := by
  simp only [prepClear]
  split_ifs <;> rfl

theorem prepClear_floor (e : Elevator) : (prepClear e).floor = e.floor := by
  simp only [prepClear]
  split_ifs <;> rfl

theorem prepClear_state (e : Elevator) : (prepClear e).state = e.state := by
  simp only [prepClear]
  split_ifs <;> rfl

theorem prepClear_step (e : Elevator) :
    (prepClear e).step = stepPrepareToMove := by
  simp only [prepClear]
  split_ifs <;> rfl

theorem prepClear_d3 (e : Elevator) : (prepClear e).d3 = e.d3 := by
  simp only [prepClear]
  split_ifs <;> rfl

theorem prepClear_calls (e : Elevator) (j : Int) (hj : j ≠ e.floor) :
    anyCallAt (prepClear e) j = anyCallAt e j := by
  simp only [prepClear]
  split_ifs <;> simp [anyCallAt, upd, hj]

/-- Scheduling a movement action through the primary handle on a state
with no movement pending, no door-closing pending, D3 off and the
matching call obligation. -/
theorem inv_sched_elev1_mov (s : Simulator) (h : Inv0 s)
    (hnomov : noMovingPending s)
    (hng : ∀ en ∈ s.wait, ∀ u, en.act ≠ Act.getIn u)
    (hnoE5S : ¬ ∃ e ∈ s.wait, e.act = Act.closeDoors)
    (hd3 : s.ele.d3 = false)
    (hst5 : s.ele.step = stepCloseDoors → False)
    (a : Act) (hamov : isMovingAct a = true)
    (hup1 : a = Act.goUpAFloor → s.ele.state = stateGoingUp ∧
      s.ele.floor ≤ 3 ∧ (callAbove s.ele ∨ s.ele.floor ≤ 1))
    (hup2 : a = Act.goUpAFloor2 → s.ele.state = stateGoingUp ∧
      (callAtOrAbove s.ele ∨ s.ele.floor ≤ 2))
    (hdn1 : a = Act.goDownAFloor → s.ele.state = stateGoingDown ∧
      1 ≤ s.ele.floor ∧ (callBelow s.ele ∨ 3 ≤ s.ele.floor))
    (hdn2 : a = Act.goDownAFloor2 → s.ele.state = stateGoingDown ∧
      (callAtOrBelow s.ele ∨ 2 ≤ s.ele.floor))
    (harr : a = Act.changeOfState → s.ele.state ≠ stateNeutral)
    (d : Int) (hd : 0 ≤ d) :
    Inv0 (scheduleElevator s Handle.elev1 d a) := by
  obtain ⟨hNP, hsor, hfr, hnd⟩ :=
    sched_bulk s Handle.elev1 d a hd h.notPast h.sorted h.idsFresh h.idsNodup
  have hmemi := mem_scheduleElevator_iff s Handle.elev1 d a
  have haUser : actUser a = none := by
    cases a <;> simp_all [isMovingAct, actUser]
  have hpost : scheduleElevator s Handle.elev1 d a =
      { s with
        wait := (scheduleElevator s Handle.elev1 d a).wait
        nextId := s.nextId + 1
        ele := { s.ele with elev1 := some s.nextId } } := by
    cases hh : s.ele.elev1 <;>
      simp [scheduleElevator, cancelId, insertWait, hh]
  rw [hpost]
  have hmemNew : (⟨s.nextId, s.time + d, a⟩ : WaitEntry) ∈
      (scheduleElevator s Handle.elev1 d a).wait :=
    (hmemi _).mpr (Or.inl rfl)
  refine {
    floorLo := h.floorLo
    floorHi := h.floorHi
    timeNN := h.timeNN
    notPast := hNP
    sorted := hsor
    idsFresh := hfr
    idsNodup := hnd
    hFresh1 := ?_
    hFresh2 := fun i hi => Nat.lt_succ_of_lt (h.hFresh2 i hi)
    hFresh3 := fun i hi => Nat.lt_succ_of_lt (h.hFresh3 i hi)
    gFresh := fun uid i hi => Nat.lt_succ_of_lt (h.gFresh uid i hi)
    coh1 := ?_
    coh2 := ?_
    coh3 := ?_
    up1 := ?_
    up2 := ?_
    dn1 := ?_
    dn2 := ?_
    arr := ?_
    open9 := fun hg => absurd
      (show isMovingAct a = false from hg _ hmemNew) (by simp [hamov])
    e5inv := ?_
    w0 := fun _ => hd3
    st1 := fun _ => hd3
    st5 := fun h5 => (hst5 h5).elim
    dd3 := fun hx3 => absurd (hd3.symm.trans hx3) (by decide)
    p6 := fun _ => hd3
    getin := ?_
    actv := ?_
    qv := h.qv
    sv := h.sv }
  · intro i hi
    injection hi with hi2
    show i < s.nextId + 1
    omega
  · intro e he hx
    rcases (hmemi e).mp he with rfl | ⟨he2, hni⟩
    · exact rfl
    · exact absurd rfl (hni e.id (h.coh1 e he2 hx))
  · intro e he hx
    rcases (hmemi e).mp he with rfl | ⟨he2, -⟩
    · have hxa : a = Act.closeDoors := hx
      rw [hxa] at hamov
      exact absurd hamov (by decide)
    · exact h.coh2 e he2 hx
  · intro e he hx
    rcases (hmemi e).mp he with rfl | ⟨he2, -⟩
    · have hxa : a = Act.setInactionIndicator := hx
      rw [hxa] at hamov
      exact absurd hamov (by decide)
    · exact h.coh3 e he2 hx
  · intro e he hx
    rcases (hmemi e).mp he with rfl | ⟨he2, -⟩
    · exact hup1 hx
    · exact absurd (hx ▸ hnomov e he2) (by decide)
  · intro e he hx
    rcases (hmemi e).mp he with rfl | ⟨he2, -⟩
    · exact hup2 hx
    · exact absurd (hx ▸ hnomov e he2) (by decide)
  · intro e he hx
    rcases (hmemi e).mp he with rfl | ⟨he2, -⟩
    · exact hdn1 hx
    · exact absurd (hx ▸ hnomov e he2) (by decide)
  · intro e he hx
    rcases (hmemi e).mp he with rfl | ⟨he2, -⟩
    · exact hdn2 hx
    · exact absurd (hx ▸ hnomov e he2) (by decide)
  · intro e he hx
    rcases (hmemi e).mp he with rfl | ⟨he2, -⟩
    · exact harr hx
    · exact absurd (hx ▸ hnomov e he2) (by decide)
  · rintro ⟨e, he, hx⟩
    rcases (hmemi e).mp he with rfl | ⟨he2, -⟩
    · have hxa : a = Act.closeDoors := hx
      rw [hxa] at hamov
      exact absurd hamov (by decide)
    · exact absurd ⟨e, he2, hx⟩ hnoE5S
  · intro e he u hx
    rcases (hmemi e).mp he with rfl | ⟨he2, -⟩
    · have hxa : a = Act.getIn u := hx
      rw [hxa] at hamov
      exact absurd hamov (by simp [isMovingAct])
    · exact absurd hx (hng e he2 u)
  · intro e he u hx
    rcases (hmemi e).mp he with rfl | ⟨he2, -⟩
    · have hxa : actUser a = some u := hx
      rw [haUser] at hxa
      cases hxa
    · exact h.actv e he2 u hx

/-- The branch structure after the DECISION call of step E6 preserves
the invariant. -/
theorem inv_prepTail (s1 : Simulator) (h1 : Inv0 s1)
    (hdom1 : stateDom s1.ele)
    (hnomov1 : noMovingPending s1)
    (hng1 : ∀ en ∈ s1.wait, ∀ u, en.act ≠ Act.getIn u)
    (hnoE51 : ¬ ∃ e ∈ s1.wait, e.act = Act.closeDoors)
    (hd31 : s1.ele.d3 = false)
    (hstep1 : s1.ele.step = stepPrepareToMove) :
    Inv0 (prepTail s1) := by
  have hf5 : floors = 5 := rfl
  have hup : s1.ele.state = stateGoingUp →
      s1.ele.state = stateGoingUp ∧ s1.ele.floor ≤ 3 ∧
        (callAbove s1.ele ∨ s1.ele.floor ≤ 1) := by
    intro hgu
    have hw := (h1.open9 hnomov1).1 hgu
    refine ⟨hgu, ?_, hw⟩
    rcases hw with ⟨j, hj1, hj2, -⟩ | hle
    · rw [hf5] at hj2
      have := h1.floorHi
      omega
    · omega
  have hdn : s1.ele.state = stateGoingDown →
      s1.ele.state = stateGoingDown ∧ 1 ≤ s1.ele.floor ∧
        (callBelow s1.ele ∨ 3 ≤ s1.ele.floor) := by
    intro hgd
    have hw := (h1.open9 hnomov1).2 hgd
    refine ⟨hgd, ?_, hw⟩
    rcases hw with ⟨j, hj1, hj2, -⟩ | hge
    · omega
    · omega
  have hst5ne : s1.ele.step = stepCloseDoors → False := fun hq =>
    absurd (hstep1.symm.trans hq) (by decide)
  simp only [prepTail]
  split_ifs with hneu hgu hd2 hd2
  · exact inv_schedImm_elev1 s1 h1 hnomov1 hng1 Act.waitForCall rfl rfl
      (fun _ => hnoE51)
      (fun hx => Act.noConfusion hx)
      (fun _ => hd31)
      (fun u hx => Act.noConfusion hx)
      rfl
  · have hX := inv_cancel_nomov s1 h1 hnomov1 hng1 s1.ele.elev3
    have hXe : (cancelId s1 s1.ele.elev3).ele = s1.ele := cancelId_ele s1 s1.ele.elev3
    have hsubX : ∀ e ∈ (cancelId s1 s1.ele.elev3).wait, e ∈ s1.wait :=
      fun e he => ((mem_cancel_iff s1 _ e).mp he).1
    refine inv_sched_elev1_mov _ hX
      (fun e he => hnomov1 e (hsubX e he))
      (fun e he u => hng1 e (hsubX e he) u)
      (fun ⟨e, he, hx⟩ => hnoE51 ⟨e, hsubX e he, hx⟩)
      (by rw [hXe]; exact hd31)
      (fun hq => hst5ne (hXe ▸ hq))
      Act.goUpAFloor rfl
      (fun _ => by rw [hXe]; exact hup hgu)
      (fun hx => Act.noConfusion hx)
      (fun hx => Act.noConfusion hx)
      (fun hx => Act.noConfusion hx)
      (fun hx => Act.noConfusion hx)
      15 (by omega)
  · exact inv_sched_elev1_mov s1 h1 hnomov1 hng1 hnoE51 hd31 hst5ne
      Act.goUpAFloor rfl
      (fun _ => hup hgu)
      (fun hx => Act.noConfusion hx)
      (fun hx => Act.noConfusion hx)
      (fun hx => Act.noConfusion hx)
      (fun hx => Act.noConfusion hx)
      15 (by omega)
  · have hgd : s1.ele.state = stateGoingDown := by
      rcases hdom1 with hq | hq | hq
      · exact absurd hq hgu
      · exact hq
      · exact absurd hq hneu
    have hX := inv_cancel_nomov s1 h1 hnomov1 hng1 s1.ele.elev3
    have hXe : (cancelId s1 s1.ele.elev3).ele = s1.ele := cancelId_ele s1 s1.ele.elev3
    have hsubX : ∀ e ∈ (cancelId s1 s1.ele.elev3).wait, e ∈ s1.wait :=
      fun e he => ((mem_cancel_iff s1 _ e).mp he).1
    refine inv_sched_elev1_mov _ hX
      (fun e he => hnomov1 e (hsubX e he))
      (fun e he u => hng1 e (hsubX e he) u)
      (fun ⟨e, he, hx⟩ => hnoE51 ⟨e, hsubX e he, hx⟩)
      (by rw [hXe]; exact hd31)
      (fun hq => hst5ne (hXe ▸ hq))
      Act.goDownAFloor rfl
      (fun hx => Act.noConfusion hx)
      (fun hx => Act.noConfusion hx)
      (fun _ => by rw [hXe]; exact hdn hgd)
      (fun hx => Act.noConfusion hx)
      (fun hx => Act.noConfusion hx)
      15 (by omega)
  · have hgd : s1.ele.state = stateGoingDown := by
      rcases hdom1 with hq | hq | hq
      · exact absurd hq hgu
      · exact hq
      · exact absurd hq hneu
    exact inv_sched_elev1_mov s1 h1 hnomov1 hng1 hnoE51 hd31 hst5ne
      Act.goDownAFloor rfl
      (fun hx => Act.noConfusion hx)
      (fun hx => Act.noConfusion hx)
      (fun _ => hdn hgd)
      (fun hx => Act.noConfusion hx)
      (fun hx => Act.noConfusion hx)
      15 (by omega)

theorem inv_case_prepareToMove (s : Simulator) (h : Inv0 s)
    (hdom : stateDom s.ele) (en : WaitEntry)
    (rest : List WaitEntry) (hw : s.wait = en :: rest)
    (ha : en.act = Act.prepareToMove) :
    Inv0 (executePrepareToMove { s with wait := rest, time := en.nextTime }) := by
  have hmem0 : en ∈ s.wait := hw ▸ List.mem_cons_self en rest
  have hd3 : s.ele.d3 = false := h.p6 ⟨en, hmem0, ha⟩
  have hnoE1R := uniq_elev1_after_pop s h en rest hw (by rw [ha]; rfl)
  have hnomovR : ∀ e ∈ rest, isMovingAct e.act = false := fun e he => by
    cases hmv : isMovingAct e.act
    · rfl
    · exact absurd (moving_isElev1 e.act hmv) (by rw [hnoE1R e he]; decide)
  have hnoE5R : ¬ ∃ e ∈ rest, e.act = Act.closeDoors := by
    rintro ⟨e, he, hx⟩
    have := (h.e5inv ⟨e, hw ▸ List.mem_cons_of_mem en he, hx⟩).1 en hmem0
    rw [ha] at this
    cases this
  have hnomovS : noMovingPending s := by
    intro e he
    rcases List.mem_cons.mp (hw ▸ he) with rfl | he2
    · rw [ha]; rfl
    · exact hnomovR e he2
  have hngr : ∀ e ∈ rest, ∀ u2, e.act ≠ Act.getIn u2 :=
    fun e he u2 => no_getIn_after_pop s h en rest hw e he u2
  rw [executePrepareToMove_eq]
  have hM : Inv0 { s with
      wait := rest
      time := en.nextTime
      ele := prepClear s.ele } := by
    refine inv_pop_ele_nomov s h en rest hw (by rw [ha]; rfl) _
      (prepClear_elev1 s.ele) (prepClear_elev2 s.ele) (prepClear_elev3 s.ele)
      (prepClear_queue s.ele) (prepClear_stack s.ele)
      ((prepClear_floor s.ele).symm ▸ h.floorLo)
      ((prepClear_floor s.ele).symm ▸ h.floorHi)
      ((prepClear_d3 s.ele).trans hd3)
      ?_ ?_
    · intro h7
      rw [prepClear_state] at h7
      rcases (h.open9 hnomovS).1 h7 with ⟨j, hj1, hj2, hj3⟩ | hle
      · refine Or.inl ⟨j, ?_, hj2, ?_⟩
        · rw [prepClear_floor]
          exact hj1
        · rw [prepClear_calls s.ele j (by omega)]
          exact hj3
      · refine Or.inr ?_
        rw [prepClear_floor]
        exact hle
    · intro h8
      rw [prepClear_state] at h8
      rcases (h.open9 hnomovS).2 h8 with ⟨j, hj1, hj2, hj3⟩ | hge
      · refine Or.inl ⟨j, hj1, ?_, ?_⟩
        · rw [prepClear_floor]
          exact hj2
        · rw [prepClear_calls s.ele j (by omega)]
          exact hj3
      · refine Or.inr ?_
        rw [prepClear_floor]
        exact hge
  have hDM := inv_decision _ hM (fun e he u2 => hngr e he u2)
  have hsubD := decision_wait_sub { s with
      wait := rest
      time := en.nextTime
      ele := prepClear s.ele }
  have hframe := decision_frame { s with
      wait := rest
      time := en.nextTime
      ele := prepClear s.ele }
  refine inv_prepTail _ hDM ?_ ?_ ?_ ?_ ?_ ?_
  · refine stateDom_decision _ ?_
    show stateDom (prepClear s.ele)
    rcases hdom with hq | hq | hq
    · exact Or.inl ((prepClear_state s.ele).trans hq)
    · exact Or.inr (Or.inl ((prepClear_state s.ele).trans hq))
    · exact Or.inr (Or.inr ((prepClear_state s.ele).trans hq))
  · intro e he
    rcases hsubD e he with hin | hod | hpm
    · exact hnomovR e hin
    · rw [hod]; rfl
    · rw [hpm]; rfl
  · intro e he u2
    rcases hsubD e he with hin | hod | hpm
    · exact hngr e hin u2
    · exact fun hx => Act.noConfusion (hod.symm.trans hx)
    · exact fun hx => Act.noConfusion (hpm.symm.trans hx)
  · rintro ⟨e, he, hx⟩
    rcases hsubD e he with hin | hod | hpm
    · exact hnoE5R ⟨e, hin, hx⟩
    · exact Act.noConfusion (hod.symm.trans hx)
    · exact Act.noConfusion (hpm.symm.trans hx)
  · exact hframe.2.2.2.2.1.trans ((prepClear_d3 s.ele).trans hd3)
  · exact hframe.1.trans (prepClear_step s.ele)

theorem stateDom_changeOfStateEle (e : Elevator) (hd : stateDom e) :
    stateDom (changeOfStateEle e) := by
  simp only [changeOfStateEle]
  split_ifs <;>
    simp only [stateDom, clearFloorCalls_state] <;>
    first
      | exact Or.inl trivial
      | exact Or.inr (Or.inl trivial)
      | exact Or.inr (Or.inr trivial)
      | exact Or.inl rfl
      | exact Or.inr (Or.inl rfl)
      | exact Or.inr (Or.inr rfl)
      | exact hd

theorem stateDom_prepClear (e : Elevator) (hd : stateDom e) :
    stateDom (prepClear e) := by
  rcases hd with hq | hq | hq
  · exact Or.inl ((prepClear_state e).trans hq)
  · exact Or.inr (Or.inl ((prepClear_state e).trans hq))
  · exact Or.inr (Or.inr ((prepClear_state e).trans hq))

theorem stateDom_prepTail (s1 : Simulator) (hd : stateDom s1.ele) :
    stateDom (prepTail s1).ele := by
  simp only [prepTail]
  split_ifs <;>
    simp only [stateDom, scheduleElevator_ele, scheduleElevatorImmediately_ele,
      setHandle_elev1, cancelId_ele] <;>
    exact hd

/-- No action ever writes a travel-state value other than GOINGUP,
GOINGDOWN or NEUTRAL. -/
theorem stateDom_execute (o : Oracle) (a : Act) (s : Simulator)
    (hd : stateDom s.ele) : stateDom (execute o a s).ele := by
  cases a with
  | waitForCall => exact hd
  | changeOfState =>
      show stateDom (scheduleElevatorImmediately
        { s with ele := changeOfStateEle s.ele } Handle.elev1 Act.openDoors).ele
      simp only [stateDom, scheduleElevatorImmediately_ele, setHandle_elev1]
      exact stateDom_changeOfStateEle s.ele hd
  | openDoors =>
      show stateDom (executeOpenDoors s).ele
      simp only [executeOpenDoors, stateDom, scheduleElevator_ele,
        setHandle_elev1, setHandle_elev2, setHandle_elev3]
      exact hd
  | letPeopleOutIn =>
      show stateDom (executeLetPeopleOutIn s).ele
      simp only [executeLetPeopleOutIn]
      rcases hf : s.ele.stack.find? (fun u => u.uout == s.ele.floor) with _ | u
      · rw [hf]
        rcases hq : s.ele.queue s.ele.floor with _ | ⟨u, t⟩
        · exact hd
        · simp only [stateDom, scheduleElevator_ele, setHandle_elev1,
            immedWait_ele]
          exact hd
      · rw [hf]
        simp only [stateDom, scheduleElevator_ele, setHandle_elev1,
          immedWait_ele]
        exact hd
  | closeDoors =>
      show stateDom (executeCloseDoors s).ele
      simp only [executeCloseDoors]
      split_ifs <;>
        simp only [stateDom, scheduleElevator_ele, setHandle_elev1,
          setHandle_elev2] <;>
        exact hd
  | prepareToMove =>
      show stateDom (executePrepareToMove s).ele
      rw [executePrepareToMove_eq]
      exact stateDom_prepTail _ (stateDom_decision _ (stateDom_prepClear s.ele hd))
  | goUpAFloor =>
      show stateDom (executeGoUpAFloor s).ele
      simp only [executeGoUpAFloor, stateDom, scheduleElevator_ele,
        setHandle_elev1]
      exact hd
  | goUpAFloor2 =>
      show stateDom (executeGoUpAFloor2 s).ele
      simp only [executeGoUpAFloor2]
      split_ifs <;>
        simp only [stateDom, scheduleElevator_ele,
          scheduleElevatorImmediately_ele, setHandle_elev1] <;>
        exact hd
  | goDownAFloor =>
      show stateDom (executeGoDownAFloor s).ele
      simp only [executeGoDownAFloor, stateDom, scheduleElevator_ele,
        setHandle_elev1]
      exact hd
  | goDownAFloor2 =>
      show stateDom (executeGoDownAFloor2 s).ele
      simp only [executeGoDownAFloor2]
      split_ifs <;>
        simp only [stateDom, scheduleElevator_ele,
          scheduleElevatorImmediately_ele, setHandle_elev1] <;>
        exact hd
  | setInactionIndicator => exact stateDom_decision _ hd
  | enterPrepare => exact hd
  | signalAndWait u =>
      show stateDom (userSignalAndWait s u).ele
      simp only [userSignalAndWait, immedWait_ele]
      split_ifs <;>
        first
          | (simp only [stateDom, scheduleElevatorImmediately_ele,
              setHandle_elev1]
             exact hd)
          | exact stateDom_decision _ hd
          | exact hd
  | enterQueue u => exact hd
  | giveUp u =>
      show stateDom (userGiveUp s u).ele
      simp only [userGiveUp]
      split_ifs <;> exact hd
  | getIn u =>
      show stateDom (userGetIn s u).ele
      simp only [userGetIn, deleteListNode]
      rcases hg : s.giveUpH u.id with _ | gid <;>
        (split_ifs <;>
          simp only [stateDom, scheduleElevator_ele, setHandle_elev2,
            cancelId_ele] <;>
          first
            | exact Or.inl trivial
            | exact Or.inr (Or.inl trivial)
            | exact Or.inl rfl
            | exact Or.inr (Or.inl rfl)
            | exact hd)
  | getOut u => exact hd

/-- The run invariant: either the car satisfies the full inductive
invariant with a lawful travel state, or the loop has stopped with the
floor still in range. -/
def InvR (s : Simulator) : Prop :=
  (Inv0 s ∧ stateDom s.ele) ∨
    (s.halted = true ∧ 0 ≤ s.ele.floor ∧ s.ele.floor ≤ 4)

/-- One main-loop iteration preserves the run invariant. -/
theorem invR_mainStep (o : Oracle) (ho : oracleValid o) (s : Simulator)
    (h : InvR s) : InvR (mainStep o s) := by
  rcases h with ⟨h0, hdm⟩ | ⟨hh, hlo, hhi⟩
  · by_cases hh : s.halted = true
    · simp only [mainStep]
      rw [if_pos hh]
      exact Or.inl ⟨h0, hdm⟩
    · have hh2 : s.halted = false := Bool.eq_false_iff.mpr hh
      simp only [mainStep]
      rw [if_neg (show ¬ s.halted = true from by
        rw [hh2]; exact Bool.false_ne_true)]
      rcases hwc : s.wait with _ | ⟨en, rest⟩
      · exact Or.inr ⟨rfl, h0.floorLo, h0.floorHi⟩
      · show InvR (if en.nextTime ≥ maxTime then
            { s with
              wait := rest
              time := en.nextTime
              halted := true }
          else execute o en.act { s with wait := rest, time := en.nextTime })
        split_ifs with hmax
        · exact Or.inr ⟨rfl, h0.floorLo, h0.floorHi⟩
        · refine Or.inl ⟨?_, stateDom_execute o en.act _ hdm⟩
          cases haa : en.act with
          | waitForCall => exact inv_case_waitForCall s h0 en rest hwc haa
          | changeOfState => exact inv_case_changeOfState s h0 en rest hwc haa
          | openDoors => exact inv_case_openDoors s h0 en rest hwc haa
          | letPeopleOutIn => exact inv_case_letPeopleOutIn s h0 en rest hwc haa
          | closeDoors => exact inv_case_closeDoors s h0 en rest hwc haa
          | prepareToMove =>
              exact inv_case_prepareToMove s h0 hdm en rest hwc haa
          | goUpAFloor => exact inv_case_goUpAFloor s h0 en rest hwc haa
          | goUpAFloor2 => exact inv_case_goUpAFloor2 s h0 en rest hwc haa
          | goDownAFloor => exact inv_case_goDownAFloor s h0 en rest hwc haa
          | goDownAFloor2 => exact inv_case_goDownAFloor2 s h0 en rest hwc haa
          | setInactionIndicator =>
              exact inv_case_setInactionIndicator s h0 en rest hwc haa
          | enterPrepare => exact inv_case_enterPrepare o ho s h0 en rest hwc haa
          | signalAndWait u => exact inv_case_signalAndWait s h0 en rest hwc u haa
          | enterQueue u => exact inv_case_enterQueue s h0 en rest hwc u haa
          | giveUp u => exact inv_case_giveUp s h0 en rest hwc u haa
          | getIn u => exact inv_case_getIn s h0 en rest hwc u haa
          | getOut u => exact inv_case_getOut s h0 en rest hwc u haa
  · simp only [mainStep]
    rw [if_pos hh]
    exact Or.inr ⟨hh, hlo, hhi⟩

/-- The state entering the main loop satisfies the invariant. -/
theorem inv_initSim (o : Oracle) (ho : oracleValid o) : Inv0 (initSim o) := by
  obtain ⟨hr1a, hr1b, hr2a, hr2b, hr3a, hr3b, hr4a, hr4b⟩ := ho
  set uInit : User :=
    ⟨1, o.r1, if o.r2 ≥ o.r1 then o.r2 + 1 else o.r2,
      minGiveUpTime + o.r3⟩ with huInit
  have hvalid : validUser uInit := by
    have hm : minGiveUpTime = 300 := rfl
    have hf : floors = 5 := rfl
    rw [hf] at hr1b hr2b
    simp only [huInit, validUser, hm, hf]
    refine ⟨hr1a, hr1b, ?_, ?_, ?_, ?_⟩ <;> (try split_ifs) <;> omega
  have hmem : ∀ e, e ∈ (initSim o).wait ↔
      e = ⟨1, 0, Act.signalAndWait uInit⟩ ∨
      e = ⟨0, 0 + (minInterTime + o.r4), Act.enterPrepare⟩ := by
    intro e
    show e ∈ (⟨1, 0, Act.signalAndWait uInit⟩ ::
      sortIn [] ⟨0, 0 + (minInterTime + o.r4), Act.enterPrepare⟩ :
        List WaitEntry) ↔ _
    rw [List.mem_cons, mem_sortIn]
    simp
  refine {
    floorLo := ?_
    floorHi := ?_
    timeNN := le_refl 0
    notPast := ?_
    sorted := ?_
    idsFresh := ?_
    idsNodup := ?_
    hFresh1 := fun i hi => Option.noConfusion
      (show (none : Option Nat) = some i from hi)
    hFresh2 := fun i hi => Option.noConfusion
      (show (none : Option Nat) = some i from hi)
    hFresh3 := fun i hi => Option.noConfusion
      (show (none : Option Nat) = some i from hi)
    gFresh := fun uid i hi => Option.noConfusion
      (show (none : Option Nat) = some i from hi)
    coh1 := ?_
    coh2 := ?_
    coh3 := ?_
    up1 := ?_
    up2 := ?_
    dn1 := ?_
    dn2 := ?_
    arr := ?_
    open9 := fun _ =>
      ⟨fun h7 => absurd (show stateNeutral = stateGoingUp from h7) (by decide),
       fun h8 => absurd (show stateNeutral = stateGoingDown from h8) (by decide)⟩
    e5inv := ?_
    w0 := fun _ => rfl
    st1 := fun _ => rfl
    st5 := ?_
    dd3 := fun hx => absurd (show false = true from hx) (by decide)
    p6 := fun _ => rfl
    getin := ?_
    actv := ?_
    qv := ?_
    sv := ?_ }
  · show (0 : Int) ≤ floorHome
    decide
  · show (floorHome : Int) ≤ 4
    decide
  · intro e he
    rcases (hmem e).mp he with rfl | rfl
    · exact le_refl 0
    · show (0 : Int) ≤ 0 + (minInterTime + o.r4)
      rw [show minInterTime = 10 from rfl]
      omega
  · show agendaSorted (⟨1, 0, Act.signalAndWait uInit⟩ ::
      sortIn [] ⟨0, 0 + (minInterTime + o.r4), Act.enterPrepare⟩ :
        List WaitEntry)
    refine List.Pairwise.cons ?_ ?_
    · intro e he
      have he2 := (mem_sortIn _ _ _).mp he
      simp only [List.not_mem_nil, or_false] at he2
      subst he2
      show (0 : Int) ≤ 0 + (minInterTime + o.r4)
      rw [show minInterTime = 10 from rfl]
      omega
    · show agendaSorted [⟨0, 0 + (minInterTime + o.r4), Act.enterPrepare⟩]
      exact List.pairwise_singleton _ _
  · intro e he
    rcases (hmem e).mp he with rfl | rfl
    · show (1 : Nat) < 2
      decide
    · show (0 : Nat) < 2
      decide
  · show (List.map WaitEntry.id (⟨1, 0, Act.signalAndWait uInit⟩ ::
      sortIn [] ⟨0, 0 + (minInterTime + o.r4), Act.enterPrepare⟩ :
        List WaitEntry)).Nodup
    show ([1, 0] : List Nat).Nodup
    decide
  · intro e he hx
    rcases (hmem e).mp he with rfl | rfl
    · exact Bool.noConfusion (show false = true from hx)
    · exact Bool.noConfusion (show false = true from hx)
  · intro e he hx
    rcases (hmem e).mp he with rfl | rfl
    · exact Act.noConfusion (show Act.signalAndWait uInit = Act.closeDoors from hx)
    · exact Act.noConfusion (show Act.enterPrepare = Act.closeDoors from hx)
  · intro e he hx
    rcases (hmem e).mp he with rfl | rfl
    · exact Act.noConfusion
        (show Act.signalAndWait uInit = Act.setInactionIndicator from hx)
    · exact Act.noConfusion
        (show Act.enterPrepare = Act.setInactionIndicator from hx)
  · intro e he hx
    rcases (hmem e).mp he with rfl | rfl
    · exact Act.noConfusion (show Act.signalAndWait uInit = Act.goUpAFloor from hx)
    · exact Act.noConfusion (show Act.enterPrepare = Act.goUpAFloor from hx)
  · intro e he hx
    rcases (hmem e).mp he with rfl | rfl
    · exact Act.noConfusion (show Act.signalAndWait uInit = Act.goUpAFloor2 from hx)
    · exact Act.noConfusion (show Act.enterPrepare = Act.goUpAFloor2 from hx)
  · intro e he hx
    rcases (hmem e).mp he with rfl | rfl
    · exact Act.noConfusion (show Act.signalAndWait uInit = Act.goDownAFloor from hx)
    · exact Act.noConfusion (show Act.enterPrepare = Act.goDownAFloor from hx)
  · intro e he hx
    rcases (hmem e).mp he with rfl | rfl
    · exact Act.noConfusion
        (show Act.signalAndWait uInit = Act.goDownAFloor2 from hx)
    · exact Act.noConfusion (show Act.enterPrepare = Act.goDownAFloor2 from hx)
  · intro e he hx
    rcases (hmem e).mp he with rfl | rfl
    · exact Act.noConfusion
        (show Act.signalAndWait uInit = Act.changeOfState from hx)
    · exact Act.noConfusion (show Act.enterPrepare = Act.changeOfState from hx)
  · rintro ⟨e, he, hx⟩
    rcases (hmem e).mp he with rfl | rfl
    · exact Act.noConfusion (show Act.signalAndWait uInit = Act.closeDoors from hx)
    · exact Act.noConfusion (show Act.enterPrepare = Act.closeDoors from hx)
  · intro h5 e he
    rcases (hmem e).mp he with rfl | rfl
    · rfl
    · rfl
  · intro e he u2 hx
    rcases (hmem e).mp he with rfl | rfl
    · exact Act.noConfusion (show Act.signalAndWait uInit = Act.getIn u2 from hx)
    · exact Act.noConfusion (show Act.enterPrepare = Act.getIn u2 from hx)
  · intro e he u2 hx
    rcases (hmem e).mp he with rfl | rfl
    · have hu2 : uInit = u2 := by
        injection (show some uInit = some u2 from hx) with hinj
      subst hu2
      exact hvalid
    · exact Option.noConfusion (show (none : Option User) = some u2 from hx)
  · intro f u2 hu2
    exact absurd (show u2 ∈ ([] : List User) from hu2) (List.not_mem_nil u2)
  · intro u2 hu2
    exact absurd (show u2 ∈ ([] : List User) from hu2) (List.not_mem_nil u2)

theorem invR_init (o : Oracle) (ho : oracleValid o) : InvR (initSim o) :=
  Or.inl ⟨inv_initSim o ho, Or.inr (Or.inr rfl)⟩

theorem invR_runN (os : Nat → Oracle) (hos : ∀ k, oracleValid (os k))
    (n : Nat) : InvR (runN os n) := by
  induction n with
  | zero => exact invR_init (os 0) (hos 0)
  | succ m ih => exact invR_mainStep (os (m + 1)) (hos (m + 1)) _ ih

/-- C8: in every state reachable during a run whose random draws lie in
the ranges `rand.Int31n` guarantees, the elevator's floor stays within
0..4 inclusive — E7 never increments the floor above 4 and E8 never
decrements it below 0 — so every per-floor access to the call registers
and to `queue[floor]` is within array bounds. -/
theorem C8_floor_in_range (os : Nat → Oracle)
    (hos : ∀ k, oracleValid (os k)) (n : Nat) :
    0 ≤ (runN os n).ele.floor ∧ (runN os n).ele.floor ≤ 4 := by
  rcases invR_runN os hos n with ⟨h0, -⟩ | ⟨-, hlo, hhi⟩
  · exact ⟨h0.floorLo, h0.floorHi⟩
  · exact ⟨hlo, hhi⟩

theorem C8_floor_in_range_witness :
    (∀ k : Nat, oracleValid ((fun _ => (⟨0, 0, 0, 0⟩ : Oracle)) k)) ∧
    (0 ≤ (runN (fun _ => (⟨0, 0, 0, 0⟩ : Oracle)) 6).ele.floor ∧
      (runN (fun _ => (⟨0, 0, 0, 0⟩ : Oracle)) 6).ele.floor ≤ 4) :=
  ⟨fun _ => show oracleValid ⟨0, 0, 0, 0⟩ from by decide,
    C8_floor_in_range (fun _ => (⟨0, 0, 0, 0⟩ : Oracle))
      (fun _ => show oracleValid ⟨0, 0, 0, 0⟩ from by decide) 6⟩

end SafetyCases

end KnuthElevator
